import Mathlib

/-!
# Verification of the twinkle-lisp VM specification claims

This file embeds the relevant parts of `src/lisp.c` (the Lisp VM of the
twinkle-lisp runtime) as Lean definitions and settles the claims C1..C10
about them.  Machine integers are modelled as `Nat`/`Int` with explicit
wraparound where relevant; C pointers to heap objects are modelled either
structurally (for immutable data) or as indices into an explicit store
(for mutable data); fallible primitives return `Except`.
-/

namespace Twinkle

/-! ## C10: the `input-port?` primitive (`apply_primitive`, case `S_INPUT_PORTP`)

In `lisp.c` the handler reads

    case S_INPUT_PORTP: {
        if (CAR(args)->type == O_PORT && !((Lisp_Port*)CAR(args))->out) {
            lisp_push(vm, LISP_FALSE);
        } else {
            lisp_push(vm, LISP_FALSE);
        }
        break;
    }

We embed the argument as far as the handler inspects it: its type tag and,
for ports, the `out` direction flag. -/

/-- The object type tags of `lisp.c` (enum `Object_Type`) that primitive
dispatch distinguishes in the fragments embedded here. -/
inductive ObjType where
  | number | string | symbol | pair | array | dict | buffer | port | stream
  | env | proc | nativeProc | macroT | objectEx | sourceFile | sourceMapping
  deriving DecidableEq, Repr

/-- What the `S_INPUT_PORTP` handler can observe about its argument:
the type tag, and the port's `out` flag when the tag is `O_PORT`. -/
structure PortpArg where
  type : ObjType
  out : Bool
  deriving DecidableEq, Repr

/-- Result values pushed by the handler: `LISP_TRUE` or `LISP_FALSE`
(interned constant symbols). -/
inductive BoolV where
  | lispTrue | lispFalse
  deriving DecidableEq, Repr

/-- Embedding of `apply_primitive`'s `S_INPUT_PORTP` case: both branches of
the conditional push `LISP_FALSE`. -/
def opInputPortP (arg : PortpArg) : BoolV :=
  if arg.type = ObjType.port ∧ arg.out = false then
    BoolV.lispFalse
  else
    BoolV.lispFalse

/-- **C10.** For every argument value, the `input-port?` primitive returns
false: both branches of its conditional push `LISP_FALSE`, so it returns
false even when the argument is an open input port. -/
theorem inputPortP_always_false (arg : PortpArg) :
    opInputPortP arg = BoolV.lispFalse := by
  unfold opInputPortP
  split <;> rfl

/-! ## C4 / C5: `op_catch`, `op_throw`, `throw_error`

`op_catch` (lisp.c:4420-4436) saves the current nonlocal-escape target
(`vm->catch`), the eval level, the value-stack depth `cnt` and the current
environment pointer, runs `eval_list` on its body under `setjmp`, and then —
on either the normal or the `longjmp` path — restores level, target and
environment, stores the top-of-stack value at index `cnt` and truncates the
stack to `cnt+1`.

`throw_error` (lisp.c:1622-1655) pushes the interned symbol `error`, pushes
the payload (`LISP_NIL` when the C pointer is NULL), conses the two into the
pair `(error . payload)` and `longjmp`s with 1.  Its diagnostic output
(callstack printing to the error port) and the interactive debug hook do not
change which value ends up on top of the stack at the `longjmp`, so they are
not modelled; the state at the moment of escape is arbitrary anyway because
the body is modelled as an arbitrary function.

`op_throw` (lisp.c:4441-4447) rejects a second argument via `lisp_err`
(which formats a message and calls `throw_error` with payload `LISP_NIL`),
otherwise pushes `CAR(args)` and `longjmp`s with 2. -/

/-- Objects as far as the catch/throw machinery distinguishes them:
the interned `error` symbol, `LISP_NIL`, `LISP_UNDEF`, pairs, and all
other objects abstracted by a tag. -/
inductive CObj where
  | sError
  | nilO
  | undefO
  | pair (car cdr : CObj)
  | atom (n : Nat)
  deriving DecidableEq, Repr

/-- The VM state components touched by `op_catch`: value stack (top at the
head of the list), current environment pointer, eval level, and the current
nonlocal-escape target `vm->catch` (a `jmp_buf` address, abstracted as a
number). -/
structure CatchVM where
  stack : List CObj
  env : Nat
  evalLevel : Nat
  catchRef : Nat
  deriving DecidableEq, Repr

/-- `lisp_push`. -/
def cpush (o : CObj) (st : CatchVM) : CatchVM :=
  { st with stack := o :: st.stack }

/-- `lisp_cons`: replace the two topmost stack entries `…, b, a` by the
pair `(b . a)` (lisp.c:2139-2147). -/
def ccons (st : CatchVM) : CatchVM :=
  match st.stack with
  | a :: b :: rest => { st with stack := CObj.pair b a :: rest }
  | _ => st

/-- Outcome of evaluating the body of a `catch`: either `eval_list`
returns normally, or a `longjmp` escape is taken; both leave a VM state
(with the escape value on top in the second case). -/
inductive EvalOutcome where
  | normal (st : CatchVM)
  | escape (st : CatchVM)
  deriving DecidableEq, Repr

/-- The state an outcome carries. -/
def EvalOutcome.state : EvalOutcome → CatchVM
  | .normal st => st
  | .escape st => st

/-- `throw_error` (lisp.c:1622-1655): push `error`, push the payload
(`LISP_NIL` for a NULL pointer), cons, and `longjmp` to the innermost
catch. -/
def throw_error (st : CatchVM) (obj : Option CObj) : EvalOutcome :=
  .escape (ccons (cpush (obj.getD CObj.nilO) (cpush CObj.sError st)))

/-- `lisp_err` tail: after formatting diagnostics it always calls
`throw_error(vm, LISP_NIL)` (lisp.c:1657-1686). -/
def lisp_err_escape (st : CatchVM) : EvalOutcome :=
  throw_error st (some CObj.nilO)

/-- `op_throw` (lisp.c:4441-4447), with the argument list of the special
form given as a Lean list.  A second argument triggers
`lisp_err("throw: too many arguments")`; otherwise `CAR(args)` is pushed
(`LISP_UNDEF` for an empty list, since `CAR(LISP_NIL)` is `LISP_UNDEF`)
and the escape is taken. -/
def op_throw (st : CatchVM) (args : List CObj) : EvalOutcome :=
  match args with
  | _ :: _ :: _ => lisp_err_escape st
  | [v] => .escape (cpush v st)
  | [] => .escape (cpush CObj.undefO st)

/-- `op_catch` (lisp.c:4420-4436).  `body` models `eval_list` on the catch
body: an arbitrary state transformer that either returns or escapes to the
`jmp_buf` installed by this catch.  On both paths the eval level, escape
target and environment are restored, the top of stack is stored at index
`cnt` and the stack is truncated to `cnt+1` entries. -/
def op_catch (st : CatchVM) (body : CatchVM → EvalOutcome) : CatchVM :=
  let cnt := st.stack.length
  let stIn : CatchVM := { st with catchRef := st.catchRef + 1 }
  let stOut := (body stIn).state
  { stack := stOut.stack.headD CObj.undefO ::
      stOut.stack.drop (stOut.stack.length - cnt),
    env := st.env,
    evalLevel := st.evalLevel,
    catchRef := st.catchRef }

/-- **C4.**  After `catch` finishes, the value-stack depth is exactly its
pre-`catch` value plus the single result value left on top, and the
current-environment pointer (as well as the eval level and the escape
target) equals its pre-`catch` value — whether the body returned normally,
threw, or raised an internal error.  The hypothesis mirrors
`assert(vm->stack->count > cnt)`: the body never pops below the catch
frame and leaves its result (or the escape machinery leaves the thrown
value) on the stack. -/
theorem op_catch_hygiene (st : CatchVM) (body : CatchVM → EvalOutcome)
    (hlen : st.stack.length <
      (body { st with catchRef := st.catchRef + 1 }).state.stack.length) :
    (op_catch st body).stack.length = st.stack.length + 1 ∧
    (op_catch st body).env = st.env ∧
    (op_catch st body).evalLevel = st.evalLevel ∧
    (op_catch st body).catchRef = st.catchRef := by
  unfold op_catch
  refine ⟨?_, rfl, rfl, rfl⟩
  simp only [List.length_cons, List.length_drop]
  have h0 : (body { st with catchRef := st.catchRef + 1 }).state.stack ≠ [] := by
    intro h
    rw [h] at hlen
    simp at hlen
  omega

/-- Witness for C4 at a concrete state and body. -/
theorem op_catch_hygiene_witness :
    let st : CatchVM := ⟨[CObj.atom 7], 3, 2, 1⟩
    let body : CatchVM → EvalOutcome := fun s => op_throw s [CObj.atom 42]
    (op_catch st body).stack.length = st.stack.length + 1 ∧
    (op_catch st body).env = st.env ∧
    (op_catch st body).evalLevel = st.evalLevel ∧
    (op_catch st body).catchRef = st.catchRef :=
  op_catch_hygiene ⟨[CObj.atom 7], 3, 2, 1⟩
    (fun s => op_throw s [CObj.atom 42]) (by decide)

/-- **C5.**  A `catch` whose body escapes through `throw_error` (an internal
error) yields the tagged pair `(error . payload)`; a body that escapes
through a well-formed user `(throw v)` yields the raw thrown value `v`
unchanged.  The hypotheses say that the body's outcome is the corresponding
escape, taken from whatever intermediate state the evaluation had reached. -/
theorem op_catch_escape_values (st : CatchVM) (body : CatchVM → EvalOutcome)
    (stMid : CatchVM) :
    (∀ payload : Option CObj,
      body { st with catchRef := st.catchRef + 1 } = throw_error stMid payload →
      (op_catch st body).stack.headD CObj.undefO =
        CObj.pair CObj.sError (payload.getD CObj.nilO)) ∧
    (∀ v : CObj,
      body { st with catchRef := st.catchRef + 1 } = op_throw stMid [v] →
      (op_catch st body).stack.headD CObj.undefO = v) := by
  constructor
  · intro payload hb
    simp only [op_catch, hb]
    rfl
  · intro v hb
    simp only [op_catch, hb]
    rfl

/-- Witness for C5 at a concrete state, body and thrown values. -/
theorem op_catch_escape_values_witness :
    let st : CatchVM := ⟨[], 0, 0, 0⟩
    let stMid : CatchVM := ⟨[CObj.atom 1], 5, 9, 1⟩
    ((op_catch st (fun _ => throw_error stMid (some (CObj.atom 3)))).stack.headD
        CObj.undefO = CObj.pair CObj.sError (CObj.atom 3)) ∧
    ((op_catch st (fun _ => op_throw stMid [CObj.atom 42])).stack.headD
        CObj.undefO = CObj.atom 42) :=
  ⟨(op_catch_escape_values ⟨[], 0, 0, 0⟩
      (fun _ => throw_error ⟨[CObj.atom 1], 5, 9, 1⟩ (some (CObj.atom 3)))
      ⟨[CObj.atom 1], 5, 9, 1⟩).1 (some (CObj.atom 3)) rfl,
   (op_catch_escape_values ⟨[], 0, 0, 0⟩
      (fun _ => op_throw ⟨[CObj.atom 1], 5, 9, 1⟩ [CObj.atom 42])
      ⟨[CObj.atom 1], 5, 9, 1⟩).2 (CObj.atom 42) rfl⟩

/-! ## C6 / C7: constant immutability and cross-VM write safety

Embeds the mutable-object world the mutating primitives act on:
arrays, buffers and dictionaries (each carrying its owning-VM back pointer
`vm`, set at construction in `lisp_array_new` / `lisp_buffer_new` /
`lisp_dict_new`), environments (whose `bindings` dictionary carries the
owner), and the primitives `op_set`, `op_define`/`lisp_defvar`,
`lisp_setvar`, and the `apply_primitive` cases `S_ARRAY_SET`,
`S_ARRAY_PUSH`, `S_ARRAY_POP`, `S_ARRAY_GET`, `S_DICT_SET`,
`S_BUFFER_SET`, `S_BUFFER_GETU8`.

Numbers are IEEE doubles in the source; the primitives embedded here only
inspect them through `safe_int`/`lisp_safe_int` (integral values used as
indices), so they are modelled as `Int`.  Environment-binding lookup
(`lisp_dict_assoc`) is modelled as the first-match linear scan; claim C9
below proves that the hash-indexed lookup path agrees with it. -/

/-- Error exits taken via `lisp_err` by the embedded primitives.  Each
constructor corresponds to one `lisp_err` call site. -/
inductive PErr where
  | notType            -- safe_ptr: "expect %s but got %s"
  | notInteger         -- lisp_safe_int / safe_int: "not an integer"
  | foreignObject      -- vm_check: "Can not modify foreign object"
  | foreignEnv         -- lisp_setvar: "Can not modify variable in foreign environment"
  | outOfBound         -- "array-set!: out of bound" / "Bad offset"
  | badVarName         -- op_set: "set!: bad variable name"
  | constSymbol        -- op_set: "set!: constant symbol" / op_define: "define: const"
  | constBinding       -- lisp_setvar: "Can not modify constant" /
                       -- lisp_defvar: "Can not redefine constant"
  | undefinedVar       -- lisp_setvar: "Undefined variable"
  | defineProhibited   -- op_define: "define: prohibited"
  | missingArgs        -- op_define: "define: missing arguments"
  | popEmpty           -- lisp_array_pop underflow (assert in C)
  | notOutputPort      -- S_WRITE*: "Not output port"
  | notPort            -- S_WRITE*: "Not port"
  deriving DecidableEq, Repr

/-- Values as the embedded primitives distinguish them.  Symbols carry
their interning id and their `is_const` flag; mutable objects are
references into the store. -/
inductive PVal where
  | num (v : Int)
  | undefO
  | nilO
  | sym (id : Nat) (isConst : Bool)
  | arrayRef (i : Nat)
  | bufferRef (i : Nat)
  | dictRef (i : Nat)
  | envRef (i : Nat)
  deriving DecidableEq, Repr

/-- An `O_ARRAY` object: `items`/`count`, `is_const`, owning VM (`a->vm`). -/
structure ArrayObj where
  items : List PVal
  isConst : Bool
  vm : Nat
  deriving DecidableEq, Repr

/-- An `O_BUFFER` object: byte contents, `is_const`, owning VM (`b->vm`). -/
structure BufferObj where
  bytes : List Nat
  isConst : Bool
  vm : Nat
  deriving DecidableEq, Repr

/-- An `O_DICT` object: binding pairs (key symbol id, value, and the pair's
`is_const` bit) in insertion order, and the owning VM (`dict->vm`).  The
lazily built hash index in slot 0 is not part of this model; C9 proves it
returns the same entry as the linear scan modelled here. -/
structure DictEntry where
  key : Nat
  value : PVal
  isConst : Bool
  deriving DecidableEq, Repr

/-- Dictionary store object. -/
structure DictObj where
  entries : List DictEntry
  vm : Nat
  deriving DecidableEq, Repr

/-- An `O_ENV` object: its bindings dictionary (inlined, with the
dictionary's owning VM in `bvm`), parent link, and the `no_def` flag. -/
structure EnvObj where
  bindings : List DictEntry
  bvm : Nat
  parent : Option Nat
  noDef : Bool
  deriving DecidableEq, Repr

/-- The mutable-object store reachable from the primitives embedded here. -/
structure PrimState where
  arrays : List ArrayObj
  buffers : List BufferObj
  dicts : List DictObj
  envs : List EnvObj
  curEnv : Nat
  deriving DecidableEq, Repr

/-- `CAR`/`CADR`/… of the (proper) argument list: past the end of the list
the source reads `CAR(LISP_NIL)`, which is `LISP_UNDEF`. -/
def argN (args : List PVal) (n : Nat) : PVal :=
  args.getD n PVal.undefO

/-- `vm_check` (lisp.c:4686-4690): fail with "Can not modify foreign
object" unless the object's owning VM is the VM running the primitive. -/
def vm_check (vm owner : Nat) : Except PErr Unit :=
  if vm ≠ owner then .error PErr.foreignObject else .ok ()

/-- `safe_int` / `lisp_safe_int` on the embedded value type: any
non-number is rejected (the integrality and range checks of the source
cannot fail on the `Int`-valued embedding). -/
def safe_int (v : PVal) : Except PErr Int :=
  match v with
  | .num n => .ok n
  | _ => .error PErr.notInteger

/-- `safe_ptr(vm, o, O_ARRAY)` followed by the dereference: the argument
must be an array reference into the store. -/
def safe_array (st : PrimState) (v : PVal) : Except PErr (Nat × ArrayObj) :=
  match v with
  | .arrayRef i =>
    match st.arrays.get? i with
    | some a => .ok (i, a)
    | none => .error PErr.notType
  | _ => .error PErr.notType

/-- `safe_ptr(vm, o, O_BUFFER)` followed by the dereference. -/
def safe_buffer (st : PrimState) (v : PVal) : Except PErr (Nat × BufferObj) :=
  match v with
  | .bufferRef i =>
    match st.buffers.get? i with
    | some b => .ok (i, b)
    | none => .error PErr.notType
  | _ => .error PErr.notType

/-- `safe_ptr(vm, o, O_DICT)` followed by the dereference. -/
def safe_dict (st : PrimState) (v : PVal) : Except PErr (Nat × DictObj) :=
  match v with
  | .dictRef i =>
    match st.dicts.get? i with
    | some d => .ok (i, d)
    | none => .error PErr.notType
  | _ => .error PErr.notType

/-- `apply_primitive` case `S_ARRAY_SET` (lisp.c:4971-4980): type-check,
`vm_check(a->vm)`, bounds-check the index, store the third argument, push
`LISP_UNDEF`.  Note: there is no `is_const` check on this path. -/
def op_array_set (vm : Nat) (st : PrimState) (args : List PVal) :
    Except PErr (PrimState × PVal) := do
  let (i, a) ← safe_array st (argN args 0)
  let _ ← vm_check vm a.vm
  let index ← safe_int (argN args 1)
  if index < 0 ∨ a.items.length ≤ index.toNat then
    .error PErr.outOfBound
  else
    .ok ({ st with arrays :=
      st.arrays.set i ({ a with items := a.items.set index.toNat (argN args 2) }) },
      PVal.undefO)

/-- `apply_primitive` case `S_ARRAY_PUSH` (lisp.c:4993-4999). -/
def op_array_push (vm : Nat) (st : PrimState) (args : List PVal) :
    Except PErr (PrimState × PVal) := do
  let (i, a) ← safe_array st (argN args 0)
  let _ ← vm_check vm a.vm
  .ok ({ st with arrays :=
    st.arrays.set i ({ a with items := a.items ++ [argN args 1] }) },
    PVal.undefO)

/-- `apply_primitive` case `S_ARRAY_POP` (lisp.c:4986-4992):
`lisp_array_pop(a, 1)` returns the last item and shrinks the count
(an empty array trips the C `assert`; modelled as an error exit). -/
def op_array_pop (vm : Nat) (st : PrimState) (args : List PVal) :
    Except PErr (PrimState × PVal) := do
  let (i, a) ← safe_array st (argN args 0)
  let _ ← vm_check vm a.vm
  match a.items.getLast? with
  | none => .error PErr.popEmpty
  | some o =>
    .ok ({ st with arrays :=
      st.arrays.set i ({ a with items := a.items.dropLast }) }, o)

/-- `apply_primitive` case `S_ARRAY_GET` (lisp.c:4963-4970): read-only,
no `vm_check`. -/
def op_array_get (_vm : Nat) (st : PrimState) (args : List PVal) :
    Except PErr (PrimState × PVal) := do
  let (_, a) ← safe_array st (argN args 0)
  let index ← safe_int (argN args 1)
  if index < 0 ∨ a.items.length ≤ index.toNat then
    .error PErr.outOfBound
  else
    .ok (st, a.items.getD index.toNat PVal.undefO)

/-- `lisp_dict_assoc` on the embedded entry list: first entry whose key
symbol is (pointer-)identical to the looked-up symbol. -/
def dict_assoc (entries : List DictEntry) (key : Nat) : Option DictEntry :=
  entries.find? (fun e => e.key = key)

/-- Replace the first entry with the given key by `f` applied to it
(models mutating the found binding pair in place). -/
def dict_update (entries : List DictEntry) (key : Nat)
    (f : DictEntry → DictEntry) : List DictEntry :=
  match entries with
  | [] => []
  | e :: rest =>
    if e.key = key then f e :: rest else e :: dict_update rest key f

/-- `apply_primitive` case `S_DICT_SET` (lisp.c:5000-5012): type-check,
`vm_check(a->vm)`, then either mutate the found pair's cdr or
`lisp_dict_add` a fresh pair. -/
def op_dict_set (vm : Nat) (st : PrimState) (args : List PVal) :
    Except PErr (PrimState × PVal) := do
  let (i, d) ← safe_dict st (argN args 0)
  let _ ← vm_check vm d.vm
  match argN args 1 with
  | .sym k _ =>
    let entries :=
      match dict_assoc d.entries k with
      | some _ => dict_update d.entries k (fun e => { e with value := argN args 2 })
      | none => d.entries ++ [⟨k, argN args 2, false⟩]
    .ok ({ st with dicts := st.dicts.set i ({ d with entries := entries }) },
      PVal.undefO)
  | _ => .error PErr.notType

/-- `apply_primitive` case `S_BUFFER_SET` (lisp.c:5648-5661): copy bytes
of the third argument into the first starting at the offset, clipped at
the destination's length. -/
def op_buffer_set (vm : Nat) (st : PrimState) (args : List PVal) :
    Except PErr (PrimState × PVal) := do
  let (i, b1) ← safe_buffer st (argN args 0)
  let _ ← vm_check vm b1.vm
  let off ← safe_int (argN args 1)
  let (_, b2) ← safe_buffer st (argN args 2)
  if off < 0 ∨ b1.bytes.length ≤ off.toNat then
    .error PErr.outOfBound
  else
    let n := min b2.bytes.length (b1.bytes.length - off.toNat)
    let b1' := { b1 with bytes := b1.bytes.take off.toNat ++ b2.bytes.take n ++
                  b1.bytes.drop (off.toNat + n) }
    .ok ({ st with buffers := st.buffers.set i b1' }, PVal.undefO)

/-- `apply_primitive` case `S_BUFFER_GETU8` (via the `op_buffer_get`
C helper, lisp.c:4676-4685): read-only, no `vm_check`. -/
def op_buffer_getu8 (_vm : Nat) (st : PrimState) (args : List PVal) :
    Except PErr (PrimState × PVal) := do
  let (_, b) ← safe_buffer st (argN args 0)
  let i ← safe_int (argN args 1)
  if i < 0 ∨ b.bytes.length < i.toNat + 1 then
    .error PErr.outOfBound
  else
    .ok (st, PVal.num (b.bytes.getD i.toNat 0))

/-- `lisp_setvar` (lisp.c:2418-2440): walk the environment chain from the
current environment; on the first environment whose bindings contain the
name, fail if that environment's bindings dictionary belongs to a foreign
VM, then fail if the binding pair is flagged constant, else update the
cdr in place.  An unbound name is "Undefined variable".  `fuel` bounds the
parent-chain walk (the C chain is finite and acyclic). -/
def lisp_setvar_loop (vm : Nat) (st : PrimState) (name : Nat) (value : PVal) :
    Nat → Option Nat → Except PErr PrimState
  | _, none => .error PErr.undefinedVar
  | 0, some _ => .error PErr.undefinedVar
  | fuel + 1, some eid =>
    match st.envs.get? eid with
    | none => .error PErr.undefinedVar
    | some env =>
      match dict_assoc env.bindings name with
      | some e =>
        if env.bvm ≠ vm then .error PErr.foreignEnv
        else if e.isConst then .error PErr.constBinding
        else
          let bs := dict_update env.bindings name (fun b => { b with value := value })
          .ok { st with envs := st.envs.set eid { env with bindings := bs } }
      | none => lisp_setvar_loop vm st name value fuel env.parent

/-- `lisp_setvar` entry point, starting at the current environment. -/
def lisp_setvar (vm : Nat) (st : PrimState) (name : Nat) (value : PVal) :
    Except PErr PrimState :=
  lisp_setvar_loop vm st name value st.envs.length (some st.curEnv)

/-- `op_set` (lisp.c:4019-4031): the target must be a symbol and must not
be a constant symbol; the value expression has already been evaluated to
`value` (sub-evaluation is outside this model); then `lisp_setvar`. -/
def op_set (vm : Nat) (st : PrimState) (nameArg : PVal) (value : PVal) :
    Except PErr (PrimState × PVal) := do
  match nameArg with
  | .sym id isConst =>
    if isConst then .error PErr.constSymbol
    else do
      let st' ← lisp_setvar vm st id value
      .ok (st', PVal.undefO)
  | _ => .error PErr.badVarName

/-- `lisp_defvar` (lisp.c:2404-2416): look the name up in the current
environment's own bindings; add a fresh binding if absent; fail if the
existing binding is constant; else update in place. -/
def lisp_defvar (_vm : Nat) (st : PrimState) (name : Nat) (value : PVal) :
    Except PErr PrimState :=
  match st.envs.get? st.curEnv with
  | none => .error PErr.undefinedVar
  | some env =>
    match dict_assoc env.bindings name with
    | none =>
      let env' := { env with bindings := env.bindings ++ [⟨name, value, false⟩] }
      .ok { st with envs := st.envs.set st.curEnv env' }
    | some e =>
      if e.isConst then .error PErr.constBinding
      else
        let bs := dict_update env.bindings name (fun b => { b with value := value })
        .ok { st with envs := st.envs.set st.curEnv { env with bindings := bs } }

/-- `op_define` (lisp.c:4082-4107), symbol-target branch: missing
arguments and `no_def` environments are rejected; a constant name symbol
is rejected ("define: const"); then `lisp_defvar` with the evaluated
value (sub-evaluation is outside this model; the `(define (f …) …)`
procedure branch goes through `defproc` and is not needed by the claims). -/
def op_define (vm : Nat) (st : PrimState) (args : List PVal) (value : PVal) :
    Except PErr (PrimState × PVal) := do
  match args with
  | [] => .error PErr.missingArgs
  | nameArg :: _ =>
    match st.envs.get? st.curEnv with
    | none => .error PErr.undefinedVar
    | some env =>
      if env.noDef then .error PErr.defineProhibited
      else
        match nameArg with
        | .sym id isConst =>
          if isConst then .error PErr.constSymbol
          else do
            let st' ← lisp_defvar vm st id value
            .ok (st', nameArg)
        | _ => .error PErr.badVarName

/-- Claim C6 as stated is false for the mutation-primitive half:
`S_ARRAY_SET` checks the owning VM and the index bounds but never the
`is_const` bit, so `array-set!` on an immutable (`is_const`) array of the
current VM succeeds and mutates it instead of raising an error.  Concrete
counterexample: the literal-array store object `#(1 2 3)` (marked
`is_const` by `mkarray`) is updated in place. -/
theorem array_set_const_array_no_error :
    op_array_set 0
      ⟨[⟨[PVal.num 1, PVal.num 2, PVal.num 3], true, 0⟩], [], [], [], 0⟩
      [PVal.arrayRef 0, PVal.num 0, PVal.num 99] =
    .ok (⟨[⟨[PVal.num 99, PVal.num 2, PVal.num 3], true, 0⟩], [], [], [], 0⟩,
      PVal.undefO) := by
  rfl

/-- **C6 (amended).**  Every `set!` or `define` whose target symbol is
constant, and every `set!`/`define` reaching an existing binding flagged
constant, raises an error; the mutation primitives, however, perform no
`is_const` check on buffers and arrays — `array-set!` on an immutable
array of the current VM succeeds (immutability of buffers is enforced
only by debug assertions on the `lisp_buffer_*` helpers, which the
`buffer-set!` primitives bypass). -/
theorem const_immutability_amended :
    (∀ (vm : Nat) (st : PrimState) (id : Nat) (v : PVal),
      op_set vm st (PVal.sym id true) v = .error PErr.constSymbol) ∧
    (∀ (vm : Nat) (st : PrimState) (rest : List PVal) (id : Nat) (v : PVal)
      (env : EnvObj),
      st.envs.get? st.curEnv = some env → env.noDef = false →
      op_define vm st (PVal.sym id true :: rest) v = .error PErr.constSymbol) ∧
    (∀ (vm : Nat) (st : PrimState) (name : Nat) (v : PVal) (fuel eid : Nat)
      (env : EnvObj) (e : DictEntry),
      st.envs.get? eid = some env → dict_assoc env.bindings name = some e →
      e.isConst = true → env.bvm = vm →
      lisp_setvar_loop vm st name v (fuel + 1) (some eid) =
        .error PErr.constBinding) ∧
    (∀ (vm : Nat) (st : PrimState) (name : Nat) (v : PVal)
      (env : EnvObj) (e : DictEntry),
      st.envs.get? st.curEnv = some env →
      dict_assoc env.bindings name = some e → e.isConst = true →
      lisp_defvar vm st name v = .error PErr.constBinding) ∧
    (∀ (vm : Nat) (st : PrimState) (args : List PVal) (i : Nat)
      (a : ArrayObj) (index : Int),
      argN args 0 = PVal.arrayRef i → st.arrays.get? i = some a →
      a.vm = vm → argN args 1 = PVal.num index →
      0 ≤ index → index.toNat < a.items.length →
      ∃ st' : PrimState, op_array_set vm st args = .ok (st', PVal.undefO)) := by
  refine ⟨?_, ?_, ?_, ?_, ?_⟩
  · intro vm st id v
    rfl
  · intro vm st rest id v env henv hnd
    simp only [op_define, henv, hnd]
    rfl
  · intro vm st name v fuel eid env e henv hassoc hconst hown
    simp only [lisp_setvar_loop, henv, hassoc, hown, hconst]
    simp
  · intro vm st name v env e henv hassoc hconst
    simp only [lisp_defvar, henv, hassoc, hconst]
    simp
  · intro vm st args i a index harg hga hown hidx hnn hlt
    have hcond : ¬ (index < 0 ∨ a.items.length ≤ index.toNat) := by
      push_neg
      exact ⟨by omega, by omega⟩
    let a' : ArrayObj := { a with items := a.items.set index.toNat (argN args 2) }
    refine ⟨{ st with arrays := st.arrays.set i a' }, ?_⟩
    have hga' : st.arrays[i]? = some a := by
      simpa [List.get?_eq_getElem?] using hga
    simp [op_array_set, safe_array, harg, hga', vm_check, hown, hidx,
      safe_int, bind, Except.bind, hcond, a']

/-- Witness for C6 (amended): each conjunct applied at a concrete input. -/
theorem const_immutability_amended_witness :
    (op_set 0 ⟨[], [], [], [], 0⟩ (PVal.sym 5 true) (PVal.num 1) =
      .error PErr.constSymbol) ∧
    (op_define 0 ⟨[], [], [], [⟨[], 0, none, false⟩], 0⟩
      [PVal.sym 5 true] (PVal.num 1) = .error PErr.constSymbol) ∧
    (lisp_setvar_loop 0 ⟨[], [], [], [⟨[⟨7, PVal.num 3, true⟩], 0, none, false⟩], 0⟩
      7 (PVal.num 4) 1 (some 0) = .error PErr.constBinding) ∧
    (lisp_defvar 0 ⟨[], [], [], [⟨[⟨7, PVal.num 3, true⟩], 0, none, false⟩], 0⟩
      7 (PVal.num 4) = .error PErr.constBinding) ∧
    (∃ st' : PrimState,
      op_array_set 0 ⟨[⟨[PVal.num 1], false, 0⟩], [], [], [], 0⟩
        [PVal.arrayRef 0, PVal.num 0, PVal.num 2] = .ok (st', PVal.undefO)) :=
  ⟨const_immutability_amended.1 0 ⟨[], [], [], [], 0⟩ 5 (PVal.num 1),
   const_immutability_amended.2.1 0 ⟨[], [], [], [⟨[], 0, none, false⟩], 0⟩
     [] 5 (PVal.num 1) ⟨[], 0, none, false⟩ rfl rfl,
   const_immutability_amended.2.2.1 0
     ⟨[], [], [], [⟨[⟨7, PVal.num 3, true⟩], 0, none, false⟩], 0⟩
     7 (PVal.num 4) 0 0 ⟨[⟨7, PVal.num 3, true⟩], 0, none, false⟩
     ⟨7, PVal.num 3, true⟩ rfl rfl rfl rfl,
   const_immutability_amended.2.2.2.1 0
     ⟨[], [], [], [⟨[⟨7, PVal.num 3, true⟩], 0, none, false⟩], 0⟩
     7 (PVal.num 4) ⟨[⟨7, PVal.num 3, true⟩], 0, none, false⟩
     ⟨7, PVal.num 3, true⟩ rfl rfl rfl,
   const_immutability_amended.2.2.2.2 0
     ⟨[⟨[PVal.num 1], false, 0⟩], [], [], [], 0⟩
     [PVal.arrayRef 0, PVal.num 0, PVal.num 2] 0 ⟨[PVal.num 1], false, 0⟩
     0 rfl rfl rfl rfl (by decide) (by decide)⟩

/-! Ports (claim C7).  `struct Lisp_Port` (lisp.c:153-169) carries its
owning VM like every mutable type, but the
`S_WRITE_BUFFER`/`S_WRITE_STRING`/`S_WRITE` primitives (lisp.c:5100-5122)
resolve an explicit port argument with only an output-flag check — no
`vm_check` — before writing into the port's `iobuf`/stream, while
`S_FLUSH` (lisp.c:5124-5131) does call `vm_check(port->vm)`.  A port
owned by another VM is reachable: `lisp_vm_set_parent` (lisp.c:5794-5798)
links the child's root environment to the parent's root environment, so
any port bound in the parent is visible to the child's code. -/

/-- A `Lisp_Port` as the output primitives use it: owning VM
(`port->vm`), the `out`/`no_buf` flags, whether a `stream` is attached,
the `iobuf` (capacity and buffered bytes), the `max_output` limit with
its `byte_count`, and the bytes already written through the stream. -/
structure PortObj where
  vm : Nat
  out : Bool
  noBuf : Bool
  hasStream : Bool
  cap : Nat
  iobuf : List Nat
  maxOutput : Nat
  byteCount : Nat
  streamed : List Nat
  deriving DecidableEq, Repr

/-- `lisp_port_flush` (lisp.c:1342-1366): without a stream, or with an
empty `iobuf`, do nothing; otherwise write the buffered bytes through the
stream (all of them, or what `max_output - byte_count` still allows),
count them, and clear the buffer.  `lisp_stream_write` is modelled as
accepting everything it is handed. -/
def lisp_port_flush (port : PortObj) : PortObj :=
  if ¬port.hasStream ∨ port.iobuf.length = 0 then port
  else
    let n :=
      if 0 < port.maxOutput then
        if port.byteCount < port.maxOutput then
          min (port.maxOutput - port.byteCount) port.iobuf.length
        else 0
      else port.iobuf.length
    { port with streamed := port.streamed ++ port.iobuf.take n,
                byteCount := port.byteCount + n,
                iobuf := [] }

/-- `lisp_buffer_add` (lisp.c:1022-1028) on the port's `iobuf`: double
the capacity when `length + 1 >= cap`, append the byte (stored through a
`uint8_t` cast, modelled by `% 256`). -/
def port_add_byte (port : PortObj) (c : Nat) : PortObj :=
  let cap' := if port.cap ≤ port.iobuf.length + 1 then port.cap * 2 else port.cap
  { port with cap := cap', iobuf := port.iobuf ++ [c % 256] }

/-- The capacity-doubling loop of `lisp_buffer_add_bytes`
(lisp.c:983-997): `while (newcap < length + size) newcap *= 2`.  The
fuel bounds the loop; with a positive capacity the need is reached within
`need` doublings (a zero-capacity buffer would loop forever in the C, but
every `iobuf` is created with positive capacity). -/
def growCap : Nat → Nat → Nat → Nat
  | 0, cap, _ => cap
  | fuel + 1, cap, need => if cap < need then growCap fuel (cap * 2) need else cap

/-- `lisp_buffer_add_bytes` (lisp.c:983-997) on the port's `iobuf`. -/
def port_add_bytes (port : PortObj) (data : List Nat) : PortObj :=
  let need := port.iobuf.length + data.length
  { port with cap := growCap need port.cap need,
              iobuf := port.iobuf ++ data.map (fun b => b % 256) }

/-- The loop of `lisp_port_puts` (lisp.c:1469-1486): per byte, flush a
full buffer (resetting `should_flush`), append the byte, and remember a
newline in `should_flush`. -/
def lisp_port_puts_loop (port : PortObj) (shouldFlush : Bool) :
    List Nat → PortObj × Bool
  | [] => (port, shouldFlush)
  | c :: rest =>
    let pf := if port.cap = port.iobuf.length then (lisp_port_flush port, false)
              else (port, shouldFlush)
    let port' := port_add_byte pf.1 c
    let sf := if c % 256 = 10 then true else pf.2
    lisp_port_puts_loop port' sf rest

/-- `lisp_port_puts(port, s->buf)` (lisp.c:1469-1486): the `for (; *s; …)`
loop stops at the first NUL byte of the string's buffer; afterwards a
`no_buf` port, or a written newline, forces a flush. -/
def lisp_port_puts (port : PortObj) (s : List Nat) : PortObj :=
  let r := lisp_port_puts_loop port false (s.takeWhile (fun b => b % 256 != 0))
  if r.1.noBuf || r.2 then lisp_port_flush r.1 else r.1

/-- `lisp_port_put_bytes` (lisp.c:1488-1503): with a stream, append when
the bytes fit in the remaining buffer space, else flush and write the
bytes straight through the stream; without a stream, just append (the
buffer grows as needed). -/
def lisp_port_put_bytes (port : PortObj) (data : List Nat) : PortObj :=
  if port.hasStream then
    if data.length ≤ port.cap - port.iobuf.length then
      port_add_bytes port data
    else
      let p := lisp_port_flush port
      { p with streamed := p.streamed ++ data.map (fun b => b % 256),
               byteCount := p.byteCount + data.length }
  else
    port_add_bytes port data

/-- The values the write/flush primitives distinguish: a string
(`O_STRING`, its bytes inline — strings are only read on this path), a
buffer (`O_BUFFER`, bytes inline — only read on this path), a port
reference into the port store, `LISP_UNDEF`, and any other object. -/
inductive WVal where
  | strV (bytes : List Nat)
  | bufV (bytes : List Nat)
  | portRef (i : Nat)
  | undefO
  | otherV
  deriving DecidableEq, Repr

/-- The port store and the index of the running VM's `vm->output`. -/
structure WriteState where
  ports : List PortObj
  output : Nat
  deriving DecidableEq, Repr

/-- The shared prologue of `S_WRITE_BUFFER`/`S_WRITE_STRING`/`S_WRITE`
(lisp.c:5102-5110): the port is `vm->output` unless the second argument
is a port, in which case it must be an output port ("Not output port"),
and a non-port, non-`LISP_UNDEF` second argument is "Not port".  There is
no `vm_check` here.  (The dangling-reference case is an artifact of the
store indirection — in C the port value is the port itself.) -/
def resolve_write_port (st : WriteState) (o : WVal) : Except PErr Nat :=
  match o with
  | .portRef i =>
    match st.ports.get? i with
    | some p => if p.out then .ok i else .error PErr.notOutputPort
    | none => .error PErr.notPort
  | .undefO => .ok st.output
  | _ => .error PErr.notPort

/-- `apply_primitive` case `S_WRITE_STRING` (lisp.c:5100-5122): resolve
the port, `safe_ptr(vm, CAR(args), O_STRING)`, then
`lisp_port_puts(p, s->buf)` and push `LISP_UNDEF`.  The running VM is
never compared with the port's owner — contrast `op_flush` below. -/
def op_write_string (_vm : Nat) (st : WriteState) (args : List WVal) :
    Except PErr (WriteState × WVal) := do
  let pidx ← resolve_write_port st (args.getD 1 WVal.undefO)
  match args.getD 0 WVal.undefO with
  | .strV s =>
    match st.ports.get? pidx with
    | some p =>
      .ok ({ st with ports := st.ports.set pidx (lisp_port_puts p s) },
        WVal.undefO)
    | none => .error PErr.notPort
  | _ => .error PErr.notType

/-- `apply_primitive` case `S_WRITE_BUFFER` (lisp.c:5100-5122): as
`S_WRITE_STRING` with `safe_ptr(vm, CAR(args), O_BUFFER)` and
`lisp_port_put_bytes(p, b->buf, b->length)`. -/
def op_write_buffer (_vm : Nat) (st : WriteState) (args : List WVal) :
    Except PErr (WriteState × WVal) := do
  let pidx ← resolve_write_port st (args.getD 1 WVal.undefO)
  match args.getD 0 WVal.undefO with
  | .bufV b =>
    match st.ports.get? pidx with
    | some p =>
      .ok ({ st with ports := st.ports.set pidx (lisp_port_put_bytes p b) },
        WVal.undefO)
    | none => .error PErr.notPort
  | _ => .error PErr.notType

/-- `apply_primitive` case `S_FLUSH` (lisp.c:5124-5131): `safe_ptr(vm,
CAR(args), O_PORT)`, then `vm_check(port->vm)` — the one port primitive
in this group that does check ownership — then `lisp_port_flush` and push
`LISP_UNDEF`. -/
def op_flush (vm : Nat) (st : WriteState) (args : List WVal) :
    Except PErr (WriteState × WVal) := do
  match args.getD 0 WVal.undefO with
  | .portRef i =>
    match st.ports.get? i with
    | some p => do
      let _ ← vm_check vm p.vm
      .ok ({ st with ports := st.ports.set i (lisp_port_flush p) }, WVal.undefO)
    | none => .error PErr.notType
  | _ => .error PErr.notType

/-- Claim C7 as stated is false for ports: `write-string` given an
explicit port argument owned by a foreign VM performs no `vm_check`
(lisp.c:5100-5122 — contrast `S_FLUSH` right below it) and mutates the
foreign port.  Concrete counterexample: VM 0 runs `write-string` on a
port owned by VM 1 (reachable through `lisp_vm_set_parent`'s environment
link); the call succeeds and the foreign port's `iobuf` gains the two
written bytes. -/
theorem write_string_foreign_port_no_error :
    op_write_string 0
      ⟨[⟨0, true, false, false, 16, [], 0, 0, []⟩,
        ⟨1, true, false, false, 16, [], 0, 0, []⟩], 0⟩
      [WVal.strV [104, 105], WVal.portRef 1] =
    .ok (⟨[⟨0, true, false, false, 16, [], 0, 0, []⟩,
           ⟨1, true, false, false, 16, [104, 105], 0, 0, []⟩], 0⟩,
      WVal.undefO) := by
  rfl

/-- **C7 (amended).**  Every `vm_check`-guarded mutating primitive
(`array-set!`, `array-push!`, `array-pop!`, `dict-set!`, `buffer-set!`,
and `set!` via `lisp_setvar`) applied to an object whose owning-VM back
pointer differs from the VM running it fails with the
cannot-modify-foreign-object error (for environment bindings: the
foreign-environment error) before any mutation, and read-only operations
(`array-get`, `buffer-getu8`) on the same foreign object succeed with the
store unchanged; but the claim's "every mutable object / every mutating
primitive" is false for ports: `write-string` and `write-buffer` with an
explicit port argument check only that it is an output port, never its
owner, so they succeed on a foreign port and mutate it, while `flush` on
the same foreign port fails with the cannot-modify-foreign-object
error. -/
theorem foreign_vm_write_safety_amended :
    (∀ (vm : Nat) (st : PrimState) (args : List PVal) (i : Nat) (a : ArrayObj),
      argN args 0 = PVal.arrayRef i → st.arrays.get? i = some a → a.vm ≠ vm →
      op_array_set vm st args = .error PErr.foreignObject ∧
      op_array_push vm st args = .error PErr.foreignObject ∧
      op_array_pop vm st args = .error PErr.foreignObject) ∧
    (∀ (vm : Nat) (st : PrimState) (args : List PVal) (i : Nat) (d : DictObj),
      argN args 0 = PVal.dictRef i → st.dicts.get? i = some d → d.vm ≠ vm →
      op_dict_set vm st args = .error PErr.foreignObject) ∧
    (∀ (vm : Nat) (st : PrimState) (args : List PVal) (i : Nat) (b : BufferObj),
      argN args 0 = PVal.bufferRef i → st.buffers.get? i = some b → b.vm ≠ vm →
      op_buffer_set vm st args = .error PErr.foreignObject) ∧
    (∀ (vm : Nat) (st : PrimState) (name : Nat) (v : PVal) (fuel eid : Nat)
      (env : EnvObj) (e : DictEntry),
      st.envs.get? eid = some env → dict_assoc env.bindings name = some e →
      env.bvm ≠ vm →
      lisp_setvar_loop vm st name v (fuel + 1) (some eid) =
        .error PErr.foreignEnv) ∧
    (∀ (vm : Nat) (st : PrimState) (args : List PVal) (i : Nat)
      (a : ArrayObj) (index : Int),
      argN args 0 = PVal.arrayRef i → st.arrays.get? i = some a →
      argN args 1 = PVal.num index → 0 ≤ index →
      index.toNat < a.items.length →
      op_array_get vm st args = .ok (st, a.items.getD index.toNat PVal.undefO)) ∧
    (∀ (vm : Nat) (st : PrimState) (args : List PVal) (i : Nat)
      (b : BufferObj) (index : Int),
      argN args 0 = PVal.bufferRef i → st.buffers.get? i = some b →
      argN args 1 = PVal.num index → 0 ≤ index →
      index.toNat + 1 ≤ b.bytes.length →
      op_buffer_getu8 vm st args = .ok (st, PVal.num (b.bytes.getD index.toNat 0))) ∧
    (∀ (vm : Nat) (st : WriteState) (s : List Nat) (i : Nat) (p : PortObj),
      st.ports.get? i = some p → p.out = true → p.vm ≠ vm →
      op_write_string vm st [WVal.strV s, WVal.portRef i] =
        .ok ({ st with ports := st.ports.set i (lisp_port_puts p s) },
          WVal.undefO)) ∧
    (∀ (vm : Nat) (st : WriteState) (b : List Nat) (i : Nat) (p : PortObj),
      st.ports.get? i = some p → p.out = true → p.vm ≠ vm →
      op_write_buffer vm st [WVal.bufV b, WVal.portRef i] =
        .ok ({ st with ports := st.ports.set i (lisp_port_put_bytes p b) },
          WVal.undefO)) ∧
    (∀ (vm : Nat) (st : WriteState) (i : Nat) (p : PortObj),
      st.ports.get? i = some p → p.vm ≠ vm →
      op_flush vm st [WVal.portRef i] = .error PErr.foreignObject) := by
  refine ⟨?_, ?_, ?_, ?_, ?_, ?_, ?_, ?_, ?_⟩
  · intro vm st args i a harg hga hfor
    refine ⟨?_, ?_, ?_⟩ <;>
      simp only [op_array_set, op_array_push, op_array_pop, safe_array, harg,
        hga, vm_check, if_pos (Ne.symm hfor), bind, Except.bind]
  · intro vm st args i d harg hgd hfor
    simp only [op_dict_set, safe_dict, harg, hgd, vm_check,
      if_pos (Ne.symm hfor), bind, Except.bind]
  · intro vm st args i b harg hgb hfor
    simp only [op_buffer_set, safe_buffer, harg, hgb, vm_check,
      if_pos (Ne.symm hfor), bind, Except.bind]
  · intro vm st name v fuel eid env e henv hassoc hfor
    simp only [lisp_setvar_loop, henv, hassoc, if_pos hfor]
  · intro vm st args i a index harg hga hidx hnn hlt
    have hcond : ¬ (index < 0 ∨ a.items.length ≤ index.toNat) := by
      push_neg
      exact ⟨by omega, by omega⟩
    simp only [op_array_get, safe_array, harg, hga, safe_int, hidx,
      bind, Except.bind, hcond, if_false]
  · intro vm st args i b index harg hgb hidx hnn hlt
    have hcond : ¬ (index < 0 ∨ b.bytes.length < index.toNat + 1) := by
      push_neg
      exact ⟨by omega, by omega⟩
    simp only [op_buffer_getu8, safe_buffer, harg, hgb, safe_int, hidx,
      bind, Except.bind, hcond, if_false]
  · intro vm st s i p hget hout _hfor
    simp only [op_write_string, resolve_write_port, List.getD_cons_succ,
      List.getD_cons_zero, hget, hout, if_true, bind, Except.bind]
  · intro vm st b i p hget hout _hfor
    simp only [op_write_buffer, resolve_write_port, List.getD_cons_succ,
      List.getD_cons_zero, hget, hout, if_true, bind, Except.bind]
  · intro vm st i p hget hfor
    simp only [op_flush, List.getD_cons_zero, hget, vm_check,
      if_pos (Ne.symm hfor), bind, Except.bind]

/-- Witness for C7 (amended): stores owned by VM 1, primitives run by
VM 0; the port conjuncts at a 16-byte-capacity foreign output port. -/
theorem foreign_vm_write_safety_amended_witness :
    (op_array_set 0 ⟨[⟨[PVal.num 1], false, 1⟩], [], [], [], 0⟩
      [PVal.arrayRef 0, PVal.num 0, PVal.num 2] = .error PErr.foreignObject) ∧
    (op_dict_set 0 ⟨[], [], [⟨[], 1⟩], [], 0⟩
      [PVal.dictRef 0, PVal.sym 3 false, PVal.num 2] = .error PErr.foreignObject) ∧
    (op_buffer_set 0 ⟨[], [⟨[7], false, 1⟩], [], [], 0⟩
      [PVal.bufferRef 0, PVal.num 0, PVal.bufferRef 0] = .error PErr.foreignObject) ∧
    (lisp_setvar_loop 0 ⟨[], [], [], [⟨[⟨9, PVal.num 3, false⟩], 1, none, false⟩], 0⟩
      9 (PVal.num 4) 1 (some 0) = .error PErr.foreignEnv) ∧
    (op_array_get 0 ⟨[⟨[PVal.num 1], false, 1⟩], [], [], [], 0⟩
      [PVal.arrayRef 0, PVal.num 0] =
      .ok (⟨[⟨[PVal.num 1], false, 1⟩], [], [], [], 0⟩, PVal.num 1)) ∧
    (op_write_string 0 ⟨[⟨1, true, false, false, 16, [], 0, 0, []⟩], 0⟩
      [WVal.strV [104, 105], WVal.portRef 0] =
      .ok (⟨[⟨1, true, false, false, 16, [104, 105], 0, 0, []⟩], 0⟩,
        WVal.undefO)) ∧
    (op_write_buffer 0 ⟨[⟨1, true, false, false, 16, [], 0, 0, []⟩], 0⟩
      [WVal.bufV [7, 8], WVal.portRef 0] =
      .ok (⟨[⟨1, true, false, false, 16, [7, 8], 0, 0, []⟩], 0⟩,
        WVal.undefO)) ∧
    (op_flush 0 ⟨[⟨1, true, false, false, 16, [], 0, 0, []⟩], 0⟩
      [WVal.portRef 0] = .error PErr.foreignObject) :=
  ⟨(foreign_vm_write_safety_amended.1 0 ⟨[⟨[PVal.num 1], false, 1⟩], [], [], [], 0⟩
      [PVal.arrayRef 0, PVal.num 0, PVal.num 2] 0 ⟨[PVal.num 1], false, 1⟩
      rfl rfl (by decide)).1,
   foreign_vm_write_safety_amended.2.1 0 ⟨[], [], [⟨[], 1⟩], [], 0⟩
      [PVal.dictRef 0, PVal.sym 3 false, PVal.num 2] 0 ⟨[], 1⟩
      rfl rfl (by decide),
   foreign_vm_write_safety_amended.2.2.1 0 ⟨[], [⟨[7], false, 1⟩], [], [], 0⟩
      [PVal.bufferRef 0, PVal.num 0, PVal.bufferRef 0] 0 ⟨[7], false, 1⟩
      rfl rfl (by decide),
   foreign_vm_write_safety_amended.2.2.2.1 0
      ⟨[], [], [], [⟨[⟨9, PVal.num 3, false⟩], 1, none, false⟩], 0⟩
      9 (PVal.num 4) 0 0 ⟨[⟨9, PVal.num 3, false⟩], 1, none, false⟩
      ⟨9, PVal.num 3, false⟩ rfl rfl (by decide),
   foreign_vm_write_safety_amended.2.2.2.2.1 0
      ⟨[⟨[PVal.num 1], false, 1⟩], [], [], [], 0⟩
      [PVal.arrayRef 0, PVal.num 0] 0 ⟨[PVal.num 1], false, 1⟩ 0
      rfl rfl rfl (by decide) (by decide),
   foreign_vm_write_safety_amended.2.2.2.2.2.2.1 0
      ⟨[⟨1, true, false, false, 16, [], 0, 0, []⟩], 0⟩ [104, 105] 0
      ⟨1, true, false, false, 16, [], 0, 0, []⟩ rfl rfl (by decide),
   foreign_vm_write_safety_amended.2.2.2.2.2.2.2.1 0
      ⟨[⟨1, true, false, false, 16, [], 0, 0, []⟩], 0⟩ [7, 8] 0
      ⟨1, true, false, false, 16, [], 0, 0, []⟩ rfl rfl (by decide),
   foreign_vm_write_safety_amended.2.2.2.2.2.2.2.2 0
      ⟨[⟨1, true, false, false, 16, [], 0, 0, []⟩], 0⟩ 0
      ⟨1, true, false, false, 16, [], 0, 0, []⟩ rfl (by decide)⟩

/-! ## C8: `check_utf8` and the `substring` primitive

Strings are byte sequences (`List Nat`, each entry a byte; the C reads
them through `(unsigned char)` casts, modelled by `% 256`, and masks with
`& 0xc0`, which agrees with the source's `& ~0x3f` on byte values).
`check_utf8` (lisp.c:1792-1817) is a one-pass DFA with a `remain` counter
of outstanding continuation bytes; it returns the error position, or -1
when the sequence is valid.  The `S_SUBSTRING` primitive
(lisp.c:5385-5408) validates `0 <= start <= end`, clamps `end` to the
string length, advances `end` past continuation bytes (the NUL
terminator `buf[length] = 0` stops the loop at the end of the string),
rejects a `start` that points at a continuation byte, and copies the
byte range `[start, end)`.  When the range check passes but `start`
exceeds the clamped-and-advanced end (possible when the caller's `end`
exceeded the length), `end - start` is negative and its conversion to
`size_t` makes `lisp_string_new`'s allocation fail, which exits through
`lisp_err`; this is the `allocFailure` branch. -/

/-- The loop of `check_utf8` (lisp.c:1792-1817): `remain` outstanding
continuation bytes, `i` the current position (only used in the error
return value). -/
def check_utf8_loop : Nat → Int → List Nat → Int
  | remain, i, [] => if remain = 0 then -1 else i
  | remain, i, b :: rest =>
    let c := b % 256
    if 0 < remain then
      if c &&& 0xc0 ≠ 0x80 then i
      else check_utf8_loop (remain - 1) (i + 1) rest
    else if c >>> 7 = 0 then check_utf8_loop 0 (i + 1) rest
    else if c >>> 6 = 2 then i
    else if c >>> 5 = 6 then check_utf8_loop 1 (i + 1) rest
    else if c >>> 4 = 0xe then check_utf8_loop 2 (i + 1) rest
    else if c >>> 3 = 0x1e then check_utf8_loop 3 (i + 1) rest
    else i

/-- `check_utf8(s, n)`: position of the first encoding error, or -1. -/
def check_utf8 (s : List Nat) : Int :=
  check_utf8_loop 0 0 s

/-- The DFA step of `check_utf8` on one byte: `none` is an error exit. -/
def utf8_step (remain : Nat) (b : Nat) : Option Nat :=
  let c := b % 256
  if 0 < remain then
    if c &&& 0xc0 ≠ 0x80 then none else some (remain - 1)
  else if c >>> 7 = 0 then some 0
  else if c >>> 6 = 2 then none
  else if c >>> 5 = 6 then some 1
  else if c >>> 4 = 0xe then some 2
  else if c >>> 3 = 0x1e then some 3
  else none

/-- State of the `check_utf8` DFA after a byte list, starting from
`remain`; `none` when an error occurred inside. -/
def utf8_state (remain : Nat) : List Nat → Option Nat
  | [] => some remain
  | b :: rest =>
    match utf8_step remain b with
    | none => none
    | some r => utf8_state r rest

/-- `check_utf8_loop` succeeds iff running the DFA ends in state 0
(the position accumulator `i` stays nonnegative, so an error return is
never confused with -1). -/
theorem check_utf8_loop_eq_state (s : List Nat) :
    ∀ (remain : Nat) (i : Int), 0 ≤ i →
      (check_utf8_loop remain i s = -1 ↔ utf8_state remain s = some 0) := by
  induction s with
  | nil =>
    intro remain i hi
    simp only [check_utf8_loop, utf8_state]
    split_ifs with h
    · simp [h]
    · exact ⟨fun hc => absurd hc (by omega), fun hc => by
        simp only [Option.some.injEq] at hc
        omega⟩
  | cons b rest ih =>
    intro remain i hi
    simp only [check_utf8_loop, utf8_state, utf8_step]
    split_ifs with h1 h2 h3 h4 h5 h6 h7
    · exact ⟨fun hc => absurd hc (by omega), fun hc => by simp at hc⟩
    · simpa using ih (remain - 1) (i + 1) (by omega)
    · simpa using ih 0 (i + 1) (by omega)
    · exact ⟨fun hc => absurd hc (by omega), fun hc => by simp at hc⟩
    · simpa using ih 1 (i + 1) (by omega)
    · simpa using ih 2 (i + 1) (by omega)
    · simpa using ih 3 (i + 1) (by omega)
    · exact ⟨fun hc => absurd hc (by omega), fun hc => by simp at hc⟩

/-- The DFA is compositional over append. -/
theorem utf8_state_append (u v : List Nat) : ∀ remain : Nat,
    utf8_state remain (u ++ v) =
      (utf8_state remain u).bind (fun m => utf8_state m v) := by
  induction u with
  | nil => intro remain; rfl
  | cons b rest ih =>
    intro remain
    simp only [List.cons_append, utf8_state]
    match utf8_step remain b with
    | none => rfl
    | some r => exact ih r

/-- The byte walk of `while ((s->buf[end] & 0xc0) == 0x80) end++;` over the
remainder of the string (the NUL terminator `buf[length] = 0` is not a
continuation byte, so the loop stops at the end of the string at the
latest); `e` is the current index, the list argument is `s.drop e`. -/
def advance_end_from (e : Nat) : List Nat → Nat
  | [] => e
  | b :: rest =>
    if b % 256 &&& 0xc0 = 0x80 then advance_end_from (e + 1) rest else e

/-- The end-index advance loop of `S_SUBSTRING` (lisp.c:5399-5400). -/
def advance_end (s : List Nat) (e : Nat) : Nat :=
  advance_end_from e (s.drop e)

/-- Error exits of the embedded `S_SUBSTRING`. -/
inductive SubErr where
  | badRange       -- "bad range"
  | badFirstByte   -- "bad first byte"
  | allocFailure   -- negative end-start wraps to a huge size_t and the
                   -- allocation in lisp_string_new fails
  deriving DecidableEq, Repr

/-- `apply_primitive` case `S_SUBSTRING` (lisp.c:5385-5408): validate
`0 <= start <= end` (with `end` defaulting to the length), clamp `end` to
the length, advance `end` past continuation bytes, reject a `start` that
points into a multi-byte sequence, and return the byte range
`[start, end)`. -/
def substring (s : List Nat) (start : Int) (endOpt : Option Int) :
    Except SubErr (List Nat) :=
  let e0 : Int := match endOpt with | some e => e | none => (s.length : Int)
  if 0 ≤ start ∧ start ≤ e0 then
    let e1 : Nat := min e0.toNat s.length
    let e2 : Nat := advance_end s e1
    if start.toNat < s.length ∧ (s.getD start.toNat 0) % 256 &&& 0xc0 = 0x80 then
      .error SubErr.badFirstByte
    else if e2 < start.toNat then
      .error SubErr.allocFailure
    else
      .ok ((s.take e2).drop start.toNat)
  else
    .error SubErr.badRange

/-- Every prefix of a DFA-valid byte list runs without error. -/
theorem utf8_state_take (s : List Nat) (hs : utf8_state 0 s = some 0)
    (p : Nat) : ∃ r, utf8_state 0 (s.take p) = some r := by
  have h := utf8_state_append (s.take p) (s.drop p) 0
  rw [List.take_append_drop] at h
  rw [hs] at h
  match hp : utf8_state 0 (s.take p) with
  | some r => exact ⟨r, rfl⟩
  | none =>
    rw [hp] at h
    simp at h

/-- In a valid byte list, a position holding a non-continuation byte is a
character boundary: the DFA state there is 0. -/
theorem utf8_state_boundary (s : List Nat) (hs : utf8_state 0 s = some 0)
    (p : Nat) (hp : p < s.length)
    (hb : ¬ (s.getD p 0) % 256 &&& 0xc0 = 0x80) :
    utf8_state 0 (s.take p) = some 0 := by
  obtain ⟨r, hr⟩ := utf8_state_take s hs p
  have h := utf8_state_append (s.take p) (s.drop p) 0
  rw [List.take_append_drop, hs, hr] at h
  rcases Nat.eq_zero_or_pos r with h0 | h0
  · rw [h0] at hr
    exact hr
  · exfalso
    have hd : s.drop p = s.getD p 0 :: s.drop (p + 1) := by
      have := List.getD_eq_getElem s 0 hp
      rw [List.drop_eq_getElem_cons hp]
      rw [this]
    rw [hd] at h
    simp only [utf8_state, utf8_step, Option.some_bind] at h
    rw [if_pos h0, if_pos (by simpa using hb)] at h
    simp at h

/-- A slice of a valid byte list between two boundary positions is itself
valid. -/
theorem utf8_state_slice (s : List Nat) (a b : Nat) (hab : a ≤ b)
    (ha : utf8_state 0 (s.take a) = some 0)
    (hb : utf8_state 0 (s.take b) = some 0) :
    utf8_state 0 ((s.take b).drop a) = some 0 := by
  have hsplit : s.take b = (s.take b).take a ++ (s.take b).drop a :=
    (List.take_append_drop a (s.take b)).symm
  have hta : (s.take b).take a = s.take a := by
    rw [List.take_take]
    rw [min_eq_left hab]
  have h := utf8_state_append ((s.take b).take a) ((s.take b).drop a) 0
  rw [← hsplit, hb, hta, ha] at h
  simpa using h.symm

/-- `advance_end_from` only moves forward. -/
theorem advance_end_from_ge (l : List Nat) : ∀ e, e ≤ advance_end_from e l := by
  induction l with
  | nil => intro e; simp [advance_end_from]
  | cons b rest ih =>
    intro e
    simp only [advance_end_from]
    split_ifs
    · exact le_trans (Nat.le_succ e) (ih (e + 1))
    · exact le_refl e

/-- The advance loop stops at the end of the string or at a
non-continuation byte, and never walks past the end. -/
theorem advance_end_stop (s : List Nat) : ∀ (e : Nat), e ≤ s.length →
    (advance_end s e ≤ s.length ∧
      (advance_end s e = s.length ∨
        ¬ (s.getD (advance_end s e) 0) % 256 &&& 0xc0 = 0x80)) := by
  intro e he
  unfold advance_end
  have hgen : ∀ (l : List Nat) (e : Nat), e ≤ s.length → l = s.drop e →
      advance_end_from e l ≤ s.length ∧
        (advance_end_from e l = s.length ∨
          ¬ (s.getD (advance_end_from e l) 0) % 256 &&& 0xc0 = 0x80) := by
    intro l
    induction l with
    | nil =>
      intro e he hdrop
      have : s.length ≤ e := by
        by_contra hlt
        push_neg at hlt
        have := List.drop_eq_nil_iff.mp hdrop.symm
        omega
      simp only [advance_end_from]
      exact ⟨by omega, Or.inl (by omega)⟩
    | cons b rest ih =>
      intro e he hdrop
      have hlt : e < s.length := by
        by_contra hge
        push_neg at hge
        rw [List.drop_eq_nil_iff.mpr hge] at hdrop
        exact List.cons_ne_nil b rest hdrop
      have hbyte : s.getD e 0 = b := by
        have h0 : (s.drop e).getD 0 0 = s.getD e 0 := by
          rw [List.getD_eq_getElem?_getD, List.getD_eq_getElem?_getD,
            List.getElem?_drop]
          simp
        rw [← hdrop] at h0
        simpa using h0.symm
      have hrest : rest = s.drop (e + 1) := by
        have h1 : (s.drop e).drop 1 = s.drop (e + 1) := by
          rw [List.drop_drop]
        rw [← hdrop] at h1
        simpa using h1
      simp only [advance_end_from]
      split_ifs with hc
      · exact ih (e + 1) (by omega) hrest
      · rw [← hbyte] at hc
        exact ⟨le_of_lt hlt, Or.inr hc⟩
  exact hgen (s.drop e) e he rfl

/-- **C8.**  For a valid UTF-8 string `s` and indices passing the
`0 <= start <= end` range check, whenever `substring` returns a result it
is a valid UTF-8 string (`check_utf8` returns -1 on it): the result never
begins or ends in the middle of a multi-byte sequence — a `start` inside
one is rejected with "bad first byte", and an `end` inside one is first
advanced to the next character boundary by the
`while ((s->buf[end] & 0xc0) == 0x80) end++` loop, which stops at the end
of the string or at the first non-continuation byte. -/
theorem substring_utf8_valid (s : List Nat) (start : Int) (endOpt : Option Int)
    (r : List Nat) (hvalid : check_utf8 s = -1)
    (hok : substring s start endOpt = .ok r) :
    check_utf8 r = -1 ∧
    (∀ e : Nat, e ≤ s.length →
      e ≤ advance_end s e ∧
      (advance_end s e = s.length ∨
        ¬ (s.getD (advance_end s e) 0) % 256 &&& 0xc0 = 0x80)) := by
  have hstate : utf8_state 0 s = some 0 :=
    (check_utf8_loop_eq_state s 0 0 le_rfl).mp hvalid
  constructor
  · simp only [substring] at hok
    split_ifs at hok with h1 h2 h3
    simp only [Except.ok.injEq] at hok
    subst hok
    set a := start.toNat with ha
    set e1 := min (match endOpt with | some e => e | none => (s.length : Int)).toNat
      s.length with he1
    set b := advance_end s e1 with hb
    have he1len : e1 ≤ s.length := min_le_right _ _
    obtain ⟨hble, hbstop⟩ := advance_end_stop s e1 he1len
    have hab : a ≤ b := by omega
    have hbbound : utf8_state 0 (s.take b) = some 0 := by
      rcases hbstop with h | h
      · have hbl : b = s.length := by omega
        rw [hbl, List.take_length]
        exact hstate
      · rcases Nat.lt_or_ge b s.length with hblt | hbge
        · exact utf8_state_boundary s hstate b hblt h
        · have : b = s.length := by omega
          rw [this, List.take_length]
          exact hstate
    rcases Nat.lt_or_ge a s.length with halt | hage
    · have hanc : ¬ (s.getD a 0) % 256 &&& 0xc0 = 0x80 := by
        intro hcont
        exact h2 ⟨halt, hcont⟩
      have habound : utf8_state 0 (s.take a) = some 0 :=
        utf8_state_boundary s hstate a halt hanc
      have := utf8_state_slice s a b hab habound hbbound
      exact (check_utf8_loop_eq_state _ 0 0 le_rfl).mpr this
    · have hba : b = a := by omega
      rw [hba]
      simp only [List.drop_take]
      have : a - a = 0 := by omega
      rw [this]
      rfl
  · intro e he
    refine ⟨?_, (advance_end_stop s e he).2⟩
    unfold advance_end
    exact advance_end_from_ge _ e

/-- Witness for C8: `substring "aé" 0 2` — the end index 2 points at the
continuation byte of `é` (0xc3 0xa9) and is advanced to 3. -/
theorem substring_utf8_valid_witness :
    check_utf8 [97, 0xc3, 0xa9] = -1 ∧
    substring [97, 0xc3, 0xa9] 0 (some 2) = .ok [97, 0xc3, 0xa9] ∧
    check_utf8 [97, 0xc3, 0xa9] = -1 :=
  ⟨by decide, by rfl,
    (substring_utf8_valid [97, 0xc3, 0xa9] 0 (some 2) [97, 0xc3, 0xa9]
      (by decide) (by rfl)).1⟩

/-! ## C9: dictionary lookup through the lazy hash index vs. linear scan

A dictionary (`O_DICT`, lisp.c:2196-2332) is an array whose slot 0 is
reserved for a lazily built open-addressing hash table and whose slots
1..count-1 hold the binding pairs in insertion order.  Pairs are heap
objects compared by pointer; here each pair carries an allocation id
`pid` standing for its address, and the hash table stores pids, so that
the table and the entry list alias the same pair objects.  Keys are
interned symbols, compared by pointer identity (`p->car == name`),
modelled by their interning id; `lisp_string_hash` caches the sdbm hash
of the symbol's name, modelled as an arbitrary function `hash` of the
key id (two distinct symbols may collide; nothing below depends on the
concrete hash).  `lisp_dict_remove` and the update path of `S_DICT_SET`
mutate the found pair's cdr in place and touch neither the keys nor the
table.  Probing in `lookup`/`add_to_lookup_table` starts at
`h % (cap-1)`, advances by 1 wrapping at `cap`, and gives up after `cap`
probes. -/

/-- A binding pair: allocation id (its heap address), key symbol id, and
value (`none` models `LISP_UNDEF`, the tombstone written by removal). -/
structure DPair where
  pid : Nat
  key : Nat
  value : Option Nat
  deriving DecidableEq, Repr

/-- A dictionary: the lazily built lookup table in slot 0 (a pid per
occupied slot), the binding pairs of slots 1..count-1 in insertion
order, the backing array's capacity, and the allocator's next pair
address. -/
structure Dict where
  table : Option (List (Option Nat))
  entries : List DPair
  cap : Nat
  nextPid : Nat
  deriving DecidableEq, Repr

/-- `lisp_dict_new(vm, n)` (lisp.c:2209-2215) on top of `lisp_array_new`,
whose capacity is at least 4. -/
def dict_new (n : Nat) : Dict :=
  ⟨none, [], max n 4, 0⟩

/-- The probe advance `if (++i >= a->cap) i = 0;`. -/
def next_i (len i : Nat) : Nat :=
  if i + 1 ≥ len then 0 else i + 1

/-- The probe loop of `add_to_lookup_table` (lisp.c:2283-2296): place the
pair's pid at the first empty slot; after `cap` probes the C code hits
`assert(0)`, modelled as `none`. -/
def add_loop (pid : Nat) (t : List (Option Nat)) (i : Nat) :
    Nat → Option (List (Option Nat))
  | 0 => none
  | fuel + 1 =>
    if t.getD i none = none then some (t.set i (some pid))
    else add_loop pid t (next_i t.length i) fuel

/-- `add_to_lookup_table(a, p)` (lisp.c:2283-2296). -/
def add_to_lookup_table (hash : Nat → Nat) (t : List (Option Nat))
    (p : DPair) : Option (List (Option Nat)) :=
  add_loop p.pid t (hash p.key % (t.length - 1)) t.length

/-- Dereference a pair pointer stored in the table: the pair object with
that address among the dictionary's entries. -/
def pair_of (es : List DPair) (pid : Nat) : Option DPair :=
  es.find? (fun q => q.pid == pid)

/-- The probe loop of `lookup` (lisp.c:2217-2232): stop at the first
empty slot, return the pair whose key pointer equals the name, give up
after `cap` probes. -/
def lookup_loop (es : List DPair) (t : List (Option Nat)) (key : Nat)
    (i : Nat) : Nat → Option DPair
  | 0 => none
  | fuel + 1 =>
    match t.getD i none with
    | none => none
    | some pid =>
      match pair_of es pid with
      | none => none
      | some p =>
        if p.key == key then some p
        else lookup_loop es t key (next_i t.length i) fuel

/-- `lookup(a, name)` (lisp.c:2217-2232). -/
def lookup (hash : Nat → Nat) (es : List DPair) (t : List (Option Nat))
    (key : Nat) : Option DPair :=
  lookup_loop es t key (hash key % (t.length - 1)) t.length

/-- `lisp_dict_assoc` (lisp.c:2251-2264): hash lookup once the
dictionary holds more than `DICT_LOOKUP_COUNT = 8` items (counting the
reserved slot 0), linear pointer-identity scan otherwise.  The C
asserts `dict->items[0]` on the hash path; a missing table is modelled
as `none`. -/
def lisp_dict_assoc (hash : Nat → Nat) (d : Dict) (key : Nat) :
    Option DPair :=
  if d.entries.length + 1 > 8 then
    match d.table with
    | some t => lookup hash d.entries t key
    | none => none
  else
    d.entries.find? (fun q => q.key == key)

/-- The linear scan of slots 1..count-1 in insertion order by pointer
identity of the key symbol (the `else` branch of `lisp_dict_assoc`). -/
def linear_assoc (d : Dict) (key : Nat) : Option DPair :=
  d.entries.find? (fun q => q.key == key)

/-- Capacity growth of `lisp_array_push` (lisp.c:2007-2013) applied to
the dictionary array: doubling when full (`count` includes slot 0). -/
def dict_push_cap (d : Dict) : Nat :=
  if d.entries.length + 1 = d.cap then d.cap * 2 else d.cap

/-- Rebuilding the lookup table (lisp.c:2300-2307): a fresh zeroed array
of `dict->cap*2` slots, then `add_to_lookup_table` for every binding
pair in insertion order. -/
def rebuild (hash : Nat → Nat) (es : List DPair) (len : Nat) :
    Option (List (Option Nat)) :=
  es.foldl (fun acc p => acc.bind (fun t => add_to_lookup_table hash t p))
    (some (List.replicate len none))

/-- `lisp_dict_add_item` (lisp.c:2297-2311): push the pair, then — once
more than 8 items — either rebuild the table (when absent or too small
for the doubled capacity) or add the new pair to it. -/
def lisp_dict_add_item (hash : Nat → Nat) (d : Dict) (p : DPair) :
    Option Dict :=
  let cap' := dict_push_cap d
  let es' := d.entries ++ [p]
  if es'.length + 1 > 8 then
    match d.table with
    | some t =>
      if t.length < cap' * 2 then
        (rebuild hash es' (cap' * 2)).map
          (fun t' => ⟨some t', es', cap', d.nextPid⟩)
      else
        (add_to_lookup_table hash t p).map
          (fun t' => ⟨some t', es', cap', d.nextPid⟩)
    | none =>
      (rebuild hash es' (cap' * 2)).map
        (fun t' => ⟨some t', es', cap', d.nextPid⟩)
  else
    some ⟨d.table, es', cap', d.nextPid⟩

/-- `lisp_dict_add` (lisp.c:2313-2319): a fresh pair (`lisp_pair_new`
allocates a new address) added to the dictionary. -/
def lisp_dict_add (hash : Nat → Nat) (d : Dict) (key : Nat)
    (value : Option Nat) : Option Dict :=
  lisp_dict_add_item hash { d with nextPid := d.nextPid + 1 }
    ⟨d.nextPid, key, value⟩

/-- Mutating the cdr of the pair object at address `pid` in place
(`p->cdr = …`); the table is untouched because it stores addresses. -/
def upd_value (es : List DPair) (pid : Nat) (v : Option Nat) :
    List DPair :=
  es.map (fun q => if q.pid == pid then { q with value := v } else q)

/-- `lisp_dict_remove` (lisp.c:2321-2327): find the pair and overwrite
its cdr with `LISP_UNDEF`, preserving iteration order. -/
def lisp_dict_remove (hash : Nat → Nat) (d : Dict) (key : Nat) : Dict :=
  match lisp_dict_assoc hash d key with
  | some p => { d with entries := upd_value d.entries p.pid none }
  | none => d

/-- The `S_DICT_SET` primitive's dictionary effect (lisp.c:5000-5012):
mutate the found pair's cdr, or `lisp_dict_add` a fresh pair. -/
def lisp_dict_set (hash : Nat → Nat) (d : Dict) (key : Nat)
    (value : Option Nat) : Option Dict :=
  match lisp_dict_assoc hash d key with
  | some p => some { d with entries := upd_value d.entries p.pid value }
  | none => lisp_dict_add hash d key value

/-- `lisp_dict_clear` (lisp.c:2329-2333). -/
def dict_clear (d : Dict) : Dict :=
  ⟨none, [], d.cap, d.nextPid⟩

/-- The dictionaries reachable by any sequence of constructions,
insertions, removals, value updates and clears (the fallible operations
appear with their success hypothesis; on the failure branches the C
aborts via `assert` / `lisp_err` before producing a dictionary). -/
inductive Built (hash : Nat → Nat) : Dict → Prop where
  | new (n : Nat) : Built hash (dict_new n)
  | add {d d' : Dict} (key : Nat) (value : Option Nat) : Built hash d →
      lisp_dict_add hash d key value = some d' → Built hash d'
  | remove {d : Dict} (key : Nat) : Built hash d →
      Built hash (lisp_dict_remove hash d key)
  | set {d d' : Dict} (key : Nat) (value : Option Nat) : Built hash d →
      lisp_dict_set hash d key value = some d' → Built hash d'
  | clear {d : Dict} : Built hash d → Built hash (dict_clear d)

/-- Reading a table slot (`a->items[i]`, NULL modelled as `none`). -/
def slot (t : List (Option Nat)) (j : Nat) : Option Nat :=
  t.getD j none

theorem slot_set_self {t : List (Option Nat)} {j : Nat} (h : j < t.length)
    (v : Option Nat) : slot (t.set j v) j = v := by
  simp [slot, List.getD_eq_getElem?_getD, List.getElem?_set_self h]

theorem slot_set_ne {t : List (Option Nat)} {i j : Nat} (h : i ≠ j)
    (v : Option Nat) : slot (t.set i v) j = slot t j := by
  simp [slot, List.getD_eq_getElem?_getD, List.getElem?_set_ne h]

theorem slot_replicate (len j : Nat) :
    slot (List.replicate len (none : Option Nat)) j = none := by
  simp only [slot, List.getD_eq_getElem?_getD, List.getElem?_replicate]
  split <;> rfl

/-- `add_loop` preserves the table size. -/
theorem add_loop_length {pid : Nat} {t t' : List (Option Nat)} :
    ∀ {fuel i : Nat}, add_loop pid t i fuel = some t' →
      t'.length = t.length := by
  intro fuel
  induction fuel with
  | zero => intro i h; simp [add_loop] at h
  | succ f ih =>
    intro i h
    simp only [add_loop] at h
    split_ifs at h with hs
    · simp only [Option.some.injEq] at h
      subst h
      exact List.length_set t i _
    · exact ih h

/-- Each slot of an `add_loop` result either kept its value or was the
empty slot that received the new pid. -/
theorem add_loop_slots {pid : Nat} {t t' : List (Option Nat)} :
    ∀ {fuel i : Nat}, add_loop pid t i fuel = some t' →
      ∀ j, slot t' j = slot t j ∨ (slot t j = none ∧ slot t' j = some pid) := by
  intro fuel
  induction fuel with
  | zero => intro i h; simp [add_loop] at h
  | succ f ih =>
    intro i h j
    simp only [add_loop] at h
    split_ifs at h with hs
    · simp only [Option.some.injEq] at h
      subst h
      by_cases hij : i = j
      · subst hij
        by_cases hlt : i < t.length
        · exact Or.inr ⟨hs, slot_set_self hlt _⟩
        · left
          rw [List.set_eq_of_length_le (by omega)]
      · exact Or.inl (slot_set_ne hij _)
    · exact ih h j

/-- `add_loop` never changes an occupied slot. -/
theorem add_loop_keeps {pid : Nat} {t t' : List (Option Nat)}
    {fuel i : Nat} (h : add_loop pid t i fuel = some t') :
    ∀ j, slot t j ≠ none → slot t' j = slot t j := by
  intro j hj
  rcases add_loop_slots h j with h1 | ⟨h1, _⟩
  · exact h1
  · exact absurd h1 hj

/-- A successful `lookup_loop` result survives appending a fresh pair to
the entries and an `add_loop` insertion into the table. -/
theorem lookup_loop_mono {es : List DPair} {t t' : List (Option Nat)}
    {p : DPair} {key : Nat} {q : DPair}
    (hadd : ∃ i0 fuel0, add_loop p.pid t i0 fuel0 = some t') :
    ∀ {fuel i : Nat}, lookup_loop es t key i fuel = some q →
      lookup_loop (es ++ [p]) t' key i fuel = some q := by
  obtain ⟨i0, fuel0, hadd⟩ := hadd
  have hkeeps : ∀ j, slot t j ≠ none → slot t' j = slot t j :=
    add_loop_keeps hadd
  have hlen : t'.length = t.length := add_loop_length hadd
  intro fuel
  induction fuel with
  | zero => intro i h; simp [lookup_loop] at h
  | succ f ih =>
    intro i h
    simp only [lookup_loop] at h ⊢
    split at h
    · exact absurd h (by simp)
    · rename_i pid' hs
      split at h
      · exact absurd h (by simp)
      · rename_i r hp
        have hsE : t[i]?.getD none = some pid' := by
          simpa [List.getD_eq_getElem?_getD] using hs
        have hs' : t'.getD i none = some pid' := by
          have hk := hkeeps i (by
            simp [slot, List.getD_eq_getElem?_getD, hsE])
          simp only [slot, List.getD_eq_getElem?_getD] at hk
          simp only [List.getD_eq_getElem?_getD]
          rw [hk]
          exact hsE
        have hp' : pair_of (es ++ [p]) pid' = some r := by
          unfold pair_of at hp ⊢
          rw [List.find?_append, hp]
          rfl
        split
        · rename_i hnone
          rw [hs'] at hnone
          simp at hnone
        · rename_i pid'' hs''
          rw [hs'] at hs''
          injection hs'' with hpp
          subst hpp
          split
          · rename_i hpnone
            rw [hp'] at hpnone
            simp at hpnone
          · rename_i r' hp''
            rw [hp'] at hp''
            injection hp'' with hrr
            subst hrr
            by_cases hk : (r.key == key) = true
            · rw [if_pos hk] at h ⊢
              exact h
            · rw [if_neg hk] at h ⊢
              rw [hlen]
              exact ih h

/-- If no entry has the looked-up key, `lookup_loop` cannot return a
pair. -/
theorem lookup_loop_no_key {es : List DPair} {t : List (Option Nat)}
    {key : Nat} (hno : ∀ q ∈ es, q.key ≠ key) :
    ∀ {fuel i : Nat}, lookup_loop es t key i fuel = none := by
  intro fuel
  induction fuel with
  | zero => intro i; simp [lookup_loop]
  | succ f ih =>
    intro i
    simp only [lookup_loop]
    split
    · rfl
    · split
      · rfl
      · rename_i r hr
        split_ifs with hk
        · exfalso
          have hmem : r ∈ es := List.mem_of_find?_eq_some hr
          exact hno r hmem (by simpa using hk)
        · exact ih

/-- A pid that belongs to some entry can be dereferenced. -/
theorem pair_of_isSome {es : List DPair} {pid : Nat}
    (h : ∃ q ∈ es, q.pid = pid) : ∃ r, pair_of es pid = some r := by
  obtain ⟨q, hq, hpid⟩ := h
  unfold pair_of
  cases hf : es.find? (fun r => r.pid == pid) with
  | some r => exact ⟨r, rfl⟩
  | none =>
    exfalso
    have := List.find?_eq_none.mp hf q hq
    simp [hpid] at this

/-- `next_i` stays in range. -/
theorem next_i_lt {len i : Nat} (h : 0 < len) : next_i len i < len := by
  unfold next_i
  split_ifs with hc
  · exact h
  · omega

/-- After `add_loop` places a pair on the probe path of its own key, the
lookup walk from the same start position finds that pair, provided no
already-stored pair matches the key. -/
theorem add_lookup_hits {es' : List DPair} {t t' : List (Option Nat)}
    {p : DPair} {key : Nat}
    (hp : pair_of es' p.pid = some p) (hk : p.key = key)
    (hslots : ∀ j pid', slot t j = some pid' →
      ∀ q, pair_of es' pid' = some q → q.key ≠ key)
    (hres : ∀ j pid', slot t j = some pid' →
      ∃ q, pair_of es' pid' = some q) :
    ∀ {fuel i : Nat}, i < t.length → add_loop p.pid t i fuel = some t' →
      lookup_loop es' t' key i fuel = some p := by
  intro fuel
  induction fuel with
  | zero => intro i _ ha; simp [add_loop] at ha
  | succ f ih =>
    intro i hi ha
    have hlen := add_loop_length ha
    simp only [add_loop] at ha
    simp only [lookup_loop]
    split_ifs at ha with hempty
    · simp only [Option.some.injEq] at ha
      have hslot : t'.getD i none = some p.pid := by
        rw [← ha]
        exact slot_set_self hi _
      split
      · rename_i hnone
        rw [hslot] at hnone
        simp at hnone
      · rename_i pid'' hs''
        rw [hslot] at hs''
        injection hs'' with hpp
        subst hpp
        split
        · rename_i hpnone
          rw [hp] at hpnone
          simp at hpnone
        · rename_i r' hp''
          rw [hp] at hp''
          injection hp'' with hrr
          subst hrr
          rw [if_pos (by simp [hk])]
    · have hex : ∃ pid', t.getD i none = some pid' := by
        cases hv : t.getD i none with
        | none => exact absurd hv hempty
        | some pid' => exact ⟨pid', rfl⟩
      obtain ⟨pid', hs⟩ := hex
      have hsE : t[i]?.getD none = some pid' := by
        simpa [List.getD_eq_getElem?_getD] using hs
      have hkeep : t'.getD i none = some pid' := by
        have hth := add_loop_keeps ha i (by
          simp [slot, List.getD_eq_getElem?_getD, hsE])
        simp only [slot, List.getD_eq_getElem?_getD] at hth
        simp only [List.getD_eq_getElem?_getD]
        rw [hth]
        exact hsE
      obtain ⟨q, hq⟩ := hres i pid' hs
      have hqk : q.key ≠ key := hslots i pid' hs q hq
      split
      · rename_i hnone
        rw [hkeep] at hnone
        simp at hnone
      · rename_i pid'' hs''
        rw [hkeep] at hs''
        injection hs'' with hpp
        subst hpp
        split
        · rename_i hpnone
          rw [hq] at hpnone
          simp at hpnone
        · rename_i r' hq''
          rw [hq] at hq''
          injection hq'' with hrr
          subst hrr
          rw [if_neg (by simpa using hqk)]
          rw [hlen]
          exact ih (next_i_lt (by omega)) ha

/-- The per-insertion invariant step: adding a fresh pair to a table in
which lookup agrees with the linear scan preserves that agreement (and
the slots-point-into-entries property). -/
theorem table_step (hash : Nat → Nat) {es : List DPair} {p : DPair}
    {t t' : List (Option Nat)}
    (hfresh : ∀ q ∈ es, q.pid ≠ p.pid)
    (hL : 2 ≤ t.length)
    (hI1 : ∀ j pid', slot t j = some pid' → ∃ q ∈ es, q.pid = pid')
    (hI2 : ∀ key, lookup hash es t key =
      es.find? (fun q => q.key == key))
    (hadd : add_to_lookup_table hash t p = some t') :
    t'.length = t.length ∧
    (∀ j pid', slot t' j = some pid' → ∃ q ∈ es ++ [p], q.pid = pid') ∧
    (∀ key, lookup hash (es ++ [p]) t' key =
      (es ++ [p]).find? (fun q => q.key == key)) := by
  unfold add_to_lookup_table at hadd
  have hlen : t'.length = t.length := add_loop_length hadd
  refine ⟨hlen, ?_, ?_⟩
  · intro j pid' hj
    rcases add_loop_slots hadd j with heq | ⟨_, hnew⟩
    · rw [heq] at hj
      obtain ⟨q, hq, hqp⟩ := hI1 j pid' hj
      exact ⟨q, List.mem_append_left _ hq, hqp⟩
    · rw [hnew] at hj
      injection hj with hj
      exact ⟨p, List.mem_append_right _ (List.mem_singleton.mpr rfl), hj⟩
  · intro key
    have hpairp : pair_of (es ++ [p]) p.pid = some p := by
      unfold pair_of
      rw [List.find?_append]
      have h1 : es.find? (fun r => r.pid == p.pid) = none := by
        rw [List.find?_eq_none]
        intro q hq
        simp [hfresh q hq]
      rw [h1]
      simp [pair_of]
    rw [List.find?_append]
    cases hfind : es.find? (fun q => q.key == key) with
    | some q =>
      have hold : lookup_loop es t key (hash key % (t.length - 1)) t.length =
          some q := by
        have := hI2 key
        unfold lookup at this
        rw [this, hfind]
      have hnew := lookup_loop_mono ⟨_, _, hadd⟩ hold
      unfold lookup
      rw [hlen]
      rw [hnew]
      rfl
    | none =>
      have hnokey : ∀ q ∈ es, q.key ≠ key := by
        intro q hq
        have := List.find?_eq_none.mp hfind q hq
        simpa using this
      by_cases hpk : p.key = key
      · have hfp : List.find? (fun q => q.key == key) [p] = some p := by
          simp [List.find?, hpk]
        rw [hfp]
        have hi : hash key % (t.length - 1) < t.length := by
          have h1 : 0 < t.length - 1 := by omega
          have := Nat.mod_lt (hash key) h1
          omega
        have hadd' : add_loop p.pid t (hash key % (t.length - 1)) t.length =
            some t' := by
          rw [← hpk]
          exact hadd
        have hhit := add_lookup_hits hpairp hpk
          (by
            intro j pid' hj q hq
            obtain ⟨r, hr, hrp⟩ := hI1 j pid' hj
            have hqm : q ∈ es ++ [p] := List.mem_of_find?_eq_some hq
            have hqp : q.pid = pid' := by
              have := List.find?_some hq
              simpa using this
            rcases List.mem_append.mp hqm with hqes | hqp'
            · exact hnokey q hqes
            · exfalso
              rw [List.mem_singleton.mp hqp'] at hqp
              rw [← hqp] at hrp
              exact hfresh r hr hrp)
          (by
            intro j pid' hj
            obtain ⟨r, hr, hrp⟩ := hI1 j pid' hj
            exact pair_of_isSome ⟨r, List.mem_append_left _ hr, hrp⟩)
          hi hadd'
        unfold lookup
        rw [hlen]
        rw [hhit]
        rfl
      · have hfp : List.find? (fun q => q.key == key) [p] = none := by
          have hb : (p.key == key) = false := by simpa using hpk
          simp [List.find?, hb]
        rw [hfp]
        have hnokey' : ∀ q ∈ es ++ [p], q.key ≠ key := by
          intro q hq
          rcases List.mem_append.mp hq with h | h
          · exact hnokey q h
          · rw [List.mem_singleton.mp h]
            exact hpk
        unfold lookup
        rw [lookup_loop_no_key hnokey']
        rfl

/-- The invariant pack carried along table construction. -/
def TableOk (hash : Nat → Nat) (es : List DPair)
    (t : List (Option Nat)) : Prop :=
  (∀ j pid', slot t j = some pid' → ∃ q ∈ es, q.pid = pid') ∧
  (∀ key, lookup hash es t key = es.find? (fun q => q.key == key))

/-- Lookup in an all-empty table stops immediately. -/
theorem lookup_loop_replicate (es : List DPair) (key i fuel len : Nat) :
    lookup_loop es (List.replicate len none) key i fuel = none := by
  cases fuel with
  | zero => rfl
  | succ f =>
    simp only [lookup_loop]
    have h := slot_replicate len i
    unfold slot at h
    rw [h]

/-- A freshly zeroed table satisfies the invariant for no entries. -/
theorem tableOk_replicate (hash : Nat → Nat) (len : Nat) :
    TableOk hash [] (List.replicate len (none : Option Nat)) := by
  constructor
  · intro j pid' hj
    rw [slot_replicate] at hj
    simp at hj
  · intro key
    unfold lookup
    rw [lookup_loop_replicate]
    simp

/-- A failed insertion poisons the whole fold. -/
theorem foldl_bind_none (hash : Nat → Nat) (rs : List DPair) :
    rs.foldl (fun acc p => acc.bind
      (fun tt => add_to_lookup_table hash tt p)) none = none := by
  induction rs with
  | nil => rfl
  | cons r rs ih =>
    simp only [List.foldl_cons, Option.none_bind]
    exact ih

/-- Folding `add_to_lookup_table` over a suffix of pairwise-fresh entries
preserves the invariant. -/
theorem tableOk_fold (hash : Nat → Nat) :
    ∀ (rest pre : List DPair) (t : List (Option Nat)),
      (List.Nodup ((pre ++ rest).map DPair.pid)) →
      2 ≤ t.length →
      TableOk hash pre t →
      ∀ {tf : List (Option Nat)},
        rest.foldl (fun acc p => acc.bind
          (fun tt => add_to_lookup_table hash tt p)) (some t) = some tf →
        TableOk hash (pre ++ rest) tf ∧ tf.length = t.length := by
  intro rest
  induction rest with
  | nil =>
    intro pre t hnd hL hok tf hfold
    simp only [List.foldl_nil, Option.some.injEq] at hfold
    subst hfold
    rw [List.append_nil]
    exact ⟨hok, rfl⟩
  | cons p rest' ih =>
    intro pre t hnd hL hok tf hfold
    simp only [List.foldl_cons, Option.some_bind] at hfold
    cases hstep : add_to_lookup_table hash t p with
    | none =>
      rw [hstep, foldl_bind_none] at hfold
      simp at hfold
    | some t1 =>
      rw [hstep] at hfold
      have hfresh : ∀ q ∈ pre, q.pid ≠ p.pid := by
        intro q hq
        have hnd' := hnd
        rw [show pre ++ p :: rest' = (pre ++ [p]) ++ rest' by simp] at hnd'
        have hnd2 : List.Nodup ((pre ++ [p]).map DPair.pid) :=
          ((List.nodup_append.mp (by simpa [List.map_append] using hnd')).1)
        have := List.nodup_append.mp (by simpa [List.map_append] using hnd2)
        intro heq
        exact this.2.2 (List.mem_map_of_mem DPair.pid hq)
          (by simp [heq])
      have hstep' := table_step hash hfresh hL hok.1 hok.2 hstep
      have hnd3 : List.Nodup (((pre ++ [p]) ++ rest').map DPair.pid) := by
        simpa [List.append_assoc] using hnd
      have hL1 : 2 ≤ t1.length := by omega
      have := ih (pre ++ [p]) t1 hnd3 hL1 ⟨hstep'.2.1, hstep'.2.2⟩ hfold
      rw [List.append_assoc] at this
      simp only [List.singleton_append] at this
      exact ⟨this.1, by omega⟩

/-- `rebuild` produces a table in which hash lookup agrees with the
linear scan. -/
theorem tableOk_rebuild (hash : Nat → Nat) (es : List DPair) (len : Nat)
    (hnd : List.Nodup (es.map DPair.pid)) (hlen : 2 ≤ len)
    {t : List (Option Nat)} (h : rebuild hash es len = some t) :
    TableOk hash es t ∧ t.length = len := by
  unfold rebuild at h
  have := tableOk_fold hash es [] (List.replicate len none)
    (by simpa using hnd) (by simpa using hlen)
    (tableOk_replicate hash len) h
  simpa using this

/-- `find?` by key commutes with a key-preserving in-place update. -/
theorem find?_key_map (es : List DPair) (f : DPair → DPair)
    (hkey : ∀ q, (f q).key = q.key) (key : Nat) :
    (es.map f).find? (fun q => q.key == key) =
      (es.find? (fun q => q.key == key)).map f := by
  induction es with
  | nil => rfl
  | cons a es ih =>
    simp only [List.map_cons, List.find?_cons]
    rw [hkey a]
    cases a.key == key with
    | true => rfl
    | false => exact ih

/-- `pair_of` commutes with a pid-preserving in-place update. -/
theorem pair_of_map (es : List DPair) (f : DPair → DPair)
    (hpid : ∀ q, (f q).pid = q.pid) (pid : Nat) :
    pair_of (es.map f) pid = (pair_of es pid).map f := by
  unfold pair_of
  induction es with
  | nil => rfl
  | cons a es ih =>
    simp only [List.map_cons, List.find?_cons]
    rw [hpid a]
    cases a.pid == pid with
    | true => rfl
    | false => exact ih

/-- The lookup walk commutes with a key- and pid-preserving in-place
update of the entries. -/
theorem lookup_loop_map (es : List DPair) (t : List (Option Nat))
    (key : Nat) (f : DPair → DPair) (hkey : ∀ q, (f q).key = q.key)
    (hpid : ∀ q, (f q).pid = q.pid) :
    ∀ (fuel i : Nat),
      lookup_loop (es.map f) t key i fuel =
        (lookup_loop es t key i fuel).map f := by
  intro fuel
  induction fuel with
  | zero => intro i; rfl
  | succ fu ih =>
    intro i
    simp only [lookup_loop]
    cases hs : t.getD i none with
    | none => simp
    | some pid' =>
      simp only [pair_of_map es f hpid]
      cases hp : pair_of es pid' with
      | none => simp
      | some r =>
        simp only [Option.map_some']
        rw [hkey r]
        cases hkk : r.key == key with
        | true => simp
        | false =>
          simp only [Bool.false_eq_true, if_false]
          exact ih (next_i t.length i)

/-- `TableOk` survives a key- and pid-preserving in-place update. -/
theorem tableOk_map (hash : Nat → Nat) (es : List DPair)
    (t : List (Option Nat)) (f : DPair → DPair)
    (hkey : ∀ q, (f q).key = q.key) (hpid : ∀ q, (f q).pid = q.pid)
    (hok : TableOk hash es t) : TableOk hash (es.map f) t := by
  constructor
  · intro j pid' hj
    obtain ⟨q, hq, hqp⟩ := hok.1 j pid' hj
    exact ⟨f q, List.mem_map_of_mem f hq, by rw [hpid q]; exact hqp⟩
  · intro key
    unfold lookup
    rw [lookup_loop_map es t key f hkey hpid]
    have := hok.2 key
    unfold lookup at this
    rw [this]
    exact (find?_key_map es f hkey key).symm

/-- The dictionary-level invariant maintained by every reachable
dictionary: distinct pair addresses below the allocation counter,
capacity at least 4, a table present once the count exceeds 8, and on
any present table the lookup/linear-scan agreement. -/
def DInv (hash : Nat → Nat) (d : Dict) : Prop :=
  List.Nodup (d.entries.map DPair.pid) ∧
  (∀ q ∈ d.entries, q.pid < d.nextPid) ∧
  4 ≤ d.cap ∧
  (8 < d.entries.length + 1 → d.table ≠ none) ∧
  (∀ t, d.table = some t →
    8 < d.entries.length + 1 ∧ 2 ≤ t.length ∧ TableOk hash d.entries t)

/-- Insertion preserves the dictionary invariant. -/
theorem add_DInv (hash : Nat → Nat) {d d' : Dict} {key : Nat}
    {value : Option Nat} (hinv : DInv hash d)
    (h : lisp_dict_add hash d key value = some d') : DInv hash d' := by
  obtain ⟨hnd, hbound, hcap, htab, hok⟩ := hinv
  unfold lisp_dict_add lisp_dict_add_item at h
  rw [show dict_push_cap { d with nextPid := d.nextPid + 1 } =
    dict_push_cap d from rfl] at h
  simp only at h
  have hfresh : ∀ q ∈ d.entries, q.pid ≠ d.nextPid := by
    intro q hq
    exact Nat.ne_of_lt (hbound q hq)
  have hnd' : List.Nodup ((d.entries ++
      [(⟨d.nextPid, key, value⟩ : DPair)]).map DPair.pid) := by
    rw [List.map_append]
    rw [List.nodup_append]
    refine ⟨hnd, List.nodup_singleton _, ?_⟩
    intro x hx
    simp only [List.map_cons, List.map_nil, List.mem_singleton]
    obtain ⟨q, hq, hqx⟩ := List.mem_map.mp hx
    intro hcontra
    rw [hcontra] at hqx
    exact hfresh q hq hqx
  have hbound' : ∀ q ∈ d.entries ++ [(⟨d.nextPid, key, value⟩ : DPair)],
      q.pid < d.nextPid + 1 := by
    intro q hq
    rcases List.mem_append.mp hq with hq | hq
    · exact Nat.lt_succ_of_lt (hbound q hq)
    · rw [List.mem_singleton.mp hq]
      exact Nat.lt_succ_self _
  have hcap' : 4 ≤ dict_push_cap d := by
    unfold dict_push_cap
    split_ifs <;> omega
  split_ifs at h with hcnt
  · -- crossed the 8-item threshold: a table is present afterwards
    cases htget : d.table with
    | none =>
      simp only [htget] at h
      cases hreb : rebuild hash (d.entries ++
          [(⟨d.nextPid, key, value⟩ : DPair)]) (dict_push_cap d * 2) with
      | none => simp only [hreb, Option.map_none'] at h; exact Option.noConfusion h
      | some tf =>
        simp only [hreb, Option.map_some', Option.some.injEq] at h
        subst h
        have hro := tableOk_rebuild hash _ _ hnd' (by omega) hreb
        refine ⟨hnd', hbound', hcap', by simp, ?_⟩
        intro t ht
        simp only [Option.some.injEq] at ht
        subst ht
        exact ⟨by simpa using hcnt, by omega, hro.1⟩
    | some t =>
      simp only [htget] at h
      obtain ⟨hgt8, hL, hokt⟩ := hok t htget
      split_ifs at h with hsmall
      · cases hreb : rebuild hash (d.entries ++
            [(⟨d.nextPid, key, value⟩ : DPair)]) (dict_push_cap d * 2) with
        | none => simp only [hreb, Option.map_none'] at h; exact Option.noConfusion h
        | some tf =>
          simp only [hreb, Option.map_some', Option.some.injEq] at h
          subst h
          have hro := tableOk_rebuild hash _ _ hnd' (by omega) hreb
          refine ⟨hnd', hbound', hcap', by simp, ?_⟩
          intro t' ht'
          simp only [Option.some.injEq] at ht'
          subst ht'
          exact ⟨by simpa using hcnt, by omega, hro.1⟩
      · cases hins : add_to_lookup_table hash t
            (⟨d.nextPid, key, value⟩ : DPair) with
        | none => simp only [hins, Option.map_none'] at h; exact Option.noConfusion h
        | some tf =>
          simp only [hins, Option.map_some', Option.some.injEq] at h
          subst h
          have hst := table_step hash hfresh hL hokt.1 hokt.2 hins
          refine ⟨hnd', hbound', hcap', by simp, ?_⟩
          intro t' ht'
          simp only [Option.some.injEq] at ht'
          subst ht'
          exact ⟨by simpa using hcnt, by omega, hst.2.1, hst.2.2⟩
  · -- still at most 8 items: no table before (the invariant forbids one
    -- at this size) and none after
    cases htget : d.table with
    | some t =>
      have := (hok t htget).1
      have hlen : (d.entries ++ [(⟨d.nextPid, key, value⟩ : DPair)]).length =
        d.entries.length + 1 := by simp
      omega
    | none =>
      simp only [htget, Option.some.injEq] at h
      subst h
      refine ⟨hnd', hbound', hcap', ?_, ?_⟩
      · intro hgt
        exact absurd hgt hcnt
      · intro t ht
        simp at ht

/-- In-place value updates preserve the dictionary invariant. -/
theorem upd_DInv (hash : Nat → Nat) (d : Dict) (pid : Nat)
    (v : Option Nat) (hinv : DInv hash d) :
    DInv hash { d with entries := upd_value d.entries pid v } := by
  obtain ⟨hnd, hbound, hcap, htab, hok⟩ := hinv
  have hkey : ∀ q : DPair,
      ((fun q => if q.pid == pid then { q with value := v } else q) q).key =
        q.key := by
    intro q
    by_cases hq : (q.pid == pid) = true <;> simp [hq]
  have hpid : ∀ q : DPair,
      ((fun q => if q.pid == pid then { q with value := v } else q) q).pid =
        q.pid := by
    intro q
    by_cases hq : (q.pid == pid) = true <;> simp [hq]
  have hmap : (upd_value d.entries pid v).map DPair.pid =
      d.entries.map DPair.pid := by
    unfold upd_value
    rw [List.map_map]
    exact List.map_congr_left (fun q _ => hpid q)
  have hlen : (upd_value d.entries pid v).length = d.entries.length := by
    unfold upd_value
    exact List.length_map _ _
  refine ⟨by rw [hmap]; exact hnd, ?_, hcap, ?_, ?_⟩
  · intro q hq
    obtain ⟨r, hr, hrq⟩ := List.mem_map.mp hq
    rw [← hrq]
    rw [hpid r]
    exact hbound r hr
  · intro hgt
    have hgt' : 8 < (upd_value d.entries pid v).length + 1 := hgt
    rw [hlen] at hgt'
    exact htab hgt'
  · intro t ht
    have ht' : d.table = some t := ht
    obtain ⟨hgt, hL, hokt⟩ := hok t ht'
    refine ⟨?_, hL, ?_⟩
    · show 8 < (upd_value d.entries pid v).length + 1
      rw [hlen]
      exact hgt
    · show TableOk hash (upd_value d.entries pid v) t
      unfold upd_value
      exact tableOk_map hash _ t _ hkey hpid hokt

/-- Every reachable dictionary satisfies the invariant. -/
theorem built_DInv (hash : Nat → Nat) {d : Dict} (hb : Built hash d) :
    DInv hash d := by
  induction hb with
  | new n =>
    refine ⟨by simp [dict_new], by simp [dict_new], ?_, ?_, ?_⟩
    · exact le_max_right n 4
    · intro h
      simp [dict_new] at h
    · intro t ht
      simp [dict_new] at ht
  | add key value _ hadd ih => exact add_DInv hash ih hadd
  | remove key _ ih =>
    unfold lisp_dict_remove
    cases h : lisp_dict_assoc hash _ key with
    | none => exact ih
    | some p => exact upd_DInv hash _ p.pid none ih
  | set key value _ hset ih =>
    rename_i d0 d1 _
    unfold lisp_dict_set at hset
    cases h : lisp_dict_assoc hash d0 key with
    | none =>
      rw [h] at hset
      exact add_DInv hash ih hset
    | some p =>
      rw [h] at hset
      simp only [Option.some.injEq] at hset
      subst hset
      exact upd_DInv hash _ p.pid value ih
  | clear _ ih =>
    obtain ⟨_, _, hcap, _, _⟩ := ih
    refine ⟨by simp [dict_clear], by simp [dict_clear], ?_, ?_, ?_⟩
    · simpa [dict_clear] using hcap
    · intro h
      simp [dict_clear] at h
    · intro t ht
      simp [dict_clear] at ht

/-- **C9.**  For every dictionary built by any sequence of insertions,
removals, value updates and clears, looking a symbol up through the
lazily built open-addressing hash index in slot 0 (used once the
dictionary holds more than 8 items) returns exactly the same key/value
pair object as the linear pointer-identity scan of the entries in
insertion order. -/
theorem dict_assoc_eq_linear (hash : Nat → Nat) (d : Dict)
    (hb : Built hash d) (key : Nat) :
    lisp_dict_assoc hash d key = linear_assoc d key := by
  have hinv := built_DInv hash hb
  obtain ⟨_, _, _, htab, hok⟩ := hinv
  unfold lisp_dict_assoc linear_assoc
  split_ifs with hc
  · cases ht : d.table with
    | none => exact absurd ht (htab hc)
    | some t => exact (hok t ht).2.2.2 key
  · rfl

/-- Witness for C9: ten insertions through `lisp_dict_add` (the hash
index engages at the eighth), then the theorem applied to the resulting
dictionary. -/
theorem dict_assoc_eq_linear_witness :
    lisp_dict_assoc (fun k => k)
      ⟨some [some 0, some 1, some 2, some 3, some 4, some 5, some 6, some 7, some 8, some 9, none, none, none, none, none, none, none, none, none, none, none, none, none, none, none, none, none, none, none, none, none, none], [⟨0, 0, some 0⟩, ⟨1, 1, some 1⟩, ⟨2, 2, some 2⟩, ⟨3, 3, some 3⟩, ⟨4, 4, some 4⟩, ⟨5, 5, some 5⟩, ⟨6, 6, some 6⟩, ⟨7, 7, some 7⟩, ⟨8, 8, some 8⟩, ⟨9, 9, some 9⟩], 16, 10⟩ 3 =
    linear_assoc ⟨some [some 0, some 1, some 2, some 3, some 4, some 5, some 6, some 7, some 8, some 9, none, none, none, none, none, none, none, none, none, none, none, none, none, none, none, none, none, none, none, none, none, none], [⟨0, 0, some 0⟩, ⟨1, 1, some 1⟩, ⟨2, 2, some 2⟩, ⟨3, 3, some 3⟩, ⟨4, 4, some 4⟩, ⟨5, 5, some 5⟩, ⟨6, 6, some 6⟩, ⟨7, 7, some 7⟩, ⟨8, 8, some 8⟩, ⟨9, 9, some 9⟩], 16, 10⟩ 3 :=
  dict_assoc_eq_linear (fun k => k) _
    (Built.add 9 (some 9) (Built.add 8 (some 8) (Built.add 7 (some 7)
      (Built.add 6 (some 6) (Built.add 5 (some 5) (Built.add 4 (some 4)
        (Built.add 3 (some 3) (Built.add 2 (some 2) (Built.add 1 (some 1)
          (Built.add 0 (some 0) (Built.new 8) rfl) rfl) rfl) rfl) rfl)
            rfl) rfl) rfl) rfl) rfl) 3

/-! ## C1: reader/printer round-trip for strings

`print_string` (lisp.c:2448-2463) walks the string's byte buffer with
`for (p = s->buf; *p; p++)` — a C-string loop that stops at the first
NUL byte — escaping `"` `\\` `\n` `\r` `\t` and copying every other byte.
The tokenizer's string reader `strtoken` (lisp.c:2829-2859) accepts the
escape `\xHH` for arbitrary hex bytes (validated as UTF-8 by
`append_utf8_byte`, for which 0x00 is plain ASCII), so the reader can
produce a string containing a NUL byte, which `lisp_string_new` stores
with an explicit length.  Printing such a string truncates it at the
NUL, so `read(print(v)) ≠ v`.

The embedding below models the byte streams exactly: a string value is
its content bytes (the C stores them NUL-terminated with an explicit
`length`; `sexp`'s `T_STRING` case takes `token->length - 1` bytes,
i.e. the content without the terminator that `strtoken` appends).  Input
exhaustion (EOF from `lisp_port_getc`) reaches an error in every path of
the C code (`append_utf8_byte(EOF)`, `isxdigit(EOF)`,
`skip_trailing_spaces(EOF)` all fail), modelled by the corresponding
error exits. -/

/-- Error exits of the embedded string reader. -/
inductive RdErr where
  | invalidUtf8       -- append_utf8_byte: "invalid utf8 …"
  | unterminatedUtf8  -- "not terminated utf8 sequence before \\"
  | badHexDigit       -- xchar: "invalid hex digit in string"
  | badEscape         -- skip_trailing_spaces: "invalid escaped char"
  | eofInString       -- EOF reaching append_utf8_byte / xchar
  deriving DecidableEq, Repr

/-- `isspace` of C (ASCII locale). -/
def c_isspace (c : Nat) : Bool :=
  c = 32 ∨ c = 9 ∨ c = 10 ∨ c = 11 ∨ c = 12 ∨ c = 13

/-- `isxdigit` of C (ASCII locale). -/
def c_isxdigit (c : Nat) : Bool :=
  (48 ≤ c ∧ c ≤ 57) ∨ (65 ≤ c ∧ c ≤ 70) ∨ (97 ≤ c ∧ c ≤ 102)

/-- `xval` (lisp.c:2804-2807). -/
def xval (c : Nat) : Nat :=
  if c ≤ 57 then c - 48 else (if c ≤ 70 then c else c - 32) - 65 + 10

/-- `append_utf8_byte`'s validation automaton (lisp.c:2736-2755); the
byte itself is appended by the caller of this model. -/
def append_utf8_check (remain : Nat) (c : Nat) : Except RdErr Nat :=
  if 0 < remain then
    if c &&& 0xc0 ≠ 0x80 then .error RdErr.invalidUtf8
    else .ok (remain - 1)
  else if c >>> 7 = 0 then .ok 0
  else if c >>> 6 = 2 then .error RdErr.invalidUtf8
  else if c >>> 5 = 6 then .ok 1
  else if c >>> 4 = 0xe then .ok 2
  else if c >>> 3 = 0x1e then .ok 3
  else .error RdErr.invalidUtf8

/-- `skip_trailing_spaces` (lisp.c:2818-2828): consume whitespace until
the end of the line; `c` is the character in hand, the list the
remaining input. -/
def skip_trailing_spaces (c : Nat) (input : List Nat) :
    Except RdErr (List Nat) :=
  if c_isspace c ∧ c ≠ 10 then
    match input with
    | [] => .error RdErr.badEscape
    | d :: rest => skip_trailing_spaces (d % 256) rest
  else if c = 10 then .ok input
  else .error RdErr.badEscape
termination_by input.length

/-- Result of `strtoken`: a complete `T_STRING` token or a
`T_STRING_PART` (start of an interpolation, with the opening bracket
ungot); both carry the token's content bytes and the remaining input. -/
inductive StrTok where
  | str (tok rest : List Nat)
  | strPart (tok rest : List Nat)
  deriving DecidableEq, Repr

/-- The loop of `strtoken` (lisp.c:2829-2859), reading after the opening
quote.  `fuel` only bounds the loop (every iteration consumes at least
one input byte, so `input.length + 1` suffices); `remain` is the
UTF-8 validator state and `tok` the accumulated content bytes. -/
def strtoken_loop : Nat → Nat → List Nat → List Nat → Except RdErr StrTok
  | 0, _, _, _ => .error RdErr.eofInString
  | _ + 1, _, _, [] => .error RdErr.eofInString
  | fuel + 1, remain, tok, b :: rest =>
    let c := b % 256
    if c = 34 then
      -- closing quote: append_utf8_byte(vm, 0) rejects an unterminated
      -- multi-byte sequence, then terminates the token
      if 0 < remain then .error RdErr.invalidUtf8
      else .ok (StrTok.str tok rest)
    else if c = 92 then
      if 0 < remain then .error RdErr.unterminatedUtf8
      else
        match rest with
        | [] => .error RdErr.eofInString
        | e0 :: rest2 =>
          let e := e0 % 256
          if e = 123 ∨ e = 40 ∨ e = 91 then
            -- \{ \( \[ : T_STRING_PART, bracket pushed back
            .ok (StrTok.strPart tok (e0 :: rest2))
          else if e = 110 then
            (append_utf8_check remain 10).bind
              (fun r => strtoken_loop fuel r (tok ++ [10]) rest2)
          else if e = 114 then
            (append_utf8_check remain 13).bind
              (fun r => strtoken_loop fuel r (tok ++ [13]) rest2)
          else if e = 116 then
            (append_utf8_check remain 9).bind
              (fun r => strtoken_loop fuel r (tok ++ [9]) rest2)
          else if e = 34 then
            (append_utf8_check remain 34).bind
              (fun r => strtoken_loop fuel r (tok ++ [34]) rest2)
          else if e = 92 then
            (append_utf8_check remain 92).bind
              (fun r => strtoken_loop fuel r (tok ++ [92]) rest2)
          else if e = 120 then
            -- \xHH
            match rest2 with
            | a :: b2 :: rest3 =>
              if c_isxdigit (a % 256) ∧ c_isxdigit (b2 % 256) then
                let v := (xval (a % 256)) <<< 4 ||| xval (b2 % 256)
                (append_utf8_check remain v).bind
                  (fun r => strtoken_loop fuel r (tok ++ [v]) rest3)
              else .error RdErr.badHexDigit
            | _ => .error RdErr.badHexDigit
          else
            -- line continuation: verify spaces up to the newline, then
            -- the char in hand is appended (the C falls through to
            -- append_utf8_byte(vm, c) with the original escape char)
            (skip_trailing_spaces e rest2).bind
              (fun rest' => (append_utf8_check remain e).bind
                (fun r => strtoken_loop fuel r (tok ++ [e]) rest'))
    else
      (append_utf8_check remain c).bind
        (fun r => strtoken_loop fuel r (tok ++ [c]) rest)

/-- Reading one string literal: an opening quote followed by the
`strtoken` loop; the value of a `T_STRING` token is its content
(`lisp_string_new(vm, token->buf, token->length - 1)` in `sexp`). -/
def read_string_literal (input : List Nat) : Except RdErr (List Nat × List Nat) :=
  match input with
  | b :: rest =>
    if b % 256 = 34 then
      match strtoken_loop (rest.length + 1) 0 [] rest with
      | .ok (StrTok.str tok rest') => .ok (tok, rest')
      | .ok (StrTok.strPart _ _) => .error RdErr.badEscape
      | .error e => .error e
    else .error RdErr.badEscape
  | [] => .error RdErr.eofInString

/-- The escape table of `print_string` (lisp.c:2448-2463). -/
def print_escape (b : Nat) : List Nat :=
  if b = 34 then [92, 34]
  else if b = 92 then [92, 92]
  else if b = 10 then [92, 110]
  else if b = 13 then [92, 114]
  else if b = 9 then [92, 116]
  else [b]

/-- The body loop of `print_string`: `for (p = s->buf; *p; p++)` — it
stops at the first NUL byte, before the string's recorded length. -/
def print_string_loop : List Nat → List Nat
  | [] => []
  | b :: rest => if b = 0 then [] else print_escape b ++ print_string_loop rest

/-- `print_string`: quote, escaped content, quote. -/
def print_string (s : List Nat) : List Nat :=
  34 :: print_string_loop s ++ [34]

/-- **C1 (divergence at the failing input).**  The reader accepts the
source text `"\x00"` and produces the one-byte string `[0]`
(`\x00` passes `isxdigit` and is plain ASCII for the UTF-8 validator),
but `print_string` truncates at the NUL byte and emits `""`, which reads
back as the empty string — so `read(print(v)) ≠ v` for this
reader-producible `v`, against the round-trip claim. -/
theorem string_nul_roundtrip_fails :
    read_string_literal [34, 92, 120, 48, 48, 34] = .ok ([0], []) ∧
    print_string [0] = [34, 34] ∧
    read_string_literal (print_string [0]) = .ok ([], []) ∧
    ([] : List Nat) ≠ [0] := by
  refine ⟨by rfl, by rfl, by rfl, by decide⟩

/-! ## C2: mark-and-sweep garbage collection

The heap is a list of objects indexed by id (an id stands for a C
pointer).  `mark` (lisp.c:761-848) is a depth-first traversal guarded by
the per-object `marked` bit, dispatching on the type tag; the only
irregular case is `O_DICT`, whose slot 0 (the lazy lookup-table array)
gets its `marked` bit set *without* being traversed — its contents are
the binding pairs already reachable through the dictionary's entries.
The `goto Loop` on a pair's cdr is C-stack economy and is modelled as a
plain recursive call.  `mark(NULL)` returns immediately, modelled by
`Option` fields skipped in the child lists.  The `mark` callbacks of
streams and extension objects mark host-side state outside the VM heap
and have no children here.

`gc` (lisp.c:855-891) clears the `marked` bit of every pooled object
(interned constants are not pooled, so their permanent mark survives),
marks from the named roots in order, and sweeps: unmarked pool members
are destroyed (`delete_obj`) and the pool is compacted to the marked
ones.  The traversal is written with explicit fuel; `heap.length + 1`
is enough because every non-trivial call first marks an unmarked object
(completeness below is proved only for such fuel).  -/

/-- Heap objects as far as `mark` dispatches on them.  `atom` covers
numbers, strings, symbols, buffers, streams and extension objects (no
VM-heap children). -/
inductive GcObj where
  | atom
  | gpair (mapping : Option Nat) (car cdr : Nat)
  | arr (items : List (Option Nat))
  | gdict (slot0 : Option Nat) (entries : List (Option Nat))
  | genv (bindings : Option Nat) (parent : Option Nat)
  | gproc (penv : Nat) (lam : Nat)
  | gnative (nenv : Option Nat) (name : Nat)
  | gport (iobuf : Option Nat) (pname : Option Nat) (stream : Option Nat)
  | gsrcFile (mappings : Option Nat) (path : Option Nat)
  | gsrcMapping (file : Nat) (expr : Option Nat)
  deriving DecidableEq, Repr

/-- The ids `mark` recurses into (per the type dispatch). -/
def recChildren : GcObj → List Nat
  | GcObj.atom => []
  | GcObj.gpair m car cdr => m.toList ++ [car, cdr]
  | GcObj.arr items => items.filterMap id
  | GcObj.gdict _ entries => entries.filterMap id
  | GcObj.genv b p => b.toList ++ p.toList
  | GcObj.gproc e l => [e, l]
  | GcObj.gnative e n => e.toList ++ [n]
  | GcObj.gport i n s => i.toList ++ n.toList ++ s.toList
  | GcObj.gsrcFile m p => m.toList ++ p.toList
  | GcObj.gsrcMapping f e => [f] ++ e.toList

/-- The ids `mark` sets the bit on without recursing (a dictionary's
slot-0 lookup array). -/
def shallowAdds : GcObj → List Nat
  | GcObj.gdict s _ => s.toList
  | _ => []

/-- All references out of an object (the reachability edges). -/
def edges (o : GcObj) : List Nat :=
  recChildren o ++ shallowAdds o

/-- `heap.get? x`: dereference an object pointer. -/
def objAt (h : List GcObj) (x : Nat) : Option GcObj :=
  h.get? x

mutual
/-- `mark(obj)` (lisp.c:761-848): return if already marked, set the
bit, shallow-mark a dictionary's slot 0, recurse into the children. -/
def markF (h : List GcObj) : Nat → Finset Nat → Nat → Finset Nat
  | 0, m, _ => m
  | fuel + 1, m, x =>
    if x ∈ m then m
    else
      match objAt h x with
      | none => insert x m
      | some o =>
        markListF h fuel
          ((shallowAdds o).foldl (fun mm y => insert y mm) (insert x m))
          (recChildren o)
termination_by fuel _ _ => (fuel, 0, 0)

/-- Marking a list of children in order. -/
def markListF (h : List GcObj) : Nat → Finset Nat → List Nat → Finset Nat
  | _, m, [] => m
  | fuel, m, c :: cs => markListF h fuel (markF h fuel m c) cs
termination_by fuel _ cs => (fuel, 1, cs.length)
end

/-- The GC root set (lisp.c:860-872), in marking order. -/
structure Roots where
  stack : Nat
  env : Nat
  root_env : Nat
  input : Option Nat
  output : Option Nat
  error : Option Nat
  token : Nat
  last_eval : Option Nat
  symbols : Nat
  source_files : Nat
  keep_alive_pool : Nat
  deriving DecidableEq, Repr

/-- The roots as a list, in the order `gc` marks them (NULL roots are
skipped by `mark`'s entry check). -/
def Roots.list (r : Roots) : List Nat :=
  [r.stack, r.env, r.root_env] ++ r.input.toList ++ r.output.toList ++
    r.error.toList ++ [r.token] ++ r.last_eval.toList ++
    [r.symbols, r.source_files, r.keep_alive_pool]

/-- `gc` (lisp.c:855-891): clear the pooled objects' marks, mark from
the roots, sweep the pool.  Returns the final mark bits, the surviving
pool (in order, as the compaction keeps order), and the destroyed
objects. -/
def gc (h : List GcObj) (pool : List Nat) (m0 : Finset Nat)
    (roots : Roots) : Finset Nat × List Nat × List Nat :=
  let base := m0 \ pool.toFinset
  let mfinal := markListF h (h.length + 1) base roots.list
  (mfinal, pool.filter (fun x => x ∈ mfinal),
    pool.filter (fun x => x ∉ mfinal))

/-- Reachability through the type-dispatched reference edges. -/
inductive Reaches (h : List GcObj) : Nat → Nat → Prop where
  | refl (x : Nat) : Reaches h x x
  | step {x y z : Nat} : Reaches h x y →
      (∃ o, objAt h y = some o ∧ z ∈ edges o) → Reaches h x z

/-- Reachable from some root. -/
def RootReach (h : List GcObj) (roots : Roots) (x : Nat) : Prop :=
  ∃ r ∈ roots.list, Reaches h r x

/-- Every reference stays inside the heap (no dangling pointers). -/
def edgesBoundedB (h : List GcObj) : Bool :=
  (List.range h.length).all (fun x =>
    ((objAt h x).elim [] edges).all (fun y => y < h.length))

/-- Every dictionary's slot 0 is an array whose contents are among the
dictionary's entries (the code invariant of `lisp_dict_add_item`: the
lookup table holds exactly the binding pairs). -/
def dictSlotOkB (h : List GcObj) (x : Nat) : Bool :=
  match objAt h x with
  | some (GcObj.gdict (some t) entries) =>
    match objAt h t with
    | some (GcObj.arr items) =>
      (items.filterMap id).all (fun y => (entries.filterMap id).contains y)
    | _ => false
  | _ => true

/-- All dictionaries have well-formed lookup tables. -/
def tablesOkB (h : List GcObj) : Bool :=
  (List.range h.length).all (fun x => dictSlotOkB h x)

/-- The permanently marked objects (interned constants after the mark
bits of the pool were cleared) only reference permanently marked
objects: the static constant table is closed. -/
def BaseClosed (h : List GcObj) (base : Finset Nat) : Prop :=
  ∀ x ∈ base, ∀ y ∈ (objAt h x).elim [] edges, y ∈ base

theorem markF_zero (h : List GcObj) (m : Finset Nat) (x : Nat) :
    markF h 0 m x = m := by
  rw [markF]

theorem markF_succ (h : List GcObj) (fuel : Nat) (m : Finset Nat) (x : Nat) :
    markF h (fuel + 1) m x =
      if x ∈ m then m
      else
        match objAt h x with
        | none => insert x m
        | some o =>
          markListF h fuel
            ((shallowAdds o).foldl (fun mm y => insert y mm) (insert x m))
            (recChildren o) := by
  rw [markF]

theorem markListF_nil (h : List GcObj) (fuel : Nat) (m : Finset Nat) :
    markListF h fuel m [] = m := by
  rw [markListF]

theorem markListF_cons (h : List GcObj) (fuel : Nat) (m : Finset Nat)
    (c : Nat) (cs : List Nat) :
    markListF h fuel m (c :: cs) = markListF h fuel (markF h fuel m c) cs := by
  rw [markListF]

theorem foldl_insert_subset (l : List Nat) (s : Finset Nat) :
    s ⊆ l.foldl (fun mm y => insert y mm) s := by
  induction l generalizing s with
  | nil => exact fun _ hy => hy
  | cons a l ih =>
    exact fun y hy => ih (insert a s) (Finset.mem_insert_of_mem hy)

theorem mem_foldl_insert (l : List Nat) (s : Finset Nat) (y : Nat) :
    y ∈ l.foldl (fun mm z => insert z mm) s ↔ y ∈ l ∨ y ∈ s := by
  induction l generalizing s with
  | nil => simp [List.foldl]
  | cons a l ih =>
    simp only [List.foldl, ih, Finset.mem_insert, List.mem_cons]
    tauto

theorem mark_mono (h : List GcObj) : ∀ fuel : Nat,
    (∀ m x, m ⊆ markF h fuel m x) ∧ ∀ m cs, m ⊆ markListF h fuel m cs := by
  intro fuel
  induction fuel with
  | zero =>
    have hm : ∀ m x, m ⊆ markF h 0 m x := by
      intro m x
      rw [markF_zero]
    refine ⟨hm, ?_⟩
    intro m cs
    induction cs generalizing m with
    | nil => rw [markListF_nil]
    | cons c cs ih =>
      rw [markListF_cons]
      exact (hm m c).trans (ih _)
  | succ f ih =>
    have hm : ∀ m x, m ⊆ markF h (f + 1) m x := by
      intro m x
      rw [markF_succ]
      split
      · exact fun _ hy => hy
      · split
        · exact Finset.subset_insert x m
        · exact ((Finset.subset_insert x m).trans
            (foldl_insert_subset _ _)).trans (ih.2 _ _)
    refine ⟨hm, ?_⟩
    intro m cs
    induction cs generalizing m with
    | nil => rw [markListF_nil]
    | cons c cs ihl =>
      rw [markListF_cons]
      exact (hm m c).trans (ihl _)

theorem Reaches.trans {h : List GcObj} {x y z : Nat}
    (hxy : Reaches h x y) (hyz : Reaches h y z) : Reaches h x z := by
  induction hyz with
  | refl => exact hxy
  | step _ he ih => exact Reaches.step ih he

theorem mark_sound (h : List GcObj) : ∀ fuel : Nat,
    (∀ m x y, y ∈ markF h fuel m x → y ∈ m ∨ Reaches h x y) ∧
    ∀ m cs y, y ∈ markListF h fuel m cs →
      y ∈ m ∨ ∃ c ∈ cs, Reaches h c y := by
  intro fuel
  induction fuel with
  | zero =>
    have hm : ∀ m x y, y ∈ markF h 0 m x → y ∈ m ∨ Reaches h x y := by
      intro m x y hy
      rw [markF_zero] at hy
      exact Or.inl hy
    refine ⟨hm, ?_⟩
    intro m cs
    induction cs generalizing m with
    | nil =>
      intro y hy
      rw [markListF_nil] at hy
      exact Or.inl hy
    | cons c cs ih =>
      intro y hy
      rw [markListF_cons] at hy
      rcases ih _ y hy with hy' | ⟨c', hc', hr⟩
      · rcases hm m c y hy' with hy'' | hr
        · exact Or.inl hy''
        · exact Or.inr ⟨c, List.mem_cons_self c cs, hr⟩
      · exact Or.inr ⟨c', List.mem_cons_of_mem c hc', hr⟩
  | succ f ih =>
    have hm : ∀ m x y, y ∈ markF h (f + 1) m x → y ∈ m ∨ Reaches h x y := by
      intro m x y hy
      rw [markF_succ] at hy
      split at hy
      · exact Or.inl hy
      · split at hy
        · rcases Finset.mem_insert.mp hy with rfl | hy'
          · exact Or.inr (Reaches.refl y)
          · exact Or.inl hy'
        · rename_i o hobj
          rcases ih.2 _ _ y hy with hy' | ⟨c, hc, hr⟩
          · rcases (mem_foldl_insert _ _ y).mp hy' with hsh | hy''
            · exact Or.inr (Reaches.step (Reaches.refl x)
                ⟨o, hobj, List.mem_append_right _ hsh⟩)
            · rcases Finset.mem_insert.mp hy'' with rfl | hy'''
              · exact Or.inr (Reaches.refl y)
              · exact Or.inl hy'''
          · exact Or.inr (Reaches.trans
              (Reaches.step (Reaches.refl x)
                ⟨o, hobj, List.mem_append_left _ hc⟩) hr)
    refine ⟨hm, ?_⟩
    intro m cs
    induction cs generalizing m with
    | nil =>
      intro y hy
      rw [markListF_nil] at hy
      exact Or.inl hy
    | cons c cs ihl =>
      intro y hy
      rw [markListF_cons] at hy
      rcases ihl _ y hy with hy' | ⟨c', hc', hr⟩
      · rcases hm m c y hy' with hy'' | hr
        · exact Or.inl hy''
        · exact Or.inr ⟨c, List.mem_cons_self c cs, hr⟩
      · exact Or.inr ⟨c', List.mem_cons_of_mem c hc', hr⟩

/-- `y` was fully traversed: all its references are in `m`. -/
def Trav (h : List GcObj) (m : Finset Nat) (y : Nat) : Prop :=
  ∀ o, objAt h y = some o →
    (∀ c ∈ recChildren o, c ∈ m) ∧ ∀ s ∈ shallowAdds o, s ∈ m

/-- `y` was shallow-marked as slot 0 of a marked dictionary. -/
def Shal (h : List GcObj) (m : Finset Nat) (y : Nat) : Prop :=
  ∃ d ∈ m, ∃ o, objAt h d = some o ∧ y ∈ shallowAdds o

theorem Trav_mono {h : List GcObj} {m m' : Finset Nat} {y : Nat}
    (ht : Trav h m y) (hsub : m ⊆ m') : Trav h m' y := by
  intro o ho
  exact ⟨fun c hc => hsub ((ht o ho).1 c hc),
    fun s hs => hsub ((ht o ho).2 s hs)⟩

theorem Shal_mono {h : List GcObj} {m m' : Finset Nat} {y : Nat}
    (hs : Shal h m y) (hsub : m ⊆ m') : Shal h m' y := by
  obtain ⟨d, hd, o, ho, hy⟩ := hs
  exact ⟨d, hsub hd, o, ho, hy⟩

theorem objAt_lt {h : List GcObj} {x : Nat} {o : GcObj}
    (hx : objAt h x = some o) : x < h.length := by
  by_contra hge
  rw [objAt, List.get?_eq_none.mpr (Nat.le_of_not_lt hge)] at hx
  exact Option.noConfusion hx

theorem objAt_of_lt {h : List GcObj} {x : Nat} (hx : x < h.length) :
    ∃ o, objAt h x = some o := by
  rcases Option.eq_none_or_eq_some (objAt h x) with hn | hs
  · rw [objAt, List.get?_eq_none] at hn
    omega
  · exact hs

theorem edges_lt {h : List GcObj} (hEB : edgesBoundedB h = true)
    {x : Nat} {o : GcObj} (hx : objAt h x = some o) {y : Nat}
    (hy : y ∈ edges o) : y < h.length := by
  have hxN : x < h.length := objAt_lt hx
  have h1 := List.all_eq_true.mp hEB x (List.mem_range.mpr hxN)
  rw [hx] at h1
  have h2 := List.all_eq_true.mp h1 y (by simpa [Option.elim] using hy)
  exact of_decide_eq_true h2

theorem dictSlot_ok {h : List GcObj} (hTab : tablesOkB h = true)
    {d t : Nat} {entries : List (Option Nat)}
    (hd : objAt h d = some (GcObj.gdict (some t) entries)) :
    ∃ items, objAt h t = some (GcObj.arr items) ∧
      ∀ z ∈ items.filterMap id, z ∈ entries.filterMap id := by
  have hdN : d < h.length := objAt_lt hd
  have h1 := List.all_eq_true.mp hTab d (List.mem_range.mpr hdN)
  simp only [dictSlotOkB, hd] at h1
  cases ht : objAt h t with
  | none => simp only [ht] at h1; exact Bool.noConfusion h1
  | some o =>
    cases o with
    | arr items =>
      simp only [ht] at h1
      refine ⟨items, rfl, fun z hz => ?_⟩
      have h2 := List.all_eq_true.mp h1 z hz
      simpa using h2
    | atom => simp only [ht] at h1; exact Bool.noConfusion h1
    | gpair a b c => simp only [ht] at h1; exact Bool.noConfusion h1
    | gdict a b => simp only [ht] at h1; exact Bool.noConfusion h1
    | genv a b => simp only [ht] at h1; exact Bool.noConfusion h1
    | gproc a b => simp only [ht] at h1; exact Bool.noConfusion h1
    | gnative a b => simp only [ht] at h1; exact Bool.noConfusion h1
    | gport a b c => simp only [ht] at h1; exact Bool.noConfusion h1
    | gsrcFile a b => simp only [ht] at h1; exact Bool.noConfusion h1
    | gsrcMapping a b => simp only [ht] at h1; exact Bool.noConfusion h1

theorem mark_complete (h : List GcObj) (hEB : edgesBoundedB h = true) :
    ∀ fuel : Nat,
    (∀ m x, x < h.length →
      h.length - (m.filter (fun z => z < h.length)).card < fuel →
      x ∈ markF h fuel m x ∧
      (∀ y ∈ markF h fuel m x, y ∈ m ∨ y < h.length) ∧
      ∀ y ∈ markF h fuel m x, y ∉ m →
        Trav h (markF h fuel m x) y ∨ Shal h (markF h fuel m x) y) ∧
    ∀ m cs, (∀ c ∈ cs, c < h.length) →
      h.length - (m.filter (fun z => z < h.length)).card < fuel →
      (∀ c ∈ cs, c ∈ markListF h fuel m cs) ∧
      (∀ y ∈ markListF h fuel m cs, y ∈ m ∨ y < h.length) ∧
      ∀ y ∈ markListF h fuel m cs, y ∉ m →
        Trav h (markListF h fuel m cs) y ∨
          Shal h (markListF h fuel m cs) y := by
  intro fuel
  induction fuel with
  | zero =>
    constructor
    · intro m x _ hfuel
      exact absurd hfuel (Nat.not_lt_zero _)
    · intro m cs _ hfuel
      exact absurd hfuel (Nat.not_lt_zero _)
  | succ f ih =>
    have hCM : ∀ m x, x < h.length →
        h.length - (m.filter (fun z => z < h.length)).card < f + 1 →
        x ∈ markF h (f + 1) m x ∧
        (∀ y ∈ markF h (f + 1) m x, y ∈ m ∨ y < h.length) ∧
        ∀ y ∈ markF h (f + 1) m x, y ∉ m →
          Trav h (markF h (f + 1) m x) y ∨
            Shal h (markF h (f + 1) m x) y := by
      intro m x hxN hfuel
      rw [markF_succ]
      by_cases hxm : x ∈ m
      · rw [if_pos hxm]
        exact ⟨hxm, fun y hy => Or.inl hy, fun y hy hny => absurd hy hny⟩
      · rw [if_neg hxm]
        obtain ⟨o, hobj⟩ := objAt_of_lt hxN
        rw [hobj]
        set m₁ := (shallowAdds o).foldl (fun mm y => insert y mm)
          (insert x m) with hm₁
        have hxm₁ : x ∈ m₁ :=
          foldl_insert_subset _ _ (Finset.mem_insert_self x m)
        have hm₁mem : ∀ y, y ∈ m₁ ↔ y ∈ shallowAdds o ∨ y = x ∨ y ∈ m := by
          intro y
          rw [hm₁, mem_foldl_insert, Finset.mem_insert]
        have hm₁bd : ∀ y ∈ m₁, y ∈ m ∨ y < h.length := by
          intro y hy
          rcases (hm₁mem y).mp hy with hsh | rfl | hym
          · exact Or.inr (edges_lt hEB hobj (List.mem_append_right _ hsh))
          · exact Or.inr hxN
          · exact Or.inl hym
        have hcsN : ∀ c ∈ recChildren o, c < h.length := fun c hc =>
          edges_lt hEB hobj (List.mem_append_left _ hc)
        have hsub₁ : m ⊆ m₁ := fun y hy =>
          foldl_insert_subset _ _ (Finset.mem_insert_of_mem hy)
        have hcard : (m.filter (fun z => z < h.length)).card <
            (m₁.filter (fun z => z < h.length)).card := by
          apply Finset.card_lt_card
          constructor
          · exact fun y hy => Finset.mem_filter.mpr
              ⟨hsub₁ (Finset.mem_filter.mp hy).1, (Finset.mem_filter.mp hy).2⟩
          · intro hcon
            have hx₁ : x ∈ m₁.filter (fun z => z < h.length) :=
              Finset.mem_filter.mpr ⟨hxm₁, hxN⟩
            have := Finset.mem_filter.mp (hcon hx₁)
            exact hxm this.1
        have hcard₁ : (m₁.filter (fun z => z < h.length)).card ≤ h.length := by
          have : m₁.filter (fun z => z < h.length) ⊆
              Finset.range h.length := by
            intro y hy
            exact Finset.mem_range.mpr (Finset.mem_filter.mp hy).2
          simpa using Finset.card_le_card this
        have hfuel' : h.length -
            (m₁.filter (fun z => z < h.length)).card < f := by
          omega
        obtain ⟨hall, hbd, hfresh⟩ := ih.2 m₁ (recChildren o) hcsN hfuel'
        have hsubres : m₁ ⊆ markListF h f m₁ (recChildren o) :=
          (mark_mono h f).2 m₁ (recChildren o)
        refine ⟨hsubres hxm₁, ?_, ?_⟩
        · intro y hy
          rcases hbd y hy with hy₁ | hyN
          · exact hm₁bd y hy₁
          · exact Or.inr hyN
        · intro y hy hym
          by_cases hy₁ : y ∈ m₁
          · rcases (hm₁mem y).mp hy₁ with hsh | rfl | hym'
            · exact Or.inr ⟨x, hsubres hxm₁, o, hobj, hsh⟩
            · refine Or.inl ?_
              intro o' ho'
              rw [hobj] at ho'
              cases ho'
              exact ⟨fun c hc => hall c hc,
                fun s hs => hsubres ((hm₁mem s).mpr (Or.inl hs))⟩
            · exact absurd hym' hym
          · exact hfresh y hy hy₁
    refine ⟨hCM, ?_⟩
    intro m cs
    induction cs generalizing m with
    | nil =>
      intro _ _
      rw [markListF_nil]
      exact ⟨fun c hc => absurd hc (List.not_mem_nil c),
        fun y hy => Or.inl hy, fun y hy hny => absurd hy hny⟩
    | cons c cs ihl =>
      intro hcsN hfuel
      rw [markListF_cons]
      set m₂ := markF h (f + 1) m c with hm₂
      have hsub₂ : m ⊆ m₂ := (mark_mono h (f + 1)).1 m c
      obtain ⟨hcm₂, hbd₂, hfresh₂⟩ :=
        hCM m c (hcsN c (List.mem_cons_self c cs)) hfuel
      have hcard₂ : (m.filter (fun z => z < h.length)).card ≤
          (m₂.filter (fun z => z < h.length)).card := by
        apply Finset.card_le_card
        intro y hy
        exact Finset.mem_filter.mpr
          ⟨hsub₂ (Finset.mem_filter.mp hy).1, (Finset.mem_filter.mp hy).2⟩
      have hfuel₂ : h.length -
          (m₂.filter (fun z => z < h.length)).card < f + 1 := by
        omega
      obtain ⟨hall, hbd, hfresh⟩ := ihl m₂
        (fun c' hc' => hcsN c' (List.mem_cons_of_mem c hc')) hfuel₂
      have hsubres : m₂ ⊆ markListF h (f + 1) m₂ cs :=
        (mark_mono h (f + 1)).2 m₂ cs
      refine ⟨?_, ?_, ?_⟩
      · intro c' hc'
        rcases List.mem_cons.mp hc' with rfl | hc''
        · exact hsubres hcm₂
        · exact hall c' hc''
      · intro y hy
        rcases hbd y hy with hy₂ | hyN
        · rcases hbd₂ y hy₂ with hym | hyN'
          · exact Or.inl hym
          · exact Or.inr hyN'
        · exact Or.inr hyN
      · intro y hy hym
        by_cases hy₂ : y ∈ m₂
        · rcases hfresh₂ y hy₂ hym with ht | hs
          · exact Or.inl (Trav_mono ht hsubres)
          · exact Or.inr (Shal_mono hs hsubres)
        · exact hfresh y hy hy₂

theorem shallow_mem_dict {o : GcObj} {y : Nat} (hy : y ∈ shallowAdds o) :
    ∃ entries, o = GcObj.gdict (some y) entries := by
  cases o with
  | gdict s0 entries =>
    cases s0 with
    | none => simp [shallowAdds] at hy
    | some t =>
      have ht : y = t := by simpa [shallowAdds] using hy
      subst ht
      exact ⟨entries, rfl⟩
  | atom => simp [shallowAdds] at hy
  | gpair a b c => simp [shallowAdds] at hy
  | arr a => simp [shallowAdds] at hy
  | genv a b => simp [shallowAdds] at hy
  | gproc a b => simp [shallowAdds] at hy
  | gnative a b => simp [shallowAdds] at hy
  | gport a b c => simp [shallowAdds] at hy
  | gsrcFile a b => simp [shallowAdds] at hy
  | gsrcMapping a b => simp [shallowAdds] at hy

/-- Heap used in the C2 witness: 0 an interned constant atom, 1 a pair
referencing 0 and 2, 2 an array holding 0, 3 a dictionary whose slot-0
lookup table is 4 and whose entry is the pair 5, 4 the lookup table
holding 5, 5 a pair, 6 an unreachable atom. -/
def gcHeapW : List GcObj :=
  [GcObj.atom,
   GcObj.gpair none 0 2,
   GcObj.arr [some 0],
   GcObj.gdict (some 4) [some 5],
   GcObj.arr [some 5],
   GcObj.gpair none 0 0,
   GcObj.atom]

/-- Roots used in the C2 witness. -/
def gcRootsW : Roots :=
  ⟨1, 3, 3, none, none, none, 0, none, 2, 0, 0⟩

/-- **C2.** A garbage-collection cycle sweeps exactly the unreachable
pooled objects: a pooled object stays in the pool iff it is reachable
from the root set, a pooled object not reachable from the roots is
destroyed (removed from the pool), the interned constants — permanently
marked and not pooled — keep their marks, and the sweep only ever
removes pool members.  Hypotheses: every reference points into the
heap, every dictionary's slot-0 lookup table is an array whose contents
are among the dictionary's entries (the `lisp_dict_add_item`
invariant), the roots are valid ids, and the permanently marked
constants only reference permanently marked constants. -/
theorem gc_sweeps_exactly_unreachable (h : List GcObj) (pool : List Nat)
    (m0 : Finset Nat) (roots : Roots)
    (hEB : edgesBoundedB h = true)
    (hTab : tablesOkB h = true)
    (hRoots : ∀ r ∈ roots.list, r < h.length)
    (hBase : BaseClosed h (m0 \ pool.toFinset)) :
    (∀ x ∈ pool,
      (x ∈ (gc h pool m0 roots).2.1 ↔ RootReach h roots x)) ∧
    (∀ x ∈ pool,
      (x ∈ (gc h pool m0 roots).2.2 ↔ ¬ RootReach h roots x)) ∧
    (∀ x ∈ m0 \ pool.toFinset, x ∈ (gc h pool m0 roots).1) ∧
    ∀ x ∈ (gc h pool m0 roots).2.1, x ∈ pool := by
  have hfuel : h.length -
      (((m0 \ pool.toFinset).filter
        (fun z => z < h.length)).card) < h.length + 1 := by
    omega
  obtain ⟨hall, _hbd, hfresh⟩ :=
    (mark_complete h hEB (h.length + 1)).2 (m0 \ pool.toFinset)
      roots.list hRoots hfuel
  have hbaseM : (m0 \ pool.toFinset) ⊆
      markListF h (h.length + 1) (m0 \ pool.toFinset) roots.list :=
    (mark_mono h (h.length + 1)).2 _ _
  set M := markListF h (h.length + 1) (m0 \ pool.toFinset) roots.list
    with hMdef
  have hclosed : ∀ y ∈ M, ∀ o, objAt h y = some o →
      ∀ z ∈ edges o, z ∈ M := by
    intro y hy o ho z hz
    by_cases hyb : y ∈ m0 \ pool.toFinset
    · have hz' : z ∈ (objAt h y).elim [] edges := by
        rw [ho]
        exact hz
      exact hbaseM (hBase y hyb z hz')
    · rcases hfresh y hy hyb with ht | hs
      · rcases List.mem_append.mp hz with hrc | hsh
        · exact (ht o ho).1 z hrc
        · exact (ht o ho).2 z hsh
      · obtain ⟨d, hdM, od, hod, hysh⟩ := hs
        obtain ⟨entries, rfl⟩ := shallow_mem_dict hysh
        obtain ⟨items, hti, hsubent⟩ := dictSlot_ok hTab hod
        have ho2 : o = GcObj.arr items := by
          have := ho.symm.trans hti
          injection this
        subst ho2
        have hzi : z ∈ items.filterMap id := by
          simpa [edges, recChildren, shallowAdds] using hz
        have hz2 : z ∈ entries.filterMap id := hsubent z hzi
        by_cases hdb : d ∈ m0 \ pool.toFinset
        · have hz3 : z ∈ (objAt h d).elim [] edges := by
            rw [hod]
            exact List.mem_append_left _ hz2
          exact hbaseM (hBase d hdb z hz3)
        · rcases hfresh d hdM hdb with htd | hsd
          · exact (htd _ hod).1 z hz2
          · obtain ⟨d2, _, od2, hod2, hdsh⟩ := hsd
            obtain ⟨e2, rfl⟩ := shallow_mem_dict hdsh
            obtain ⟨items2, hti2, _⟩ := dictSlot_ok hTab hod2
            have := hod.symm.trans hti2
            simp at this
  have hreach : ∀ x y, Reaches h x y → x ∈ M → y ∈ M := by
    intro x y hr
    induction hr with
    | refl => exact id
    | step _ he ih =>
      intro hx
      obtain ⟨o, ho, hz⟩ := he
      exact hclosed _ (ih hx) o ho _ hz
  have hM_iff : ∀ x, x ∉ m0 \ pool.toFinset →
      (x ∈ M ↔ RootReach h roots x) := by
    intro x hxb
    constructor
    · intro hx
      rcases (mark_sound h (h.length + 1)).2 _ roots.list x hx with
        hxb' | hres
      · exact absurd hxb' hxb
      · exact hres
    · rintro ⟨r, hrl, hr⟩
      exact hreach r x hr (hall r hrl)
  have hgc1 : (gc h pool m0 roots).1 = M := rfl
  have hgc2 : (gc h pool m0 roots).2.1 =
      pool.filter (fun x => x ∈ M) := rfl
  have hgc3 : (gc h pool m0 roots).2.2 =
      pool.filter (fun x => x ∉ M) := rfl
  refine ⟨?_, ?_, ?_, ?_⟩
  · intro x hxp
    have hxb : x ∉ m0 \ pool.toFinset := fun hc =>
      (Finset.mem_sdiff.mp hc).2 (List.mem_toFinset.mpr hxp)
    rw [hgc2, List.mem_filter]
    constructor
    · intro hx
      exact (hM_iff x hxb).mp (of_decide_eq_true hx.2)
    · intro hx
      exact ⟨hxp, decide_eq_true ((hM_iff x hxb).mpr hx)⟩
  · intro x hxp
    have hxb : x ∉ m0 \ pool.toFinset := fun hc =>
      (Finset.mem_sdiff.mp hc).2 (List.mem_toFinset.mpr hxp)
    rw [hgc3, List.mem_filter]
    constructor
    · intro hx hr
      exact (of_decide_eq_true hx.2) ((hM_iff x hxb).mpr hr)
    · intro hx
      exact ⟨hxp, decide_eq_true (fun hM =>
        hx ((hM_iff x hxb).mp hM))⟩
  · intro x hx
    rw [hgc1]
    exact hbaseM hx
  · intro x hx
    rw [hgc2] at hx
    exact (List.mem_filter.mp hx).1

/-- Witness for C2 at a concrete heap: pool `[1..6]`, constant `0`,
roots covering 1 (stack), 3 (env, a dictionary with a lazy table), 2
(symbols); object 6 is unreachable garbage. -/
theorem gc_sweeps_exactly_unreachable_witness :
    (∀ x ∈ ([1, 2, 3, 4, 5, 6] : List Nat),
      (x ∈ (gc gcHeapW [1, 2, 3, 4, 5, 6] {0} gcRootsW).2.1 ↔
        RootReach gcHeapW gcRootsW x)) ∧
    (∀ x ∈ ([1, 2, 3, 4, 5, 6] : List Nat),
      (x ∈ (gc gcHeapW [1, 2, 3, 4, 5, 6] {0} gcRootsW).2.2 ↔
        ¬ RootReach gcHeapW gcRootsW x)) ∧
    (∀ x ∈ ({0} : Finset Nat) \ ([1, 2, 3, 4, 5, 6] : List Nat).toFinset,
      x ∈ (gc gcHeapW [1, 2, 3, 4, 5, 6] {0} gcRootsW).1) ∧
    ∀ x ∈ (gc gcHeapW [1, 2, 3, 4, 5, 6] {0} gcRootsW).2.1,
      x ∈ ([1, 2, 3, 4, 5, 6] : List Nat) :=
  gc_sweeps_exactly_unreachable gcHeapW [1, 2, 3, 4, 5, 6] {0} gcRootsW
    (by decide) (by decide) (by decide) (by unfold BaseClosed; decide)

/-! ## C3: tail-call trampoline

Embedding of the evaluator core (lisp.c:3403-3698) for the fragment a
self-tail-recursive procedure exercises: `eval_expr` with its
`EXPR-MARK` discipline and tail-call marker construction, the non-tail
apply loop inside `eval_expr`, `eval_args` with its constant-tail
sharing, `eval_list`/`eval_body`, `op_if`, `op_sub`,
`op_numeric_test(=)`, `bind_args` (positional parameters; the
`&`-modifier branches are not reached by plain parameter lists),
`lisp_apply` for primitives and procedures, `apply_procedure` with
`lisp_begin_env`/`lisp_end_env`, and the `eval_procedure_body`
trampoline with its `CADR(t) == c` self-call test.  C pointers to
environments become indices into an environment heap (`envs`), and the
pointer identity test on the procedure is structural equality, faithful
because the procedure object carries a unique allocation id.  Numbers
are modelled as integers (the C `double` arithmetic on integral values
in this range is exact).  `eval_level` (checked against MAX_DEPTH =
1000 and restored on exit) is part of the state, together with two
ghost high-water marks `maxLevel` and `maxStack` recording the peak
evaluator nesting and value-stack depth.  Recursion is fueled; every
loop iteration consumes one unit. -/

inductive SymId where
  | sIf
  | sNumEq
  | sSub
  | sLoop
  | sN
  deriving DecidableEq, Repr

/-- `is_special` flag from `_symtab` (lisp.c:393: `if` has S=1). -/
def SymId.isSpecial : SymId → Bool
  | SymId.sIf => true
  | _ => false

/-- `is_primitive` flag from `_symtab` (`if`, `=`, `-` have P=1). -/
def SymId.isPrimitive : SymId → Bool
  | SymId.sIf => true
  | SymId.sNumEq => true
  | SymId.sSub => true
  | _ => false

inductive Obj where
  | num (v : Int)
  | sym (s : SymId)
  | nilO
  | trueO
  | falseO
  | undefO
  | pair (tailCall : Bool) (isRet : Bool) (car cdr : Obj)
  | proc (pid : Nat) (lam : Obj) (envId : Nat)
  | envRef (id : Nat)
  | exprMark
  | frameMark
  deriving DecidableEq, Repr

/-- `is_const`: numbers (lisp.c:1761), the static nil/true/false/undef
and mark objects; reader-built expression pairs and plain symbols are
not const. -/
def Obj.isConst : Obj → Bool
  | Obj.num _ => true
  | Obj.nilO => true
  | Obj.trueO => true
  | Obj.falseO => true
  | Obj.undefO => true
  | Obj.exprMark => true
  | Obj.frameMark => true
  | _ => false

/-- The `tail_call` header bit. -/
def Obj.tailCallB : Obj → Bool
  | Obj.pair tc _ _ _ => tc
  | _ => false

/-- The `is_return` header bit. -/
def Obj.isRetB : Obj → Bool
  | Obj.pair _ r _ _ => r
  | _ => false

/-- The `is_list` header bit, maintained structurally. -/
def Obj.isListB : Obj → Bool
  | Obj.nilO => true
  | Obj.pair _ _ _ cdr => Obj.isListB cdr
  | _ => false

/-- `CAR`: nil's car is LISP_UNDEF (lisp.c:543-551). -/
def Obj.carF : Obj → Option Obj
  | Obj.nilO => some Obj.undefO
  | Obj.pair _ _ a _ => some a
  | _ => none

/-- `CDR`/`REST`: nil's cdr is nil itself. -/
def Obj.cdrF : Obj → Option Obj
  | Obj.nilO => some Obj.nilO
  | Obj.pair _ _ _ b => some b
  | _ => none

structure EnvFrame where
  bindings : List (SymId × Obj)
  parent : Option Nat
  deriving DecidableEq, Repr

inductive EvErr where
  | fuelOut
  | maxDepth
  | underflow
  | notList
  | cannotEval
  | undefVar (s : SymId)
  | badType
  | missingArgs
  | tooManyArgs
  | badArgs
  | notPrimitive
  | invalidApply
  | badExpr
  deriving DecidableEq, Repr

structure EState where
  stack : List Obj
  envs : List EnvFrame
  env : Nat
  evalLevel : Nat
  maxLevel : Nat
  maxStack : Nat
  deriving DecidableEq, Repr

/-- `lisp_push`, recording the stack high-water mark. -/
def epush (st : EState) (x : Obj) : EState :=
  { st with stack := x :: st.stack,
            maxStack := max st.maxStack (st.stack.length + 1) }

/-- `lisp_cons`: replace the top two entries `.. u t` by the pair
`(u . t)` (lisp.c:2139-2147). -/
def econs (st : EState) : EState :=
  match st.stack with
  | t :: u :: rest => { st with stack := Obj.pair false false u t :: rest }
  | _ => st

/-- `t->obj.tail_call = 1` on the pair at the stack top. -/
def setTailFlag (st : EState) : EState :=
  match st.stack with
  | Obj.pair _ r a b :: rest => { st with stack := Obj.pair true r a b :: rest }
  | _ => st

/-- `lisp_dict_assoc` on an environment's bindings (first match, in
insertion order). -/
def frameAssoc : List (SymId × Obj) → SymId → Option Obj
  | [], _ => none
  | (s', v) :: rest, s => if s' = s then some v else frameAssoc rest s

/-- `lisp_env_assoc` (lisp.c:2374-2381): walk the parent chain.  The
fuel bounds the chain length; `envs.length + 1` suffices for acyclic
chains. -/
def envAssoc : Nat → List EnvFrame → Nat → SymId → Option Obj
  | 0, _, _, _ => none
  | fuel + 1, envs, id, s =>
    match envs.get? id with
    | none => none
    | some f =>
      match frameAssoc f.bindings s with
      | some v => some v
      | none =>
        match f.parent with
        | none => none
        | some p => envAssoc fuel envs p s

/-- `lisp_getvar` (lisp.c:2390-2402): environment lookup; an unbound
primitive symbol evaluates to itself. -/
def getvar (envs : List EnvFrame) (id : Nat) (s : SymId) : Except EvErr Obj :=
  match envAssoc (envs.length + 1) envs id s with
  | some v => .ok v
  | none =>
    if s.isPrimitive then .ok (Obj.sym s) else .error (EvErr.undefVar s)

/-- `lisp_env_new` (lisp.c:2339-2347): allocate a fresh empty frame,
returning its id. -/
def envNew (st : EState) (parent : Option Nat) : EState × Nat :=
  ({ st with envs := st.envs ++ [⟨[], parent⟩] }, st.envs.length)

/-- Replace the bindings of frame `id` (what `clear_env` followed by
`lisp_dict_add` calls amounts to). -/
def setBindings (st : EState) (id : Nat) (bs : List (SymId × Obj)) : EState :=
  match st.envs.get? id with
  | some f => { st with envs := st.envs.set id ⟨bs, f.parent⟩ }
  | none => st

/-- `bind_args` (lisp.c:3543-3578) for plain positional parameters:
missing values and extra values are errors.  The `&`-modifier branches
are unreachable for parameter lists of plain symbols. -/
def bindArgsList : Obj → Obj → Except EvErr (List (SymId × Obj))
  | Obj.nilO, values =>
    if values = Obj.nilO then .ok [] else .error EvErr.tooManyArgs
  | Obj.pair _ _ (Obj.sym s) rest, values =>
    match values with
    | Obj.pair _ _ v vrest => do
      let bs ← bindArgsList rest vrest
      .ok ((s, v) :: bs)
    | Obj.nilO => .error EvErr.missingArgs
    | _ => .error EvErr.badArgs
  | _, _ => .error EvErr.badArgs

/-- `safe_ptr(vm, ., O_NUMBER)`. -/
def asNum : Obj → Except EvErr Int
  | Obj.num v => .ok v
  | _ => .error EvErr.badType

/-- `op_numeric_test` with `numeric_eq` (lisp.c:3850-3862): pairwise
comparison, FALSE on the first failure, TRUE otherwise. -/
def numEqLoop : Obj → Except EvErr Obj
  | Obj.pair _ _ a (Obj.pair tc ir b rest) => do
    let va ← asNum a
    let vb ← asNum b
    if va = vb then numEqLoop (Obj.pair tc ir b rest) else .ok Obj.falseO
  | _ => .ok Obj.trueO

def subLoop : Int → Obj → Except EvErr Int
  | t, Obj.nilO => .ok t
  | t, Obj.pair _ _ a rest => do
    let va ← asNum a
    subLoop (t - va) rest
  | _, _ => .error EvErr.badType

/-- `op_sub` (lisp.c:3791-3806): seed from the first argument when
there are at least two, else negate from zero. -/
def op_sub (args : Obj) : Except EvErr Int :=
  match args with
  | Obj.pair _ _ a rest =>
    if rest = Obj.nilO then subLoop 0 args
    else do
      let va ← asNum a
      subLoop va rest
  | Obj.nilO => .ok 0
  | _ => .error EvErr.badType

/-- First phase of `eval_args` (lisp.c:3403-3410): push every spine
pair of the argument list. -/
def pushSpine : Obj → EState → Option (EState × Nat)
  | Obj.nilO, st => some (st, 0)
  | Obj.pair tc ir a rest, st =>
    match pushSpine rest (epush st (Obj.pair tc ir a rest)) with
    | some (st', n) => some (st', n + 1)
    | none => none
  | _, _ => none

/-- `op->is_special` (checked on the evaluated operator). -/
def opIsSpecial : Obj → Bool
  | Obj.sym s => s.isSpecial
  | _ => false

mutual
/-- `eval_expr` (lisp.c:3459-3514): bump and check `eval_level`, push
EXPR-MARK and the operator, evaluate it, evaluate the arguments (or
push them raw for a special form), then either build the tail-call
marker `(p . (op . args))` with `tail_call = 1` (tail position,
procedure operator), or run the apply loop; finally squash the five
working slots to the result and restore `eval_level`. -/
def evalExpr (fuel : Nat) (atTail : Bool) (p : Obj) (st : EState) :
    Except EvErr EState :=
  match fuel with
  | 0 => .error EvErr.fuelOut
  | fuel + 1 =>
    if st.evalLevel + 1 > 1000 then .error EvErr.maxDepth
    else
      let st1 := { st with evalLevel := st.evalLevel + 1,
                           maxLevel := max st.maxLevel (st.evalLevel + 1) }
      match p with
      | Obj.pair _ _ op0 _ => do
        let st2 ← evalCore fuel false (epush (epush st1 Obj.exprMark) op0)
        match st2.stack with
        | op :: _ =>
          if Obj.isListB p = false then .error EvErr.notList
          else do
            let st3 ←
              if opIsSpecial op then
                match p.cdrF with
                | some rest => pure (epush st2 rest)
                | none => .error EvErr.badExpr
              else
                match p.cdrF with
                | some rest =>
                  match pushSpine rest st2 with
                  | none => .error EvErr.notList
                  | some (stA, n) => evalArgsLoop fuel n (epush stA Obj.nilO)
                | none => .error EvErr.badExpr
            match st3.stack with
            | args :: _ => do
              let st4 ←
                if atTail then
                  match op with
                  | Obj.proc pid lm eid =>
                    pure (setTailFlag (econs (econs
                      (epush (epush (epush st3 p) (Obj.proc pid lm eid))
                        args))))
                  | _ => lispApply fuel op args st3
                else exprApplyLoop fuel op st3
              match st4.stack with
              | r :: _ :: _ :: _ :: _ :: rest' =>
                pure { st4 with stack := r :: rest',
                                evalLevel := st4.evalLevel - 1 }
              | _ => .error EvErr.underflow
            | [] => .error EvErr.underflow
        | [] => .error EvErr.underflow
      | _ => .error EvErr.badExpr
termination_by (fuel, 0)

/-- `lisp_eval_core` (lisp.c:3517-3537): constants evaluate to
themselves, symbols through `lisp_getvar`, pairs through `eval_expr`,
anything else is an error. -/
def evalCore (fuel : Nat) (atTail : Bool) (st : EState) :
    Except EvErr EState :=
  match st.stack with
  | [] => .error EvErr.underflow
  | obj :: rest =>
    if obj.isConst then .ok st
    else
      match obj with
      | Obj.sym s => do
        let v ← getvar st.envs st.env s
        .ok { st with stack := v :: rest }
      | Obj.pair _ _ _ _ => evalExpr fuel atTail obj st
      | _ => .error EvErr.cannotEval
termination_by (fuel, 1)

/-- Second phase of `eval_args` (lisp.c:3410-3425): fold the spine
backwards; a pair whose cdr is (pointer-)equal to the accumulated tail
and whose car is constant is reused as is, otherwise the car is
evaluated and a fresh pair consed onto the saved tail. -/
def evalArgsLoop (fuel : Nat) (n : Nat) (st : EState) :
    Except EvErr EState :=
  match fuel with
  | 0 => .error EvErr.fuelOut
  | fuel + 1 =>
    match n with
    | 0 => .ok st
    | n + 1 =>
      match st.stack with
      | t :: pObj :: rest =>
        match pObj with
        | Obj.pair tc ir pcar pcdr =>
          if pcdr = t ∧ pcar.isConst = true then
            evalArgsLoop fuel n
              { st with stack := Obj.pair tc ir pcar pcdr :: rest }
          else do
            let st1 ← evalCore (fuel + 1) false (epush st pcar)
            match st1.stack with
            | v :: stRest =>
              evalArgsLoop fuel n
                { st1 with stack := Obj.pair false false v t :: stRest.drop 2 }
            | [] => .error EvErr.underflow
        | _ => .error EvErr.badArgs
      | _ => .error EvErr.underflow
termination_by (fuel, 2)

/-- `eval_list` (lisp.c:3430-3441): evaluate all but the last
expression non-tail (stopping on an `is_return` result), the last one
with the given tail flag. -/
def evalList (fuel : Nat) (atTail : Bool) (l : Obj) (st : EState) :
    Except EvErr EState :=
  match fuel with
  | 0 => .error EvErr.fuelOut
  | fuel + 1 =>
    match l with
    | Obj.pair _ _ car cdr =>
      if cdr = Obj.nilO then evalCore (fuel + 1) atTail (epush st car)
      else do
        let st1 ← evalCore (fuel + 1) false (epush st car)
        match st1.stack with
        | r :: rest1 =>
          if r.isRetB then .ok st1
          else evalList fuel atTail cdr { st1 with stack := rest1 }
        | [] => .error EvErr.underflow
    | _ => .error EvErr.badExpr
termination_by (fuel, 3)

/-- `op_if` (lisp.c:3905-3916): evaluate the test; FALSE takes the
else clause, anything else the then clause, both in tail position. -/
def op_if (fuel : Nat) (args : Obj) (st : EState) : Except EvErr EState :=
  match args.carF with
  | none => .error EvErr.badExpr
  | some test => do
    let st1 ← evalCore fuel false (epush st test)
    match st1.stack with
    | v :: rest1 =>
      let st2 := { st1 with stack := rest1 }
      if v = Obj.falseO then
        match (do
          let r ← args.cdrF
          let rr ← Obj.cdrF r
          Obj.carF rr : Option Obj) with
        | some e => evalCore fuel true (epush st2 e)
        | none => .error EvErr.badExpr
      else
        match (do
          let r ← args.cdrF
          Obj.carF r : Option Obj) with
        | some e => evalCore fuel true (epush st2 e)
        | none => .error EvErr.badExpr
    | [] => .error EvErr.underflow
termination_by (fuel, 4)

/-- `eval_procedure_body` (lisp.c:3590-3618): run the body; unwrap an
`is_return` result; while the result is a tail-call marker whose
callable is this very procedure, rebind the arguments in a fresh
environment over the procedure's captured environment, drop the
marker, and iterate. -/
def procBodyLoop (fuel : Nat) (c : Obj) (st : EState) :
    Except EvErr EState :=
  match fuel with
  | 0 => .error EvErr.fuelOut
  | fuel + 1 =>
    match c with
    | Obj.proc pid lam cenvId => do
      match lam.cdrF with
      | some lbody => do
        let st1 ← evalList (fuel + 1) true lbody st
        match st1.stack with
        | t :: rest1 => do
          let stt ←
            if t.isRetB then
              match t.carF with
              | some t' => pure ({ st1 with stack := t' :: rest1 }, t')
              | none => .error EvErr.badExpr
            else pure (st1, t)
          let st2 := stt.1
          let t2 := stt.2
          if t2.tailCallB = true ∧
              (do
                let r ← Obj.cdrF t2
                Obj.carF r : Option Obj) = some (Obj.proc pid lam cenvId)
          then
            match (do
              let r ← Obj.cdrF t2
              Obj.cdrF r : Option Obj) with
            | some args' =>
              match lam.carF with
              | some argNames => do
                let en := envNew st2 (some cenvId)
                let bs ← bindArgsList argNames args'
                let stF := { setBindings en.1 en.2 bs with env := en.2 }
                match stF.stack with
                | _ :: restG =>
                  procBodyLoop fuel (Obj.proc pid lam cenvId)
                    { stF with stack := restG }
                | [] => .error EvErr.underflow
              | none => .error EvErr.badExpr
            | none => .error EvErr.badExpr
          else .ok st2
        | [] => .error EvErr.underflow
      | none => .error EvErr.badExpr
    | _ => .error EvErr.invalidApply
termination_by (fuel, 5)

/-- `apply_procedure` (lisp.c:3620-3625): `lisp_begin_env` (push
FRAME-MARK and the current environment, switch to a fresh child of the
procedure's environment), bind the arguments, run the body trampoline,
`lisp_end_env` (restore the environment and squash the frame to the
result). -/
def applyProcedure (fuel : Nat) (c : Obj) (args : Obj) (st : EState) :
    Except EvErr EState :=
  match c with
  | Obj.proc pid lam cenvId => do
    let st1 := epush (epush st Obj.frameMark) (Obj.envRef st.env)
    let en := envNew st1 (some cenvId)
    let st3 := { en.1 with env := en.2 }
    match lam.carF with
    | some argNames => do
      let bs ← bindArgsList argNames args
      let st4 := setBindings st3 en.2 bs
      let st5 ← procBodyLoop fuel (Obj.proc pid lam cenvId) st4
      match st5.stack with
      | r :: Obj.envRef prevId :: Obj.frameMark :: rest =>
        .ok { st5 with stack := r :: rest, env := prevId }
      | _ => .error EvErr.underflow
    | none => .error EvErr.badExpr
  | _ => .error EvErr.invalidApply
termination_by (fuel, 6)

/-- `lisp_apply` (lisp.c:3664-3698) for the cases this fragment
reaches: primitive symbols through `apply_primitive` (`if`, `=`, `-`),
procedures through `apply_procedure`. -/
def lispApply (fuel : Nat) (op : Obj) (args : Obj) (st : EState) :
    Except EvErr EState :=
  match op with
  | Obj.sym s =>
    if s.isPrimitive then
      match s with
      | SymId.sIf => op_if fuel args st
      | SymId.sNumEq => do
        let r ← numEqLoop args
        .ok (epush st r)
      | SymId.sSub => do
        let v ← op_sub args
        .ok (epush st (Obj.num v))
      | _ => .error EvErr.notPrimitive
    else .error EvErr.notPrimitive
  | Obj.proc pid lam eid => applyProcedure fuel (Obj.proc pid lam eid) args st
  | _ => .error EvErr.invalidApply
termination_by (fuel, 7)

/-- The non-tail apply loop of `eval_expr` (lisp.c:3496-3507): apply;
while the result is a tail-call marker, splice its source expression,
callable and arguments into the working slots, drop the marker, and
apply again. -/
def exprApplyLoop (fuel : Nat) (op : Obj) (st : EState) :
    Except EvErr EState :=
  match fuel with
  | 0 => .error EvErr.fuelOut
  | fuel + 1 =>
    match st.stack with
    | args :: _ => do
      let st1 ← lispApply (fuel + 1) op args st
      match st1.stack with
      | result :: restR =>
        if result.tailCallB = false then .ok st1
        else
          match restR with
          | _ :: _ :: mk :: _ :: below =>
            match result with
            | Obj.pair _ _ src opArgs =>
              match opArgs with
              | Obj.pair _ _ newOp newArgs =>
                exprApplyLoop fuel newOp
                  { st1 with stack := newArgs :: newOp :: mk :: src :: below }
              | _ => .error EvErr.badExpr
            | _ => .error EvErr.badExpr
          | _ => .error EvErr.underflow
      | [] => .error EvErr.underflow
    | [] => .error EvErr.underflow
termination_by (fuel, 8)
end

/-- Reader-built pairs: `tail_call = 0`, `is_return = 0`. -/
def mkListO (xs : List Obj) : Obj :=
  xs.foldr (fun a b => Obj.pair false false a b) Obj.nilO

/-- `(= n 0)` -/
def testExpr : Obj := mkListO [Obj.sym SymId.sNumEq, Obj.sym SymId.sN, Obj.num 0]

/-- `(loop (- n 1))` -/
def elseExpr : Obj :=
  mkListO [Obj.sym SymId.sLoop,
    mkListO [Obj.sym SymId.sSub, Obj.sym SymId.sN, Obj.num 1]]

/-- `(if (= n 0) 0 (loop (- n 1)))` -/
def bodyExpr : Obj := mkListO [Obj.sym SymId.sIf, testExpr, Obj.num 0, elseExpr]

/-- The lambda `((n) (if (= n 0) 0 (loop (- n 1))))`: parameter list
consed onto the body list. -/
def lamObj : Obj :=
  Obj.pair false false (mkListO [Obj.sym SymId.sN]) (mkListO [bodyExpr])

/-- The procedure object `loop`, closed over the global environment
(id 0). -/
def procObj : Obj := Obj.proc 0 lamObj 0

/-- The global environment: binds `loop` to the procedure. -/
def globalFrame : EnvFrame := ⟨[(SymId.sLoop, procObj)], none⟩

/-- `(loop N)` -/
def callExpr (N : Nat) : Obj :=
  mkListO [Obj.sym SymId.sLoop, Obj.num (N : Int)]

/-- Initial VM state: the call expression on the stack, the global
environment, `eval_level` 0. -/
def initState (N : Nat) : EState :=
  ⟨[callExpr N], [globalFrame], 0, 0, 0, 1⟩

/-- The environment frame a trampoline iteration runs in: `n` bound to
the iteration's number, parent the global environment. -/
def iterFrame (k : Int) : EnvFrame := ⟨[(SymId.sN, Obj.num k)], some 0⟩

theorem get?_append_singleton {α : Type} (E : List α) (x : α) :
    (E ++ [x]).get? E.length = some x := by
  induction E with
  | nil => rfl
  | cons a E ih => simpa using ih

theorem getvar_iter_n (E : List EnvFrame) (k : Int) :
    getvar (globalFrame :: E ++ [iterFrame k]) (E.length + 1) SymId.sN =
      .ok (Obj.num k) := by
  simp [getvar, envAssoc, frameAssoc, iterFrame, globalFrame, procObj,
    lamObj, bodyExpr, testExpr, elseExpr, mkListO,
    get?_append_singleton, SymId.isPrimitive]

theorem getvar_iter_loop (E : List EnvFrame) (k : Int) :
    getvar (globalFrame :: E ++ [iterFrame k]) (E.length + 1) SymId.sLoop =
      .ok (Obj.proc 0 (Obj.pair false false (Obj.pair false false (Obj.sym SymId.sN) Obj.nilO) (Obj.pair false false (Obj.pair false false (Obj.sym SymId.sIf) (Obj.pair false false (Obj.pair false false (Obj.sym SymId.sNumEq) (Obj.pair false false (Obj.sym SymId.sN) (Obj.pair false false (Obj.num 0) Obj.nilO))) (Obj.pair false false (Obj.num 0) (Obj.pair false false (Obj.pair false false (Obj.sym SymId.sLoop) (Obj.pair false false (Obj.pair false false (Obj.sym SymId.sSub) (Obj.pair false false (Obj.sym SymId.sN) (Obj.pair false false (Obj.num 1) Obj.nilO))) Obj.nilO)) Obj.nilO)))) Obj.nilO)) 0) := by
  simp [getvar, envAssoc, frameAssoc, iterFrame, globalFrame, procObj,
    lamObj, bodyExpr, testExpr, elseExpr, mkListO,
    get?_append_singleton, SymId.isPrimitive]

theorem getvar_iter_eq (E : List EnvFrame) (k : Int) :
    getvar (globalFrame :: E ++ [iterFrame k]) (E.length + 1) SymId.sNumEq =
      .ok (Obj.sym SymId.sNumEq) := by
  simp [getvar, envAssoc, frameAssoc, iterFrame, globalFrame, procObj,
    lamObj, bodyExpr, testExpr, elseExpr, mkListO,
    get?_append_singleton, SymId.isPrimitive]

theorem getvar_iter_sub (E : List EnvFrame) (k : Int) :
    getvar (globalFrame :: E ++ [iterFrame k]) (E.length + 1) SymId.sSub =
      .ok (Obj.sym SymId.sSub) := by
  simp [getvar, envAssoc, frameAssoc, iterFrame, globalFrame, procObj,
    lamObj, bodyExpr, testExpr, elseExpr, mkListO,
    get?_append_singleton, SymId.isPrimitive]

/-- Ghost stack high-water expression of a three-element primitive
application at stack depth `n`. -/
def gMS (ms n : Nat) : Nat :=
  ms ⊔ (n + 1 + 1) ⊔ (n + 1 + 1 + 1) ⊔ (n + 1 + 1 + 1 + 1) ⊔
      (n + 1 + 1 + 1 + 1 + 1) ⊔ (n + 1 + 1 + 1 + 1 + 1 + 1) ⊔
    (n + 1 + 1 + 1 + 1 + 1 + 1) ⊔ (n + 1 + 1 + 1 + 1 + 1)

theorem eval_test_eq (f : Nat) (k : Int) (E : List EnvFrame)
    (S : List Obj) (ml ms : Nat) :
    evalCore (f + 6) false
      ⟨(Obj.pair false false (Obj.sym SymId.sNumEq) (Obj.pair false false (Obj.sym SymId.sN) (Obj.pair false false (Obj.num 0) Obj.nilO))) :: S, globalFrame :: E ++ [iterFrame k], E.length + 1,
        2, ml, ms⟩ =
    .ok ⟨(if k = 0 then Obj.trueO else Obj.falseO) :: S,
      globalFrame :: E ++ [iterFrame k], E.length + 1, 2,
      ml ⊔ 3, gMS ms S.length⟩ := by
  by_cases hk0 : k = 0
  · simp only [gMS,
      evalCore, evalExpr, evalArgsLoop, evalList, op_if, lispApply,
      exprApplyLoop, applyProcedure, procBodyLoop,
      epush, econs, setTailFlag, pushSpine, opIsSpecial,
      Obj.isConst, Obj.isListB, Obj.carF, Obj.cdrF, Obj.tailCallB, Obj.isRetB,
      SymId.isSpecial, SymId.isPrimitive,
      numEqLoop, asNum, op_sub, subLoop, bindArgsList,
      envNew, setBindings,
      getvar_iter_n, getvar_iter_eq, hk0,
      bind, Except.bind, pure, Except.pure, Option.bind,
      List.length, List.drop,
      reduceIte, reduceCtorEq, Bool.false_eq_true, Bool.true_eq_false,
      decide_eq_true_eq,
      and_true, true_and, and_false, false_and, and_self,
      Nat.reduceAdd, Nat.reduceSub, Nat.reduceGT, Nat.reduceLT,
      Nat.reduceLeDiff,
      if_true, if_false, ite_true, ite_false]
  · simp only [gMS,
      evalCore, evalExpr, evalArgsLoop, evalList, op_if, lispApply,
      exprApplyLoop, applyProcedure, procBodyLoop,
      epush, econs, setTailFlag, pushSpine, opIsSpecial,
      Obj.isConst, Obj.isListB, Obj.carF, Obj.cdrF, Obj.tailCallB, Obj.isRetB,
      SymId.isSpecial, SymId.isPrimitive,
      numEqLoop, asNum, op_sub, subLoop, bindArgsList,
      envNew, setBindings,
      getvar_iter_n, getvar_iter_eq, hk0,
      bind, Except.bind, pure, Except.pure, Option.bind,
      List.length, List.drop,
      reduceIte, reduceCtorEq, Bool.false_eq_true, Bool.true_eq_false,
      decide_eq_true_eq,
      and_true, true_and, and_false, false_and, and_self,
      Nat.reduceAdd, Nat.reduceSub, Nat.reduceGT, Nat.reduceLT,
      Nat.reduceLeDiff,
      if_true, if_false, ite_true, ite_false]

theorem eval_sub_eq (f : Nat) (k : Int) (E : List EnvFrame)
    (S : List Obj) (ml ms : Nat) :
    evalCore (f + 6) false
      ⟨(Obj.pair false false (Obj.sym SymId.sSub) (Obj.pair false false (Obj.sym SymId.sN) (Obj.pair false false (Obj.num 1) Obj.nilO))) :: S, globalFrame :: E ++ [iterFrame k], E.length + 1,
        3, ml, ms⟩ =
    .ok ⟨Obj.num (k - 1) :: S,
      globalFrame :: E ++ [iterFrame k], E.length + 1, 3,
      ml ⊔ 4, gMS ms S.length⟩ := by
  simp only [gMS,
      evalCore, evalExpr, evalArgsLoop, evalList, op_if, lispApply,
      exprApplyLoop, applyProcedure, procBodyLoop,
      epush, econs, setTailFlag, pushSpine, opIsSpecial,
      Obj.isConst, Obj.isListB, Obj.carF, Obj.cdrF, Obj.tailCallB, Obj.isRetB,
      SymId.isSpecial, SymId.isPrimitive,
      numEqLoop, asNum, op_sub, subLoop, bindArgsList,
      envNew, setBindings,
      getvar_iter_n, getvar_iter_sub,
      bind, Except.bind, pure, Except.pure, Option.bind,
      List.length, List.drop,
      reduceIte, reduceCtorEq, Bool.false_eq_true, Bool.true_eq_false,
      decide_eq_true_eq,
      and_true, true_and, and_false, false_and, and_self,
      Nat.reduceAdd, Nat.reduceSub, Nat.reduceGT, Nat.reduceLT,
      Nat.reduceLeDiff,
      if_true, if_false, ite_true, ite_false]


/-- Ghost stack high-water expression of the tail-position
`(loop (- n 1))` evaluation at stack depth `n`. -/
def gMS2 (ms n : Nat) : Nat :=
  ms ⊔ (n + 1 + 1) ⊔ (n + 1 + 1 + 1) ⊔ (n + 1 + 1 + 1 + 1) ⊔
                          (n + 1 + 1 + 1 + 1 + 1) ⊔
                        (n + 1 + 1 + 1 + 1 + 1 + 1) ⊔
                      (n + 1 + 1 + 1 + 1 + 1 + 1 + 1) ⊔
                    (n + 1 + 1 + 1 + 1 + 1 + 1 + 1 + 1) ⊔
                  (n + 1 + 1 + 1 + 1 + 1 + 1 + 1 + 1 + 1) ⊔
                (n + 1 + 1 + 1 + 1 + 1 + 1 + 1 + 1 + 1 + 1) ⊔
              (n + 1 + 1 + 1 + 1 + 1 + 1 + 1 + 1 + 1 + 1 + 1) ⊔
            (n + 1 + 1 + 1 + 1 + 1 + 1 + 1 + 1 + 1 + 1 + 1) ⊔
          (n + 1 + 1 + 1 + 1 + 1 + 1 + 1 + 1 + 1 + 1) ⊔
        (n + 1 + 1 + 1 + 1 + 1) ⊔ (n + 1 + 1 + 1 + 1 + 1 + 1) ⊔
      (n + 1 + 1 + 1 + 1 + 1 + 1 + 1)

theorem eval_else_eq (f : Nat) (k : Int) (E : List EnvFrame)
    (S : List Obj) (ml ms : Nat) :
    evalCore (f + 8) true
      ⟨(Obj.pair false false (Obj.sym SymId.sLoop) (Obj.pair false false (Obj.pair false false (Obj.sym SymId.sSub) (Obj.pair false false (Obj.sym SymId.sN) (Obj.pair false false (Obj.num 1) Obj.nilO))) Obj.nilO)) :: S, globalFrame :: E ++ [iterFrame k], E.length + 1,
        2, ml, ms⟩ =
    .ok ⟨(Obj.pair true false (Obj.pair false false (Obj.sym SymId.sLoop) (Obj.pair false false (Obj.pair false false (Obj.sym SymId.sSub) (Obj.pair false false (Obj.sym SymId.sN) (Obj.pair false false (Obj.num 1) Obj.nilO))) Obj.nilO)) (Obj.pair false false (Obj.proc 0 (Obj.pair false false (Obj.pair false false (Obj.sym SymId.sN) Obj.nilO) (Obj.pair false false (Obj.pair false false (Obj.sym SymId.sIf) (Obj.pair false false (Obj.pair false false (Obj.sym SymId.sNumEq) (Obj.pair false false (Obj.sym SymId.sN) (Obj.pair false false (Obj.num 0) Obj.nilO))) (Obj.pair false false (Obj.num 0) (Obj.pair false false (Obj.pair false false (Obj.sym SymId.sLoop) (Obj.pair false false (Obj.pair false false (Obj.sym SymId.sSub) (Obj.pair false false (Obj.sym SymId.sN) (Obj.pair false false (Obj.num 1) Obj.nilO))) Obj.nilO)) Obj.nilO)))) Obj.nilO)) 0) (Obj.pair false false (Obj.num (k - 1)) Obj.nilO))) :: S,
      globalFrame :: E ++ [iterFrame k], E.length + 1, 2,
      ml ⊔ 3 ⊔ 4, gMS2 ms S.length⟩ := by
  simp only [gMS, gMS2,
      evalCore, evalExpr, evalArgsLoop, lispApply,
      exprApplyLoop,
      epush, econs, setTailFlag, pushSpine, opIsSpecial,
      Obj.isConst, Obj.isListB, Obj.carF, Obj.cdrF, Obj.tailCallB, Obj.isRetB,
      SymId.isSpecial, SymId.isPrimitive,
      numEqLoop, asNum, op_sub, subLoop,
      getvar_iter_loop, eval_sub_eq,
      bind, Except.bind, pure, Except.pure, Option.bind,
      List.length, List.drop,
      reduceIte, reduceCtorEq, Bool.false_eq_true, Bool.true_eq_false,
      decide_eq_true_eq,
      and_true, true_and, and_false, false_and, and_self,
      Nat.reduceAdd, Nat.reduceSub, Nat.reduceGT, Nat.reduceLT,
      Nat.reduceLeDiff,
      if_true, if_false, ite_true, ite_false]

theorem getvar_iter_if (E : List EnvFrame) (k : Int) :
    getvar (globalFrame :: E ++ [iterFrame k]) (E.length + 1) SymId.sIf =
      .ok (Obj.sym SymId.sIf) := by
  simp [getvar, envAssoc, frameAssoc, iterFrame, globalFrame, procObj,
    lamObj, bodyExpr, testExpr, elseExpr, mkListO,
    get?_append_singleton, SymId.isPrimitive]



set_option maxHeartbeats 1000000 in
theorem opif_pos_eq (k : Int) (hk0 : ¬ k = 0) (f : Nat)
    (E : List EnvFrame) (S : List Obj) (ml ms : Nat) :
    op_if (f + 8) (Obj.pair false false (Obj.pair false false (Obj.sym SymId.sNumEq) (Obj.pair false false (Obj.sym SymId.sN) (Obj.pair false false (Obj.num 0) Obj.nilO))) (Obj.pair false false (Obj.num 0) (Obj.pair false false (Obj.pair false false (Obj.sym SymId.sLoop) (Obj.pair false false (Obj.pair false false (Obj.sym SymId.sSub) (Obj.pair false false (Obj.sym SymId.sN) (Obj.pair false false (Obj.num 1) Obj.nilO))) Obj.nilO)) Obj.nilO)))
      ⟨S, globalFrame :: E ++ [iterFrame k], E.length + 1, 2, ml, ms⟩ =
    .ok ⟨(Obj.pair true false (Obj.pair false false (Obj.sym SymId.sLoop) (Obj.pair false false (Obj.pair false false (Obj.sym SymId.sSub) (Obj.pair false false (Obj.sym SymId.sN) (Obj.pair false false (Obj.num 1) Obj.nilO))) Obj.nilO)) (Obj.pair false false (Obj.proc 0 (Obj.pair false false (Obj.pair false false (Obj.sym SymId.sN) Obj.nilO) (Obj.pair false false (Obj.pair false false (Obj.sym SymId.sIf) (Obj.pair false false (Obj.pair false false (Obj.sym SymId.sNumEq) (Obj.pair false false (Obj.sym SymId.sN) (Obj.pair false false (Obj.num 0) Obj.nilO))) (Obj.pair false false (Obj.num 0) (Obj.pair false false (Obj.pair false false (Obj.sym SymId.sLoop) (Obj.pair false false (Obj.pair false false (Obj.sym SymId.sSub) (Obj.pair false false (Obj.sym SymId.sN) (Obj.pair false false (Obj.num 1) Obj.nilO))) Obj.nilO)) Obj.nilO)))) Obj.nilO)) 0) (Obj.pair false false (Obj.num (k - 1)) Obj.nilO))) :: S,
      globalFrame :: E ++ [iterFrame k], E.length + 1, 2,
      ml ⊔ 3 ⊔ 3 ⊔ 4,
      ms ⊔ (S.length + 1) ⊔ (S.length + 1 + 1) ⊔ (S.length + 1 + 1 + 1) ⊔ (S.length + 1 + 1 + 1 + 1) ⊔ (S.length + 1 + 1 + 1 + 1 + 1) ⊔ (S.length + 1 + 1 + 1 + 1 + 1 + 1) ⊔ (S.length + 1 + 1 + 1 + 1 + 1 + 1) ⊔ (S.length + 1 + 1 + 1 + 1 + 1) ⊔ (S.length + 1) ⊔ (S.length + 1 + 1) ⊔ (S.length + 1 + 1 + 1) ⊔ (S.length + 1 + 1 + 1 + 1) ⊔ (S.length + 1 + 1 + 1 + 1 + 1) ⊔ (S.length + 1 + 1 + 1 + 1 + 1 + 1) ⊔ (S.length + 1 + 1 + 1 + 1 + 1 + 1 + 1) ⊔ (S.length + 1 + 1 + 1 + 1 + 1 + 1 + 1 + 1) ⊔ (S.length + 1 + 1 + 1 + 1 + 1 + 1 + 1 + 1 + 1) ⊔ (S.length + 1 + 1 + 1 + 1 + 1 + 1 + 1 + 1 + 1 + 1) ⊔ (S.length + 1 + 1 + 1 + 1 + 1 + 1 + 1 + 1 + 1 + 1 + 1) ⊔ (S.length + 1 + 1 + 1 + 1 + 1 + 1 + 1 + 1 + 1 + 1 + 1) ⊔ (S.length + 1 + 1 + 1 + 1 + 1 + 1 + 1 + 1 + 1 + 1) ⊔ (S.length + 1 + 1 + 1 + 1 + 1) ⊔ (S.length + 1 + 1 + 1 + 1 + 1 + 1) ⊔ (S.length + 1 + 1 + 1 + 1 + 1 + 1 + 1)⟩ := by
  simp only [gMS, gMS2, op_if,
      evalCore, evalExpr, evalArgsLoop, lispApply,
      exprApplyLoop,
      epush, econs, setTailFlag, pushSpine, opIsSpecial,
      Obj.isConst, Obj.isListB, Obj.carF, Obj.cdrF, Obj.tailCallB, Obj.isRetB,
      SymId.isSpecial, SymId.isPrimitive,
      numEqLoop, asNum, op_sub, subLoop,
      eval_test_eq, eval_else_eq, hk0,
      bind, Except.bind, pure, Except.pure, Option.bind,
      List.length, List.drop,
      reduceIte, reduceCtorEq, Bool.false_eq_true, Bool.true_eq_false,
      decide_eq_true_eq,
      and_true, true_and, and_false, false_and, and_self,
      Nat.reduceAdd, Nat.reduceSub, Nat.reduceGT, Nat.reduceLT,
      Nat.reduceLeDiff,
      if_true, if_false, ite_true, ite_false]

set_option maxHeartbeats 1000000 in
theorem opif_zero_eq (f : Nat)
    (E : List EnvFrame) (S : List Obj) (ml ms : Nat) :
    op_if (f + 8) (Obj.pair false false (Obj.pair false false (Obj.sym SymId.sNumEq) (Obj.pair false false (Obj.sym SymId.sN) (Obj.pair false false (Obj.num 0) Obj.nilO))) (Obj.pair false false (Obj.num 0) (Obj.pair false false (Obj.pair false false (Obj.sym SymId.sLoop) (Obj.pair false false (Obj.pair false false (Obj.sym SymId.sSub) (Obj.pair false false (Obj.sym SymId.sN) (Obj.pair false false (Obj.num 1) Obj.nilO))) Obj.nilO)) Obj.nilO)))
      ⟨S, globalFrame :: E ++ [iterFrame 0], E.length + 1, 2, ml, ms⟩ =
    .ok ⟨Obj.num 0 :: S,
      globalFrame :: E ++ [iterFrame 0], E.length + 1, 2,
      ml ⊔ 3,
      ms ⊔ (S.length + 1) ⊔ (S.length + 1 + 1) ⊔ (S.length + 1 + 1 + 1) ⊔ (S.length + 1 + 1 + 1 + 1) ⊔ (S.length + 1 + 1 + 1 + 1 + 1) ⊔ (S.length + 1 + 1 + 1 + 1 + 1 + 1) ⊔ (S.length + 1 + 1 + 1 + 1 + 1 + 1) ⊔ (S.length + 1 + 1 + 1 + 1 + 1) ⊔ (S.length + 1)⟩ := by
  simp only [gMS, gMS2, op_if,
      evalCore, evalExpr, evalArgsLoop, lispApply,
      exprApplyLoop,
      epush, econs, setTailFlag, pushSpine, opIsSpecial,
      Obj.isConst, Obj.isListB, Obj.carF, Obj.cdrF, Obj.tailCallB, Obj.isRetB,
      SymId.isSpecial, SymId.isPrimitive,
      numEqLoop, asNum, op_sub, subLoop,
      eval_test_eq, eval_else_eq,
      bind, Except.bind, pure, Except.pure, Option.bind,
      List.length, List.drop,
      reduceIte, reduceCtorEq, Bool.false_eq_true, Bool.true_eq_false,
      decide_eq_true_eq,
      and_true, true_and, and_false, false_and, and_self,
      Nat.reduceAdd, Nat.reduceSub, Nat.reduceGT, Nat.reduceLT,
      Nat.reduceLeDiff,
      if_true, if_false, ite_true, ite_false]

set_option maxHeartbeats 2000000 in
theorem evalbody_pos_eq (k : Int) (hk0 : ¬ k = 0) (f : Nat)
    (E : List EnvFrame) (S : List Obj) (ml ms : Nat) :
      evalList (f + 9) true (Obj.pair false false (Obj.pair false false (Obj.sym SymId.sIf) (Obj.pair false false (Obj.pair false false (Obj.sym SymId.sNumEq) (Obj.pair false false (Obj.sym SymId.sN) (Obj.pair false false (Obj.num 0) Obj.nilO))) (Obj.pair false false (Obj.num 0) (Obj.pair false false (Obj.pair false false (Obj.sym SymId.sLoop) (Obj.pair false false (Obj.pair false false (Obj.sym SymId.sSub) (Obj.pair false false (Obj.sym SymId.sN) (Obj.pair false false (Obj.num 1) Obj.nilO))) Obj.nilO)) Obj.nilO)))) Obj.nilO)
        ⟨S, globalFrame :: E ++ [iterFrame k], E.length + 1, 1, ml, ms⟩ =
      .ok ⟨(Obj.pair true false (Obj.pair false false (Obj.sym SymId.sLoop) (Obj.pair false false (Obj.pair false false (Obj.sym SymId.sSub) (Obj.pair false false (Obj.sym SymId.sN) (Obj.pair false false (Obj.num 1) Obj.nilO))) Obj.nilO)) (Obj.pair false false (Obj.proc 0 (Obj.pair false false (Obj.pair false false (Obj.sym SymId.sN) Obj.nilO) (Obj.pair false false (Obj.pair false false (Obj.sym SymId.sIf) (Obj.pair false false (Obj.pair false false (Obj.sym SymId.sNumEq) (Obj.pair false false (Obj.sym SymId.sN) (Obj.pair false false (Obj.num 0) Obj.nilO))) (Obj.pair false false (Obj.num 0) (Obj.pair false false (Obj.pair false false (Obj.sym SymId.sLoop) (Obj.pair false false (Obj.pair false false (Obj.sym SymId.sSub) (Obj.pair false false (Obj.sym SymId.sN) (Obj.pair false false (Obj.num 1) Obj.nilO))) Obj.nilO)) Obj.nilO)))) Obj.nilO)) 0) (Obj.pair false false (Obj.num (k - 1)) Obj.nilO))) :: S,
        globalFrame :: E ++ [iterFrame k], E.length + 1, 1,
        ml ⊔ 2 ⊔ 3 ⊔ 3 ⊔ 4,
        ms ⊔ (S.length + 1) ⊔ (S.length + 1 + 1) ⊔ (S.length + 1 + 1 + 1) ⊔ (S.length + 1 + 1 + 1 + 1) ⊔ (S.length + 1 + 1 + 1 + 1 + 1) ⊔ (S.length + 1 + 1 + 1 + 1 + 1 + 1) ⊔ (S.length + 1 + 1 + 1 + 1 + 1 + 1 + 1) ⊔ (S.length + 1 + 1 + 1 + 1 + 1 + 1 + 1 + 1) ⊔ (S.length + 1 + 1 + 1 + 1 + 1 + 1 + 1 + 1 + 1) ⊔ (S.length + 1 + 1 + 1 + 1 + 1 + 1 + 1 + 1 + 1 + 1) ⊔ (S.length + 1 + 1 + 1 + 1 + 1 + 1 + 1 + 1 + 1 + 1) ⊔ (S.length + 1 + 1 + 1 + 1 + 1 + 1 + 1 + 1 + 1) ⊔ (S.length + 1 + 1 + 1 + 1 + 1) ⊔ (S.length + 1 + 1 + 1 + 1 + 1 + 1) ⊔ (S.length + 1 + 1 + 1 + 1 + 1 + 1 + 1) ⊔ (S.length + 1 + 1 + 1 + 1 + 1 + 1 + 1 + 1) ⊔ (S.length + 1 + 1 + 1 + 1 + 1 + 1 + 1 + 1 + 1) ⊔ (S.length + 1 + 1 + 1 + 1 + 1 + 1 + 1 + 1 + 1 + 1) ⊔ (S.length + 1 + 1 + 1 + 1 + 1 + 1 + 1 + 1 + 1 + 1 + 1) ⊔ (S.length + 1 + 1 + 1 + 1 + 1 + 1 + 1 + 1 + 1 + 1 + 1 + 1) ⊔ (S.length + 1 + 1 + 1 + 1 + 1 + 1 + 1 + 1 + 1 + 1 + 1 + 1 + 1) ⊔ (S.length + 1 + 1 + 1 + 1 + 1 + 1 + 1 + 1 + 1 + 1 + 1 + 1 + 1 + 1) ⊔ (S.length + 1 + 1 + 1 + 1 + 1 + 1 + 1 + 1 + 1 + 1 + 1 + 1 + 1 + 1 + 1) ⊔ (S.length + 1 + 1 + 1 + 1 + 1 + 1 + 1 + 1 + 1 + 1 + 1 + 1 + 1 + 1 + 1) ⊔ (S.length + 1 + 1 + 1 + 1 + 1 + 1 + 1 + 1 + 1 + 1 + 1 + 1 + 1 + 1) ⊔ (S.length + 1 + 1 + 1 + 1 + 1 + 1 + 1 + 1 + 1) ⊔ (S.length + 1 + 1 + 1 + 1 + 1 + 1 + 1 + 1 + 1 + 1) ⊔ (S.length + 1 + 1 + 1 + 1 + 1 + 1 + 1 + 1 + 1 + 1 + 1)⟩ := by
  simp only [evalList,
      evalCore, evalExpr, evalArgsLoop, lispApply,
      exprApplyLoop,
      epush, econs, setTailFlag, pushSpine, opIsSpecial,
      Obj.isConst, Obj.isListB, Obj.carF, Obj.cdrF, Obj.tailCallB, Obj.isRetB,
      SymId.isSpecial, SymId.isPrimitive,
      numEqLoop, asNum, op_sub, subLoop,
      getvar_iter_if, hk0,
      bind, Except.bind, pure, Except.pure, Option.bind,
      List.length, List.drop,
      reduceIte, reduceCtorEq, Bool.false_eq_true, Bool.true_eq_false,
      decide_eq_true_eq,
      and_true, true_and, and_false, false_and, and_self,
      Nat.reduceAdd, Nat.reduceSub, Nat.reduceGT, Nat.reduceLT,
      Nat.reduceLeDiff,
      if_true, if_false, ite_true, ite_false]
  rw [opif_pos_eq k hk0]
  simp only [Obj.tailCallB,
      bind, Except.bind, pure, Except.pure, Option.bind,
      List.length, List.drop,
      reduceIte, reduceCtorEq, Bool.false_eq_true, Bool.true_eq_false,
      decide_eq_true_eq,
      and_true, true_and, and_false, false_and, and_self,
      Nat.reduceAdd, Nat.reduceSub, Nat.reduceGT, Nat.reduceLT,
      Nat.reduceLeDiff,
      if_true, if_false, ite_true, ite_false]

set_option maxHeartbeats 2000000 in
theorem evalbody_zero_eq (f : Nat)
    (E : List EnvFrame) (S : List Obj) (ml ms : Nat) :
      evalList (f + 9) true (Obj.pair false false (Obj.pair false false (Obj.sym SymId.sIf) (Obj.pair false false (Obj.pair false false (Obj.sym SymId.sNumEq) (Obj.pair false false (Obj.sym SymId.sN) (Obj.pair false false (Obj.num 0) Obj.nilO))) (Obj.pair false false (Obj.num 0) (Obj.pair false false (Obj.pair false false (Obj.sym SymId.sLoop) (Obj.pair false false (Obj.pair false false (Obj.sym SymId.sSub) (Obj.pair false false (Obj.sym SymId.sN) (Obj.pair false false (Obj.num 1) Obj.nilO))) Obj.nilO)) Obj.nilO)))) Obj.nilO)
        ⟨S, globalFrame :: E ++ [iterFrame 0], E.length + 1, 1, ml, ms⟩ =
      .ok ⟨Obj.num 0 :: S,
        globalFrame :: E ++ [iterFrame 0], E.length + 1, 1,
        ml ⊔ 2 ⊔ 3,
        ms ⊔ (S.length + 1) ⊔ (S.length + 1 + 1) ⊔ (S.length + 1 + 1 + 1) ⊔ (S.length + 1 + 1 + 1 + 1) ⊔ (S.length + 1 + 1 + 1 + 1 + 1) ⊔ (S.length + 1 + 1 + 1 + 1 + 1 + 1) ⊔ (S.length + 1 + 1 + 1 + 1 + 1 + 1 + 1) ⊔ (S.length + 1 + 1 + 1 + 1 + 1 + 1 + 1 + 1) ⊔ (S.length + 1 + 1 + 1 + 1 + 1 + 1 + 1 + 1 + 1) ⊔ (S.length + 1 + 1 + 1 + 1 + 1 + 1 + 1 + 1 + 1 + 1) ⊔ (S.length + 1 + 1 + 1 + 1 + 1 + 1 + 1 + 1 + 1 + 1) ⊔ (S.length + 1 + 1 + 1 + 1 + 1 + 1 + 1 + 1 + 1) ⊔ (S.length + 1 + 1 + 1 + 1 + 1)⟩ := by
  simp only [evalList,
      evalCore, evalExpr, evalArgsLoop, lispApply,
      exprApplyLoop,
      epush, econs, setTailFlag, pushSpine, opIsSpecial,
      Obj.isConst, Obj.isListB, Obj.carF, Obj.cdrF, Obj.tailCallB, Obj.isRetB,
      SymId.isSpecial, SymId.isPrimitive,
      numEqLoop, asNum, op_sub, subLoop,
      getvar_iter_if,
      bind, Except.bind, pure, Except.pure, Option.bind,
      List.length, List.drop,
      reduceIte, reduceCtorEq, Bool.false_eq_true, Bool.true_eq_false,
      decide_eq_true_eq,
      and_true, true_and, and_false, false_and, and_self,
      Nat.reduceAdd, Nat.reduceSub, Nat.reduceGT, Nat.reduceLT,
      Nat.reduceLeDiff,
      if_true, if_false, ite_true, ite_false]
  rw [opif_zero_eq]
  simp only [Obj.tailCallB,
      bind, Except.bind, pure, Except.pure, Option.bind,
      List.length, List.drop,
      reduceIte, reduceCtorEq, Bool.false_eq_true, Bool.true_eq_false,
      decide_eq_true_eq,
      and_true, true_and, and_false, false_and, and_self,
      Nat.reduceAdd, Nat.reduceSub, Nat.reduceGT, Nat.reduceLT,
      Nat.reduceLeDiff,
      if_true, if_false, ite_true, ite_false]

def baseStack2 (a b : Obj) : List Obj :=
  [Obj.envRef 0, Obj.frameMark, a, (Obj.proc 0 (Obj.pair false false (Obj.pair false false (Obj.sym SymId.sN) Obj.nilO) (Obj.pair false false (Obj.pair false false (Obj.sym SymId.sIf) (Obj.pair false false (Obj.pair false false (Obj.sym SymId.sNumEq) (Obj.pair false false (Obj.sym SymId.sN) (Obj.pair false false (Obj.num 0) Obj.nilO))) (Obj.pair false false (Obj.num 0) (Obj.pair false false (Obj.pair false false (Obj.sym SymId.sLoop) (Obj.pair false false (Obj.pair false false (Obj.sym SymId.sSub) (Obj.pair false false (Obj.sym SymId.sN) (Obj.pair false false (Obj.num 1) Obj.nilO))) Obj.nilO)) Obj.nilO)))) Obj.nilO)) 0), Obj.exprMark, b]

theorem baseStack2_length (a b : Obj) : (baseStack2 a b).length = 6 := rfl

theorem set_append_singleton {α : Type} (E : List α) (x y : α) :
    (E ++ [x]).set E.length y = E ++ [y] := by
  induction E with
  | nil => rfl
  | cons a E ih => simp [List.set, ih]

theorem ebind_ok {α β : Type} (a : α) (g : α → Except EvErr β) :
    (Except.ok a >>= g) = g a := rfl

set_option maxHeartbeats 1000000 in
theorem loop_step (k : Int) (hk0 : ¬ k = 0) (f : Nat)
    (E : List EnvFrame) (a b : Obj) (ml ms : Nat) :
      procBodyLoop (f + 9) (Obj.proc 0 (Obj.pair false false (Obj.pair false false (Obj.sym SymId.sN) Obj.nilO) (Obj.pair false false (Obj.pair false false (Obj.sym SymId.sIf) (Obj.pair false false (Obj.pair false false (Obj.sym SymId.sNumEq) (Obj.pair false false (Obj.sym SymId.sN) (Obj.pair false false (Obj.num 0) Obj.nilO))) (Obj.pair false false (Obj.num 0) (Obj.pair false false (Obj.pair false false (Obj.sym SymId.sLoop) (Obj.pair false false (Obj.pair false false (Obj.sym SymId.sSub) (Obj.pair false false (Obj.sym SymId.sN) (Obj.pair false false (Obj.num 1) Obj.nilO))) Obj.nilO)) Obj.nilO)))) Obj.nilO)) 0)
        ⟨baseStack2 a b, globalFrame :: E ++ [iterFrame k], E.length + 1,
          1, ml, ms⟩ =
      procBodyLoop (f + 8) (Obj.proc 0 (Obj.pair false false (Obj.pair false false (Obj.sym SymId.sN) Obj.nilO) (Obj.pair false false (Obj.pair false false (Obj.sym SymId.sIf) (Obj.pair false false (Obj.pair false false (Obj.sym SymId.sNumEq) (Obj.pair false false (Obj.sym SymId.sN) (Obj.pair false false (Obj.num 0) Obj.nilO))) (Obj.pair false false (Obj.num 0) (Obj.pair false false (Obj.pair false false (Obj.sym SymId.sLoop) (Obj.pair false false (Obj.pair false false (Obj.sym SymId.sSub) (Obj.pair false false (Obj.sym SymId.sN) (Obj.pair false false (Obj.num 1) Obj.nilO))) Obj.nilO)) Obj.nilO)))) Obj.nilO)) 0)
        ⟨baseStack2 a b,
          globalFrame :: E ++ [iterFrame k] ++
            [⟨[(SymId.sN, Obj.num (k - 1))], some 0⟩],
          (globalFrame :: E ++ [iterFrame k]).length, 1,
          ml ⊔ 2 ⊔ 3 ⊔ 3 ⊔ 4,
          ms ⊔ ((baseStack2 a b).length + 1) ⊔ ((baseStack2 a b).length + 1 + 1) ⊔ ((baseStack2 a b).length + 1 + 1 + 1) ⊔ ((baseStack2 a b).length + 1 + 1 + 1 + 1) ⊔ ((baseStack2 a b).length + 1 + 1 + 1 + 1 + 1) ⊔ ((baseStack2 a b).length + 1 + 1 + 1 + 1 + 1 + 1) ⊔ ((baseStack2 a b).length + 1 + 1 + 1 + 1 + 1 + 1 + 1) ⊔ ((baseStack2 a b).length + 1 + 1 + 1 + 1 + 1 + 1 + 1 + 1) ⊔ ((baseStack2 a b).length + 1 + 1 + 1 + 1 + 1 + 1 + 1 + 1 + 1) ⊔ ((baseStack2 a b).length + 1 + 1 + 1 + 1 + 1 + 1 + 1 + 1 + 1 + 1) ⊔ ((baseStack2 a b).length + 1 + 1 + 1 + 1 + 1 + 1 + 1 + 1 + 1 + 1) ⊔ ((baseStack2 a b).length + 1 + 1 + 1 + 1 + 1 + 1 + 1 + 1 + 1) ⊔ ((baseStack2 a b).length + 1 + 1 + 1 + 1 + 1) ⊔ ((baseStack2 a b).length + 1 + 1 + 1 + 1 + 1 + 1) ⊔ ((baseStack2 a b).length + 1 + 1 + 1 + 1 + 1 + 1 + 1) ⊔ ((baseStack2 a b).length + 1 + 1 + 1 + 1 + 1 + 1 + 1 + 1) ⊔ ((baseStack2 a b).length + 1 + 1 + 1 + 1 + 1 + 1 + 1 + 1 + 1) ⊔ ((baseStack2 a b).length + 1 + 1 + 1 + 1 + 1 + 1 + 1 + 1 + 1 + 1) ⊔ ((baseStack2 a b).length + 1 + 1 + 1 + 1 + 1 + 1 + 1 + 1 + 1 + 1 + 1) ⊔ ((baseStack2 a b).length + 1 + 1 + 1 + 1 + 1 + 1 + 1 + 1 + 1 + 1 + 1 + 1) ⊔ ((baseStack2 a b).length + 1 + 1 + 1 + 1 + 1 + 1 + 1 + 1 + 1 + 1 + 1 + 1 + 1) ⊔ ((baseStack2 a b).length + 1 + 1 + 1 + 1 + 1 + 1 + 1 + 1 + 1 + 1 + 1 + 1 + 1 + 1) ⊔ ((baseStack2 a b).length + 1 + 1 + 1 + 1 + 1 + 1 + 1 + 1 + 1 + 1 + 1 + 1 + 1 + 1 + 1) ⊔ ((baseStack2 a b).length + 1 + 1 + 1 + 1 + 1 + 1 + 1 + 1 + 1 + 1 + 1 + 1 + 1 + 1 + 1) ⊔ ((baseStack2 a b).length + 1 + 1 + 1 + 1 + 1 + 1 + 1 + 1 + 1 + 1 + 1 + 1 + 1 + 1) ⊔ ((baseStack2 a b).length + 1 + 1 + 1 + 1 + 1 + 1 + 1 + 1 + 1) ⊔ ((baseStack2 a b).length + 1 + 1 + 1 + 1 + 1 + 1 + 1 + 1 + 1 + 1) ⊔ ((baseStack2 a b).length + 1 + 1 + 1 + 1 + 1 + 1 + 1 + 1 + 1 + 1 + 1)⟩ := by
  rw [show f + 9 = (f + 8) + 1 from by omega]
  rw [procBodyLoop]
  simp only [Obj.cdrF, Obj.carF, Nat.reduceAdd, bind, Except.bind]
  rw [show f + 8 + 1 = f + 9 from by omega]
  rw [evalbody_pos_eq k hk0]
  simp only [Obj.isRetB, Obj.tailCallB, Obj.cdrF, Obj.carF,
    eq_self_iff_true, and_self, and_true, true_and,
    reduceIte, reduceCtorEq, ite_true, ite_false, ebind_ok,
    Option.bind, pure, Except.pure,
    bindArgsList, envNew, setBindings,
    get?_append_singleton, set_append_singleton]

set_option maxHeartbeats 1000000 in
theorem loop_final (f : Nat)
    (E : List EnvFrame) (a b : Obj) (ml ms : Nat) :
      procBodyLoop (f + 9) (Obj.proc 0 (Obj.pair false false (Obj.pair false false (Obj.sym SymId.sN) Obj.nilO) (Obj.pair false false (Obj.pair false false (Obj.sym SymId.sIf) (Obj.pair false false (Obj.pair false false (Obj.sym SymId.sNumEq) (Obj.pair false false (Obj.sym SymId.sN) (Obj.pair false false (Obj.num 0) Obj.nilO))) (Obj.pair false false (Obj.num 0) (Obj.pair false false (Obj.pair false false (Obj.sym SymId.sLoop) (Obj.pair false false (Obj.pair false false (Obj.sym SymId.sSub) (Obj.pair false false (Obj.sym SymId.sN) (Obj.pair false false (Obj.num 1) Obj.nilO))) Obj.nilO)) Obj.nilO)))) Obj.nilO)) 0)
        ⟨baseStack2 a b, globalFrame :: E ++ [iterFrame 0], E.length + 1,
          1, ml, ms⟩ =
      .ok ⟨Obj.num 0 :: baseStack2 a b,
        globalFrame :: E ++ [iterFrame 0], E.length + 1, 1,
        ml ⊔ 2 ⊔ 3,
        ms ⊔ ((baseStack2 a b).length + 1) ⊔ ((baseStack2 a b).length + 1 + 1) ⊔ ((baseStack2 a b).length + 1 + 1 + 1) ⊔ ((baseStack2 a b).length + 1 + 1 + 1 + 1) ⊔ ((baseStack2 a b).length + 1 + 1 + 1 + 1 + 1) ⊔ ((baseStack2 a b).length + 1 + 1 + 1 + 1 + 1 + 1) ⊔ ((baseStack2 a b).length + 1 + 1 + 1 + 1 + 1 + 1 + 1) ⊔ ((baseStack2 a b).length + 1 + 1 + 1 + 1 + 1 + 1 + 1 + 1) ⊔ ((baseStack2 a b).length + 1 + 1 + 1 + 1 + 1 + 1 + 1 + 1 + 1) ⊔ ((baseStack2 a b).length + 1 + 1 + 1 + 1 + 1 + 1 + 1 + 1 + 1 + 1) ⊔ ((baseStack2 a b).length + 1 + 1 + 1 + 1 + 1 + 1 + 1 + 1 + 1 + 1) ⊔ ((baseStack2 a b).length + 1 + 1 + 1 + 1 + 1 + 1 + 1 + 1 + 1) ⊔ ((baseStack2 a b).length + 1 + 1 + 1 + 1 + 1)⟩ := by
  rw [show f + 9 = (f + 8) + 1 from by omega]
  rw [procBodyLoop]
  simp only [Obj.cdrF, Obj.carF, Nat.reduceAdd, bind, Except.bind]
  rw [show f + 8 + 1 = f + 9 from by omega]
  rw [evalbody_zero_eq]
  simp only [Obj.isRetB, Obj.tailCallB, Obj.cdrF, Obj.carF,
    eq_self_iff_true, and_self, and_true, true_and,
    reduceIte, reduceCtorEq, ite_true, ite_false, ebind_ok,
    Option.bind, pure, Except.pure,
    bindArgsList, envNew, setBindings,
    get?_append_singleton, set_append_singleton]

set_option maxHeartbeats 1000000 in
theorem loop_ok (j : Nat) : ∀ (E : List EnvFrame) (a b : Obj) (ml ms : Nat),
    ∃ (V : List EnvFrame) (v ml2 ms2 : Nat),
      procBodyLoop (j + 9) (Obj.proc 0 (Obj.pair false false (Obj.pair false false (Obj.sym SymId.sN) Obj.nilO) (Obj.pair false false (Obj.pair false false (Obj.sym SymId.sIf) (Obj.pair false false (Obj.pair false false (Obj.sym SymId.sNumEq) (Obj.pair false false (Obj.sym SymId.sN) (Obj.pair false false (Obj.num 0) Obj.nilO))) (Obj.pair false false (Obj.num 0) (Obj.pair false false (Obj.pair false false (Obj.sym SymId.sLoop) (Obj.pair false false (Obj.pair false false (Obj.sym SymId.sSub) (Obj.pair false false (Obj.sym SymId.sN) (Obj.pair false false (Obj.num 1) Obj.nilO))) Obj.nilO)) Obj.nilO)))) Obj.nilO)) 0)
        ⟨baseStack2 a b,
          globalFrame :: E ++ [iterFrame ((j : Nat) : Int)],
          E.length + 1, 1, ml, ms⟩ =
        .ok ⟨Obj.num 0 :: baseStack2 a b, V, v, 1, ml2, ms2⟩ ∧
      ml2 ≤ ml ⊔ 4 ∧ ms2 ≤ ms ⊔ 21 := by
  induction j with
  | zero =>
    intro E a b ml ms
    refine ⟨globalFrame :: E ++ [iterFrame 0], E.length + 1,
      ml ⊔ 2 ⊔ 3,
      ms ⊔ ((baseStack2 a b).length + 1) ⊔ ((baseStack2 a b).length + 1 + 1) ⊔ ((baseStack2 a b).length + 1 + 1 + 1) ⊔ ((baseStack2 a b).length + 1 + 1 + 1 + 1) ⊔ ((baseStack2 a b).length + 1 + 1 + 1 + 1 + 1) ⊔ ((baseStack2 a b).length + 1 + 1 + 1 + 1 + 1 + 1) ⊔ ((baseStack2 a b).length + 1 + 1 + 1 + 1 + 1 + 1 + 1) ⊔ ((baseStack2 a b).length + 1 + 1 + 1 + 1 + 1 + 1 + 1 + 1) ⊔ ((baseStack2 a b).length + 1 + 1 + 1 + 1 + 1 + 1 + 1 + 1 + 1) ⊔ ((baseStack2 a b).length + 1 + 1 + 1 + 1 + 1 + 1 + 1 + 1 + 1 + 1) ⊔ ((baseStack2 a b).length + 1 + 1 + 1 + 1 + 1 + 1 + 1 + 1 + 1 + 1) ⊔ ((baseStack2 a b).length + 1 + 1 + 1 + 1 + 1 + 1 + 1 + 1 + 1) ⊔ ((baseStack2 a b).length + 1 + 1 + 1 + 1 + 1), ?_, ?_, ?_⟩
    · rw [show (((0 : Nat)) : Int) = (0 : Int) from by norm_num]
      exact loop_final 0 E a b ml ms
    · simp only [sup_le_iff]
      omega
    · simp only [baseStack2_length, Nat.reduceAdd, sup_le_iff]
      omega
  | succ j ih =>
    intro E a b ml ms
    have hk : ¬ ((j : Int) + 1 = 0) := by omega
    obtain ⟨V, v, ml2, ms2, heq, h1, h2⟩ :=
      ih (E ++ [iterFrame ((j : Int) + 1)]) a b
        (ml ⊔ 2 ⊔ 3 ⊔ 3 ⊔ 4)
        (ms ⊔ ((baseStack2 a b).length + 1) ⊔ ((baseStack2 a b).length + 1 + 1) ⊔ ((baseStack2 a b).length + 1 + 1 + 1) ⊔ ((baseStack2 a b).length + 1 + 1 + 1 + 1) ⊔ ((baseStack2 a b).length + 1 + 1 + 1 + 1 + 1) ⊔ ((baseStack2 a b).length + 1 + 1 + 1 + 1 + 1 + 1) ⊔ ((baseStack2 a b).length + 1 + 1 + 1 + 1 + 1 + 1 + 1) ⊔ ((baseStack2 a b).length + 1 + 1 + 1 + 1 + 1 + 1 + 1 + 1) ⊔ ((baseStack2 a b).length + 1 + 1 + 1 + 1 + 1 + 1 + 1 + 1 + 1) ⊔ ((baseStack2 a b).length + 1 + 1 + 1 + 1 + 1 + 1 + 1 + 1 + 1 + 1) ⊔ ((baseStack2 a b).length + 1 + 1 + 1 + 1 + 1 + 1 + 1 + 1 + 1 + 1) ⊔ ((baseStack2 a b).length + 1 + 1 + 1 + 1 + 1 + 1 + 1 + 1 + 1) ⊔ ((baseStack2 a b).length + 1 + 1 + 1 + 1 + 1) ⊔ ((baseStack2 a b).length + 1 + 1 + 1 + 1 + 1 + 1) ⊔ ((baseStack2 a b).length + 1 + 1 + 1 + 1 + 1 + 1 + 1) ⊔ ((baseStack2 a b).length + 1 + 1 + 1 + 1 + 1 + 1 + 1 + 1) ⊔ ((baseStack2 a b).length + 1 + 1 + 1 + 1 + 1 + 1 + 1 + 1 + 1) ⊔ ((baseStack2 a b).length + 1 + 1 + 1 + 1 + 1 + 1 + 1 + 1 + 1 + 1) ⊔ ((baseStack2 a b).length + 1 + 1 + 1 + 1 + 1 + 1 + 1 + 1 + 1 + 1 + 1) ⊔ ((baseStack2 a b).length + 1 + 1 + 1 + 1 + 1 + 1 + 1 + 1 + 1 + 1 + 1 + 1) ⊔ ((baseStack2 a b).length + 1 + 1 + 1 + 1 + 1 + 1 + 1 + 1 + 1 + 1 + 1 + 1 + 1) ⊔ ((baseStack2 a b).length + 1 + 1 + 1 + 1 + 1 + 1 + 1 + 1 + 1 + 1 + 1 + 1 + 1 + 1) ⊔ ((baseStack2 a b).length + 1 + 1 + 1 + 1 + 1 + 1 + 1 + 1 + 1 + 1 + 1 + 1 + 1 + 1 + 1) ⊔ ((baseStack2 a b).length + 1 + 1 + 1 + 1 + 1 + 1 + 1 + 1 + 1 + 1 + 1 + 1 + 1 + 1 + 1) ⊔ ((baseStack2 a b).length + 1 + 1 + 1 + 1 + 1 + 1 + 1 + 1 + 1 + 1 + 1 + 1 + 1 + 1) ⊔ ((baseStack2 a b).length + 1 + 1 + 1 + 1 + 1 + 1 + 1 + 1 + 1) ⊔ ((baseStack2 a b).length + 1 + 1 + 1 + 1 + 1 + 1 + 1 + 1 + 1 + 1) ⊔ ((baseStack2 a b).length + 1 + 1 + 1 + 1 + 1 + 1 + 1 + 1 + 1 + 1 + 1))
    refine ⟨V, v, ml2, ms2, ?_, ?_, ?_⟩
    · have hstep := loop_step ((j : Int) + 1) hk (j + 1) E a b ml ms
      rw [show ((((j : Nat) + 1 : Nat)) : Int) = (j : Int) + 1 by push_cast; ring]
      rw [hstep]
      rw [show ((j : Int) + 1 - 1) = (j : Int) from by ring]
      rw [show j + 1 + 8 = j + 9 from rfl]
      rw [show (⟨[(SymId.sN, Obj.num (j : Int))], some 0⟩ : EnvFrame) = iterFrame (j : Int) from rfl]
      rw [show (globalFrame :: E ++ [iterFrame ((j : Int) + 1)]).length = (E ++ [iterFrame ((j : Int) + 1)]).length + 1 from rfl]
      exact heq
    · refine le_trans h1 ?_
      simp only [sup_le_iff]
      omega
    · refine le_trans h2 ?_
      simp only [baseStack2_length, Nat.reduceAdd, sup_le_iff]
      omega

theorem getvar_global_loop :
    getvar [globalFrame] 0 SymId.sLoop =
      .ok (Obj.proc 0 (Obj.pair false false (Obj.pair false false (Obj.sym SymId.sN) Obj.nilO) (Obj.pair false false (Obj.pair false false (Obj.sym SymId.sIf) (Obj.pair false false (Obj.pair false false (Obj.sym SymId.sNumEq) (Obj.pair false false (Obj.sym SymId.sN) (Obj.pair false false (Obj.num 0) Obj.nilO))) (Obj.pair false false (Obj.num 0) (Obj.pair false false (Obj.pair false false (Obj.sym SymId.sLoop) (Obj.pair false false (Obj.pair false false (Obj.sym SymId.sSub) (Obj.pair false false (Obj.sym SymId.sN) (Obj.pair false false (Obj.num 1) Obj.nilO))) Obj.nilO)) Obj.nilO)))) Obj.nilO)) 0) := by
  simp [getvar, envAssoc, frameAssoc, globalFrame, procObj, lamObj,
    bodyExpr, testExpr, elseExpr, mkListO, SymId.isPrimitive]

set_option maxHeartbeats 4000000 in
theorem trampoline_constant_space (N : Nat) :
    ∃ (V : List EnvFrame) (ml ms : Nat),
      evalCore (N + 10) false (initState N) =
        .ok ⟨[Obj.num 0], V, 0, 0, ml, ms⟩ ∧ ml ≤ 4 ∧ ms ≤ 21 := by
  obtain ⟨V, v, ml2, ms2, heq, h1, h2⟩ :=
    loop_ok N [] (Obj.pair false false (Obj.num (N : Int)) Obj.nilO)
      (Obj.pair false false (Obj.sym SymId.sLoop)
        (Obj.pair false false (Obj.num (N : Int)) Obj.nilO)) 1 6
  simp only [List.cons_append, List.nil_append, List.length_nil,
    Nat.reduceAdd, iterFrame, baseStack2] at heq
  refine ⟨V, ml2, ms2, ?_, by omega, by omega⟩
  simp only [initState, callExpr, mkListO, List.foldr,
      evalCore, evalExpr, evalArgsLoop, lispApply, exprApplyLoop,
      applyProcedure,
      epush, econs, setTailFlag, pushSpine, opIsSpecial,
      Obj.isConst, Obj.isListB, Obj.carF, Obj.cdrF, Obj.tailCallB, Obj.isRetB,
      SymId.isSpecial, SymId.isPrimitive,
      bindArgsList, envNew, setBindings,
      getvar_global_loop,
      bind, Except.bind, pure, Except.pure, Option.bind,
      List.length, List.drop, Nat.max_def,
      List.cons_append, List.nil_append,
      List.get?_cons_succ, List.get?_cons_zero,
      List.set_cons_succ, List.set_cons_zero,
      reduceIte, reduceCtorEq, Bool.false_eq_true, Bool.true_eq_false,
      decide_eq_true_eq,
      and_true, true_and, and_false, false_and, and_self,
      Nat.reduceAdd, Nat.reduceSub, Nat.reduceGT, Nat.reduceLT,
      Nat.reduceLeDiff,
      if_true, if_false, ite_true, ite_false]
  rw [show N + 8 + 1 = N + 9 from rfl]
  rw [heq]
  simp only [Obj.tailCallB,
      reduceIte, reduceCtorEq, Bool.false_eq_true, Bool.true_eq_false,
      decide_eq_true_eq, Nat.reduceSub,
      if_true, if_false, ite_true, ite_false]

/-- **C3.**  Tail calls are O(1) in stack depth.  First conjunct: for
every `N`, evaluating `(loop N)` for the self-tail-recursive procedure
`loop = (lambda (n) (if (= n 0) 0 (loop (- n 1))))` terminates with the
single result `0` on the value stack, the evaluator-recursion level
restored to `0`, and the two ghost high-water marks — peak `eval_level`
(host-call depth) and peak value-stack depth — bounded by the constants
`4` and `21`, independent of `N`.  Second conjunct (the mechanism): in
every iteration with `n = k ≠ 0`, evaluating the procedure body in tail
position does not recurse into the callee: it returns, at the caller's
stack depth and at the same `eval_level`, the marker pair
`(source-expr . (procedure . (k-1)))` with the `tail_call` bit set,
which `eval_procedure_body`'s trampoline loop consumes. -/
theorem tail_call_trampoline (N : Nat) :
    (∃ (V : List EnvFrame) (ml ms : Nat),
      evalCore (N + 10) false (initState N) =
        .ok ⟨[Obj.num 0], V, 0, 0, ml, ms⟩ ∧ ml ≤ 4 ∧ ms ≤ 21) ∧
    (∀ (k : Int) (f : Nat) (E : List EnvFrame) (S : List Obj) (ml ms : Nat),
      k ≠ 0 →
      ∃ (ml2 ms2 : Nat),
        evalList (f + 9) true (mkListO [bodyExpr])
          ⟨S, globalFrame :: E ++ [iterFrame k], E.length + 1, 1, ml, ms⟩ =
        .ok ⟨Obj.pair true false elseExpr
              (Obj.pair false false procObj
                (Obj.pair false false (Obj.num (k - 1)) Obj.nilO)) :: S,
          globalFrame :: E ++ [iterFrame k], E.length + 1, 1, ml2, ms2⟩) := by
  constructor
  · exact trampoline_constant_space N
  · intro k f E S ml ms hk
    exact ⟨_, _, evalbody_pos_eq k hk f E S ml ms⟩

/-- Witness for C3: the run at `N = 2`, and the marker pair produced by
the body evaluation at `k = 1`. -/
theorem tail_call_trampoline_witness :
    (∃ (V : List EnvFrame) (ml ms : Nat),
      evalCore 12 false (initState 2) =
        .ok ⟨[Obj.num 0], V, 0, 0, ml, ms⟩ ∧ ml ≤ 4 ∧ ms ≤ 21) ∧
    (∃ (ml2 ms2 : Nat),
      evalList 9 true (mkListO [bodyExpr])
        ⟨[], [globalFrame, iterFrame 1], 1, 1, 0, 0⟩ =
      .ok ⟨[Obj.pair true false elseExpr
            (Obj.pair false false procObj
              (Obj.pair false false (Obj.num (1 - 1)) Obj.nilO))],
        [globalFrame, iterFrame 1], 1, 1, ml2, ms2⟩) :=
  ⟨(tail_call_trampoline 2).1,
   (tail_call_trampoline 2).2 1 0 [] [] 0 0 (by decide)⟩

end Twinkle
